import Mathlib

/-!
Verification development for the workflow execution engine of the
`sixtyfour-takehome` backend (`backend/engine.py`, `backend/blocks/*.py`).

The Python code is shallowly embedded as pure Lean functions:

* a pandas `DataFrame` becomes `Frame`: a column-name list plus rows keyed by
  the pandas integer index label; a missing cell (NaN / None) is `Option.none`;
* the asynchronous block `execute` methods become pure functions returning a
  `BlockOut`: the result (`ok` frame / `paused` frame+row / raised error /
  divergence), the ordered list of values passed to `on_progress`, and the
  ordered list of enrichment-client calls issued;
* the cooperative pause flag (`state.pause_requested`, set once by
  `request_pause` and cleared at the start of `execute_workflow`) is modelled
  as a threshold oracle: the n-th call of `pause_check` during one
  `execute_workflow` run returns `true` iff `n` has reached the threshold
  `k : Option Nat` (`none` = pause is never requested).  This is faithful
  because the flag is monotone within one run;
* the remote Sixtyfour client, the CSV codec and the file system are injected
  as an `Env` / `FS` parameter (they are collaborators outside the core);
* wall-clock timestamps (`started_at` / `completed_at`) are elided: no claim
  mentions them;
* the Python `while` loops of the enrichment blocks are written with explicit
  fuel; the fuel is chosen large enough to cover every terminating behaviour,
  and exhaustion yields the distinguished result `hung`, which models the real
  non-termination of the Python loop (`batch_size = 0` with no pause request,
  or `asyncio.Semaphore(0)` dead-locking a non-empty batch).
-/

namespace Workflow

/-- Python scalar values that can appear in a cell or a config entry. -/
inductive Val where
  | vStr (s : String)
  | vInt (n : Int)
  | vBool (b : Bool)
deriving DecidableEq, Repr

/-- One cell of a frame; `none` models a missing value (NaN / None). -/
abbrev Cell := Option Val

/-- One row: association list from column name to cell.  A column that does
not occur in the list is read as a missing cell, which matches the NaN
semantics of pandas (`pd.notna` is false either way). -/
abbrev Row := List (String × Cell)

/-- Association-list lookup (first binding wins), used for rows, registries
and the client payload dictionaries. -/
def alookup {α : Type} : List (String × α) → String → Option α
  | [], _ => none
  | (key, v) :: rest, key2 => if key = key2 then some v else alookup rest key2

/-- Association-list update-or-append, modelling Python `dict[k] = v`. -/
def aupsert {α : Type} : List (String × α) → String → α → List (String × α)
  | [], key, v => [(key, v)]
  | (key0, v0) :: rest, key, v =>
    if key0 = key then (key, v) :: rest else (key0, v0) :: aupsert rest key v

/-- Cell of a row under a column name. -/
def cellOf (row : Row) (c : String) : Cell := (alookup row c).getD none

/-- In-memory table: ordered column names plus rows keyed by the pandas index
label.  `df.copy()` is the identity on this representation. -/
structure Frame where
  cols : List String
  rows : List (Nat × Row)
deriving DecidableEq, Repr

/-- Replace (or append) the binding of column `c` in a row,
modelling a pandas per-cell write. -/
def setRowCell : Row → String → Cell → Row
  | [], c, v => [(c, v)]
  | (c0, v0) :: rest, c, v =>
    if c0 = c then (c, v) :: rest else (c0, v0) :: setRowCell rest c v

/-- `df.at[idx, c] = v`: label-based cell write (touches every row carrying
the label; engine-produced frames have unique labels). -/
def setAt (f : Frame) (idx : Nat) (c : String) (v : Cell) : Frame :=
  { f with rows := f.rows.map fun p => if p.1 = idx then (p.1, setRowCell p.2 c v) else p }

/-- `df[c] = None` when `c` is absent: append the column; rows are untouched
because an absent binding already reads as a missing cell. -/
def ensureCol (f : Frame) (c : String) : Frame :=
  if c ∈ f.cols then f else { f with cols := f.cols ++ [c] }

def getCellRows : List (Nat × Row) → Nat → String → Cell
  | [], _, _ => none
  | (i, r) :: rest, idx, c => if i = idx then cellOf r c else getCellRows rest idx c

/-- Read the cell at (label, column); first row carrying the label. -/
def getCell (f : Frame) (idx : Nat) (c : String) : Cell :=
  getCellRows f.rows idx c

/-- The frame has pairwise-distinct index labels.  Every frame produced by the
engine satisfies this: `pd.read_csv` assigns a fresh `RangeIndex` and every
block preserves labels. -/
def nodupIdx (f : Frame) : Prop := (f.rows.map Prod.fst).Nodup

instance (f : Frame) : Decidable (nodupIdx f) := by
  unfold nodupIdx; infer_instance

/-- Python truthiness of a scalar. -/
def pyTruthy : Val → Bool
  | .vStr s => s ≠ ""
  | .vInt n => n ≠ 0
  | .vBool b => b

/-- `pd.notna(cell) and cell` -- present and truthy. -/
def truthyCell : Cell → Bool
  | none => false
  | some v => pyTruthy v

/-- Python `str()` of a scalar. -/
def pyStr : Val → String
  | .vStr s => s
  | .vInt n => toString n
  | .vBool b => if b then "True" else "False"

/-- `astype(str)` applied to one cell.  pandas renders a missing value as the
literal string "nan" (float NaN); this is why `na=False` downstream is dead. -/
def pyStrCell : Cell → String
  | none => "nan"
  | some v => pyStr v

/-- Numeric view of a scalar; Python `True == 1`, `False == 0`. -/
def valAsIntQ : Val → Option Int
  | .vInt n => some n
  | .vBool b => some (if b then 1 else 0)
  | .vStr _ => none

/-- Python `==` between two scalars (numeric cross-type equality, strings
never equal to numbers). -/
def pyEq (a b : Val) : Bool :=
  match a, b with
  | .vStr s, .vStr t => s = t
  | .vStr _, _ => false
  | _, .vStr _ => false
  | a, b => valAsIntQ a = valAsIntQ b

/-- Elementwise `cell == v` of a pandas comparison; a missing cell compares
unequal (NaN == x is False). -/
def cellEqB (c : Cell) (v : Val) : Bool :=
  match c with
  | some a => pyEq a v
  | none => false

/-- Elementwise ordering comparison.  `gt = true` computes `cell > v`.
A missing cell yields `false` (NaN comparison); incomparable types yield
`none`, modelling the `TypeError` pandas raises on mixed comparisons. -/
def cmpCells (gt : Bool) (c : Cell) (v : Val) : Option Bool :=
  match c with
  | none => some false
  | some a =>
    match a, v with
    | .vStr s, .vStr t => some (if gt then decide (t < s) else decide (s < t))
    | .vStr _, _ => none
    | _, .vStr _ => none
    | a, v =>
      match valAsIntQ a, valAsIntQ v with
      | some n, some m => some (if gt then decide (m < n) else decide (n < m))
      | _, _ => none

/-- ASCII-case-insensitive character equality, the `case=False` comparison
(the claims only exercise ASCII data). -/
def charEqCI (a b : Char) : Bool :=
  a == b ||
  (decide (65 ≤ a.toNat) && decide (a.toNat ≤ 90) && (b.toNat == a.toNat + 32)) ||
  (decide (65 ≤ b.toNat) && decide (b.toNat ≤ 90) && (a.toNat == b.toNat + 32))

/-- Character comparison, case-insensitive when `ci` is set. -/
def chEq (ci : Bool) (a b : Char) : Bool := if ci then charEqCI a b else a == b

def isPrefixW (ci : Bool) : List Char → List Char → Bool
  | [], _ => true
  | _ :: _, [] => false
  | a :: as, b :: bs => chEq ci a b && isPrefixW ci as bs

def hasSubW (ci : Bool) (pat : List Char) : List Char → Bool
  | [] => pat.isEmpty
  | h :: hs => isPrefixW ci pat (h :: hs) || hasSubW ci pat hs

/-- Substring test.  pandas `str.contains` treats the pattern as a regular
expression; for patterns free of regex metacharacters (all patterns used in
the claims) this coincides with plain substring containment, which is what we
model.  The empty pattern matches every string in both readings. -/
def containsSub (ci : Bool) (hay pat : String) : Bool :=
  hasSubW ci pat.data hay.data

/-- Structural `String.startsWith`. -/
def strStartsWith (s p : String) : Bool := isPrefixW false p.data s.data

/-- Structural `String.endsWith`. -/
def strEndsWith (s p : String) : Bool := isPrefixW false p.data.reverse s.data.reverse

/-- The operator strings accepted by `FilterBlock.execute`. -/
def validOps : List String :=
  ["contains", "equals", "not_equals", "greater_than", "less_than",
   "is_true", "is_false", "is_null", "is_not_null"]

/-- Elementwise evaluation of one filter operator on one cell, mirroring the
operator dispatch of `FilterBlock.execute`.  `Except.error` models a raised
exception (unknown operator or a mixed-type comparison). -/
def cellMatch (op : String) (value : Val) (cs : Bool) (c : Cell) : Except String Bool :=
  if op = ("contains") then
    .ok (containsSub (!cs) (pyStrCell c) (pyStr value))
  else if op = ("equals") then .ok (cellEqB c value)
  else if op = ("not_equals") then .ok (match c with | some a => !(pyEq a value) | none => true)
  else if op = ("greater_than") then
    match cmpCells true c value with
    | some b => .ok b
    | none => .error ("unorderable types in comparison")
  else if op = ("less_than") then
    match cmpCells false c value with
    | some b => .ok b
    | none => .error ("unorderable types in comparison")
  else if op = ("is_true") then .ok (cellEqB c (.vBool true))
  else if op = ("is_false") then .ok (cellEqB c (.vBool false))
  else if op = ("is_null") then .ok c.isNone
  else if op = ("is_not_null") then .ok c.isSome
  else .error (("Unknown operator: ") ++ op)

/-- Block configuration.  One structure holds the union of the keys each
block reads with `config.get(key, default)`; the per-key defaults below are
the defaults of the source.  `column = ""` stands for an absent / falsy
`column` key.  `max_concurrent` and `batch_size` are `none` when the key is
absent (their defaults differ per block and are applied at the read site,
exactly as in the source).  `struct` holds the normalized name-to-description
mapping of the enrich block. -/
structure Config where
  file_path : String := ""
  file_name : String := "output.csv"
  column : String := ""
  operator : String := "contains"
  value : Val := .vStr ""
  case_sensitive : Bool := false
  struct : List (String × String) := []
  name_column : String := "name"
  company_column : String := "company"
  linkedin_column : String := "linkedin"
  mode : String := "PROFESSIONAL"
  output_column : String := "found_email"
  skip_existing : Bool := true
  max_concurrent : Option Nat := none
  batch_size : Option Nat := none
deriving DecidableEq, Repr

/-- `EnrichmentResult` of `sixtyfour_client.py`; payload values may be null. -/
structure EnrichmentResult where
  success : Bool
  data : Option (List (String × Cell)) := none
  error : Option String := none
deriving DecidableEq, Repr

/-- Result of one block execution. `hung` marks real non-termination of the
Python loop (it never returns to the engine). -/
inductive ExecResult where
  | ok (f : Frame)
  | paused (f : Frame) (row : Nat)
  | err (msg : String)
  | hung
deriving DecidableEq, Repr

/-- Observable outcome of one block execution: result, the ordered
`on_progress` values, the ordered client calls `(row label, lead payload)`,
and the pause-check counter after the run. -/
structure BlockOut where
  res : ExecResult
  prog : List Nat
  calls : List (Nat × List (String × String))
  cnt : Nat
deriving DecidableEq, Repr

/-- Injected collaborators: the two client endpoints and the CSV codec. -/
structure Env where
  enrich_lead : List (String × String) → Option (List (String × String)) → EnrichmentResult
  find_email : List (String × String) → String → EnrichmentResult
  decode : String → Except String Frame
  encode : Frame → String

/-- The file system, path to file contents. -/
structure FS where
  entries : List (String × String) := []
deriving DecidableEq, Repr

/-! ## Filter block (`blocks/filter_block.py`) -/

/-- The row mask plus row filtering of `FilterBlock.execute`: pandas
evaluates the whole elementwise comparison (raising on the first bad
element) and then keeps the rows whose mask entry is true. -/
def maskRows (cfg : Config) : List (Nat × Row) → Except String (List (Nat × Row))
  | [] => .ok []
  | (idx, row) :: rest =>
    match cellMatch cfg.operator cfg.value cfg.case_sensitive (cellOf row cfg.column) with
    | .error e => .error e
    | .ok b =>
      match maskRows cfg rest with
      | .error e => .error e
      | .ok kept => .ok (if b then (idx, row) :: kept else kept)

/-- `FilterBlock.execute`.  Validation order follows the source: null frame,
falsy `column`, column membership, then `on_progress(10)`, then the operator
dispatch (so an unknown operator or comparison error happens after the first
progress call), then `df[mask].copy()` and `on_progress(100)`. -/
def filterExec (cfg : Config) (df : Option Frame) (cnt : Nat) : BlockOut :=
  match df with
  | none => ⟨.err ("No DataFrame to filter"), [], [], cnt⟩
  | some f =>
    if cfg.column = ("") then ⟨.err ("column is required for Filter block"), [], [], cnt⟩
    else if cfg.column ∉ f.cols then
      ⟨.err (("Column not found in DataFrame: ") ++ cfg.column), [], [], cnt⟩
    else if cfg.operator ∉ validOps then
      ⟨.err (("Unknown operator: ") ++ cfg.operator), [10], [], cnt⟩
    else
      match maskRows cfg f.rows with
      | .error e => ⟨.err e, [10], [], cnt⟩
      | .ok kept => ⟨.ok ⟨f.cols, kept⟩, [10, 100], [], cnt⟩

/-! ## CSV blocks (`blocks/csv_blocks.py`) -/

/-- The data directory; path handling is abstracted to opaque string tokens
joined by `/`. -/
def DATA_DIR : String := "data"

/-- The repository root directory used as the last path fallback. -/
def ROOT_DIR : String := "approot"

def pjoin (a b : String) : String := a ++ ("/") ++ b

def fsExists (fs : FS) (p : String) : Bool := (alookup fs.entries p).isSome

/-- The relative-path resolution of `ReadCSVBlock.execute`: absolute paths are
kept, otherwise try the data directory, then the path itself, then the
repository root. -/
def resolvePath (fs : FS) (p : String) : String :=
  if strStartsWith p ("/") then p
  else if fsExists fs (pjoin DATA_DIR p) then pjoin DATA_DIR p
  else if fsExists fs p then p
  else if fsExists fs (pjoin ROOT_DIR p) then pjoin ROOT_DIR p
  else p

/-- `pd.read_csv` assigns a fresh `RangeIndex`: labels become `0..n-1`. -/
def reindex (f : Frame) : Frame := ⟨f.cols, (f.rows.map Prod.snd).enum⟩

/-- `ReadCSVBlock.execute`: required `file_path`, path resolution, existence
check, `on_progress(10)`, decode, `on_progress(100)`. -/
def readCSVExec (env : Env) (fs : FS) (cfg : Config) (cnt : Nat) : BlockOut :=
  if cfg.file_path = ("") then
    ⟨.err ("file_path is required for ReadCSV block"), [], [], cnt⟩
  else
    match alookup fs.entries (resolvePath fs cfg.file_path) with
    | none => ⟨.err (("CSV file not found: ") ++ resolvePath fs cfg.file_path), [], [], cnt⟩
    | some content =>
      match env.decode content with
      | .error e => ⟨.err e, [10], [], cnt⟩
      | .ok f => ⟨.ok (reindex f), [10, 100], [], cnt⟩

/-- `SaveCSVBlock.execute`: appends the `.csv` suffix when missing, writes the
encoded frame under the data directory and returns the frame unchanged. -/
def saveCSVExec (env : Env) (fs : FS) (cfg : Config) (df : Option Frame) (cnt : Nat) :
    BlockOut × FS :=
  match df with
  | none => (⟨.err ("No DataFrame to save"), [], [], cnt⟩, fs)
  | some f =>
    let fn := if strEndsWith cfg.file_name (".csv") then cfg.file_name
              else cfg.file_name ++ (".csv")
    (⟨.ok f, [10, 100], [], cnt⟩,
     ⟨aupsert fs.entries (pjoin DATA_DIR fn) (env.encode f)⟩)

/-! ## Enrichment blocks (`blocks/api_blocks.py`) -/

/-- The pause threshold oracle: the check at counter value `cnt` reads `true`
iff the threshold `k` has been reached. -/
def checkHit (k : Option Nat) (cnt : Nat) : Bool :=
  match k with
  | some k0 => decide (k0 ≤ cnt)
  | none => false

/-- The batched while-loop shared by both enrichment blocks, parameterized by
the per-row client call and the per-row result application.  One fuel unit is
one loop iteration; fuel exhaustion returns `hung` (real divergence).  Mirrors
the source: pause check before scheduling a batch, slice
`rows[current:batch_end]`, concurrent calls gathered in task order, results
applied in that order, then the cursor advance and the progress emission. -/
def apiLoop (call : Nat → Row → List (String × String) × EnrichmentResult)
    (applyRes : Frame → Nat → EnrichmentResult → Frame)
    (rows : List (Nat × Row)) (total bs mc : Nat) (k : Option Nat) :
    Nat → Frame → Nat → Nat → BlockOut
  | 0, _f, _cur, cnt => ⟨.hung, [], [], cnt⟩
  | fuel + 1, f, cur, cnt =>
    if cur < total then
      if checkHit k cnt then ⟨.paused f cur, [], [], cnt + 1⟩
      else
        let bend := min (cur + bs) total
        let batch := (rows.drop cur).take (bend - cur)
        if mc = 0 ∧ batch ≠ [] then ⟨.hung, [], [], cnt + 1⟩
        else
          let results := batch.map fun p => (p.1, call p.1 p.2)
          let f2 := results.foldl (fun acc pr => applyRes acc pr.1 pr.2.2) f
          let rest := apiLoop call applyRes rows total bs mc k fuel f2 bend (cnt + 1)
          ⟨rest.res, bend * 100 / total :: rest.prog,
           results.map (fun pr => (pr.1, pr.2.1)) ++ rest.calls, rest.cnt⟩
    else ⟨.ok f, [], [], cnt⟩

/-- Fuel sufficient for every terminating run of `apiLoop`: with a positive
batch size the cursor strictly advances each iteration; with batch size zero
the loop can only end by reaching the pause threshold. -/
def fuelFor (k : Option Nat) (total : Nat) : Nat :=
  total + 2 + (match k with | some k0 => k0 + 1 | none => 0)

/-- Append a lead field if its source cell is present. -/
def addLeadField (acc : List (String × String)) (key : String) (c : Cell) :
    List (String × String) :=
  match c with
  | some v => acc ++ [(key, pyStr v)]
  | none => acc

/-- The per-row lead record built by `EnrichLeadBlock` (name, company,
linkedin, email, location in source order, each only when present). -/
def enrichLeadInfo (cfg : Config) (row : Row) : List (String × String) :=
  addLeadField
    (addLeadField
      (addLeadField
        (addLeadField
          (addLeadField [] ("name") (cellOf row cfg.name_column))
          ("company") (cellOf row cfg.company_column))
        ("linkedin") (cellOf row cfg.linkedin_column))
      ("email") (cellOf row ("email")))
    ("location") (cellOf row ("company_location"))

/-- The per-row lead record built by `FindEmailBlock` (name, company,
linkedin only). -/
def findLeadInfo (cfg : Config) (row : Row) : List (String × String) :=
  addLeadField
    (addLeadField
      (addLeadField [] ("name") (cellOf row cfg.name_column))
      ("company") (cellOf row cfg.company_column))
    ("linkedin") (cellOf row cfg.linkedin_column)

/-- Application of one enrichment result: on a truthy payload, write every
key except the reserved `success` / `error` to column `"enriched_" ++ key` at
the row label, creating the column when absent. -/
def applyEnrichResult (f : Frame) (idx : Nat) (r : EnrichmentResult) : Frame :=
  match r.data with
  | none => f
  | some d =>
    if r.success ∧ d ≠ [] then
      d.foldl (fun acc kv =>
        if kv.1 = ("success") ∨ kv.1 = ("error") then acc
        else setAt (ensureCol acc (("enriched_") ++ kv.1)) idx (("enriched_") ++ kv.1) kv.2) f
    else f

/-- Application of one find-email result: `data.get("email",
data.get("found_email"))`, written to the output column when truthy. -/
def applyFindResult (outCol : String) (f : Frame) (idx : Nat) (r : EnrichmentResult) : Frame :=
  match r.data with
  | none => f
  | some d =>
    if r.success ∧ d ≠ [] then
      let email := match alookup d ("email") with
        | some c => c
        | none => (alookup d ("found_email")).getD none
      if truthyCell email then setAt f idx outCol email else f
    else f

/-- `struct if len(struct) > 0 else None`. -/
def structOpt (cfg : Config) : Option (List (String × String)) :=
  if 0 < cfg.struct.length then some cfg.struct else none

/-- Effective `max_concurrent` of the enrich block (default 1). -/
def enrichMC (cfg : Config) : Nat := cfg.max_concurrent.getD 1

/-- Effective `batch_size` of the enrich block (default `max_concurrent`). -/
def enrichBS (cfg : Config) : Nat := cfg.batch_size.getD (enrichMC cfg)

/-- Effective `max_concurrent` of the find-email block (default 10). -/
def femMC (cfg : Config) : Nat := cfg.max_concurrent.getD 10

/-- Effective `batch_size` of the find-email block (default `max_concurrent`). -/
def femBS (cfg : Config) : Nat := cfg.batch_size.getD (femMC cfg)

/-- The per-row task of the enrich block: build the lead record, call the
client, report the payload sent and the result received. -/
def enrichCall (env : Env) (cfg : Config) :
    Nat → Row → List (String × String) × EnrichmentResult :=
  fun _i row => (enrichLeadInfo cfg row, env.enrich_lead (enrichLeadInfo cfg row) (structOpt cfg))

/-- The per-row task of the find-email block. -/
def findCall (env : Env) (cfg : Config) :
    Nat → Row → List (String × String) × EnrichmentResult :=
  fun _i row => (findLeadInfo cfg row, env.find_email (findLeadInfo cfg row) cfg.mode)

/-- `EnrichLeadBlock.execute`.  `max_concurrent` defaults to 1,
`batch_size` to `max_concurrent`; the candidate rows are all rows and
`start_row` counts absolute rows. -/
def enrichLeadExec (env : Env) (cfg : Config) (df : Option Frame) (k : Option Nat)
    (cnt startRow : Nat) : BlockOut :=
  match df with
  | none => ⟨.err ("No DataFrame or empty DataFrame to enrich"), [], [], cnt⟩
  | some dfv =>
    if dfv.rows.length = 0 then
      ⟨.err ("No DataFrame or empty DataFrame to enrich"), [], [], cnt⟩
    else
      let total := dfv.rows.length
      apiLoop (enrichCall env cfg) applyEnrichResult dfv.rows total (enrichBS cfg)
        (enrichMC cfg) k (fuelFor k total) dfv startRow cnt

/-- The preparation loop of `FindEmailBlock`: rows with a present, truthy
`email` cell have it copied to the output column (when `skip_existing`) and
are excluded; the remaining rows form the candidate list in source order. -/
def femPrepGo (outCol : String) (skip : Bool) :
    List (Nat × Row) → Frame → Frame × List (Nat × Row)
  | [], f => (f, [])
  | (idx, row) :: rest, f =>
    if skip ∧ truthyCell (cellOf row ("email")) then
      femPrepGo outCol skip rest (setAt f idx outCol (cellOf row ("email")))
    else
      let pr := femPrepGo outCol skip rest f
      (pr.1, (idx, row) :: pr.2)

/-- Preparation of the find-email block: ensure the output column, copy
existing emails, compute the candidate list. -/
def femPrep (cfg : Config) (df : Frame) : Frame × List (Nat × Row) :=
  femPrepGo cfg.output_column cfg.skip_existing df.rows (ensureCol df cfg.output_column)

/-- `FindEmailBlock.execute`.  `max_concurrent` defaults to 10, `batch_size`
to `max_concurrent`; the output column is created if absent; `start_row`
counts rows within the candidate list; an empty candidate list short-circuits
with a single progress 100. -/
def findEmailExec (env : Env) (cfg : Config) (df : Option Frame) (k : Option Nat)
    (cnt startRow : Nat) : BlockOut :=
  match df with
  | none => ⟨.err ("No DataFrame or empty DataFrame"), [], [], cnt⟩
  | some dfv =>
    if dfv.rows.length = 0 then ⟨.err ("No DataFrame or empty DataFrame"), [], [], cnt⟩
    else
      let pr := femPrep cfg dfv
      if pr.2 = [] then ⟨.ok pr.1, [100], [], cnt⟩
      else
        let total := pr.2.length
        apiLoop (findCall env cfg) (applyFindResult cfg.output_column) pr.2 total
          (femBS cfg) (femMC cfg) k (fuelFor k total) pr.1 startRow cnt

/-! ## Engine (`engine.py`) -/

/-- `BlockType`, the closed block-kind set. -/
inductive BlockType where
  | read_csv
  | save_csv
  | filter
  | enrich_lead
  | find_email
deriving DecidableEq, Repr

/-- One block definition: id, kind and config. -/
structure BlockDef where
  id : String := ""
  type : BlockType
  config : Config := {}
deriving DecidableEq, Repr

inductive WorkflowStatus where
  | pending
  | running
  | paused
  | completed
  | failed
deriving DecidableEq, Repr

inductive BlockStatus where
  | pending
  | running
  | paused
  | completed
  | failed
  | skipped
deriving DecidableEq, Repr

/-- `BlockProgress`; the wall-clock timestamps of the source are elided. -/
structure BlockProgress where
  block_id : String := ""
  block_type : BlockType
  status : BlockStatus := .pending
  progress : Nat := 0
  error : Option String := none
deriving DecidableEq, Repr

/-- `WorkflowState`; `result_preview` is the head-10 row list of the stored
frame.  `pause_requested` evolves through the pause oracle and is therefore
kept only as the reset-at-entry field. -/
structure WorkflowState where
  workflow_id : String := ""
  status : WorkflowStatus := .pending
  blocks : List BlockProgress := []
  current_block_index : Nat := 0
  error : Option String := none
  result_preview : Option (List (Nat × Row)) := none
  result_columns : Option (List String) := none
  result_row_count : Nat := 0
  pause_requested : Bool := false
  last_processed_row : Nat := 0
  blocks_config : Option (List BlockDef) := none
deriving DecidableEq, Repr

/-- The engine registries: `workflows` and `_dataframes`. -/
structure WorkflowEngine where
  workflows : List (String × WorkflowState) := []
  dataframes : List (String × Frame) := []
deriving DecidableEq, Repr

/-- The engine plus the file system the CSV blocks touch. -/
structure World where
  engine : WorkflowEngine
  fs : FS := {}
deriving DecidableEq, Repr

/-- Update the i-th list element in place (Python `list[i]` mutation). -/
def updNth {α : Type} (i : Nat) (g : α → α) : List α → List α
  | [] => []
  | b :: rest =>
    match i with
    | 0 => g b :: rest
    | j + 1 => b :: updNth j g rest

/-- Dispatch of `BLOCK_CLASSES[block_type]().execute(...)`. -/
def runBlock (env : Env) (fs : FS) (bt : BlockType) (cfg : Config) (df : Option Frame)
    (k : Option Nat) (cnt bstart : Nat) : BlockOut × FS :=
  match bt with
  | .read_csv => (readCSVExec env fs cfg cnt, fs)
  | .save_csv => saveCSVExec env fs cfg df cnt
  | .filter => (filterExec cfg df cnt, fs)
  | .enrich_lead => (enrichLeadExec env cfg df k cnt bstart, fs)
  | .find_email => (findEmailExec env cfg df k cnt bstart, fs)

/-- How the block loop of `execute_workflow` ended. -/
inductive LoopExit where
  | done
  | pausedAt (f : Frame) (row : Nat)
  | raisedErr (msg : String)
  | hungAt
deriving DecidableEq, Repr

/-- State of the block loop when it ends: workflow state, the pending
`_dataframes[wid]` value, file system, pause-check counter, current frame. -/
structure LoopRes where
  st : WorkflowState
  store : Option Frame
  fs : FS
  cnt : Nat
  curDf : Option Frame
  exit : LoopExit
deriving DecidableEq, Repr

/-- Refresh `result_columns` / `result_row_count` / `result_preview` from a
stored frame (`head(10)` with NaN normalized, which the row model builds in). -/
def refreshResult (st : WorkflowState) (f : Frame) : WorkflowState :=
  { st with
    result_columns := some f.cols
    result_row_count := f.rows.length
    result_preview := some (f.rows.take 10) }

/-- `state.current_block_index = i; state.blocks[i].status = RUNNING`. -/
def markRunning (st : WorkflowState) (i : Nat) : WorkflowState :=
  { st with current_block_index := i
            blocks := updNth i (fun b => { b with status := BlockStatus.running }) st.blocks }

/-- The cumulative effect of the `on_progress` callbacks of one block run:
`blocks[i].progress` ends at the last emitted value, if any. -/
def applyProg (st : WorkflowState) (i : Nat) (prog : List Nat) : WorkflowState :=
  match prog.getLast? with
  | some p => { st with blocks := updNth i (fun b => { b with progress := p }) st.blocks }
  | none => st

/-- `blocks[i].status = COMPLETED; blocks[i].progress = 100`. -/
def markCompleted (st : WorkflowState) (i : Nat) : WorkflowState :=
  let g := fun (b : BlockProgress) =>
    { b with status := BlockStatus.completed, progress := 100 }
  { st with blocks := updNth i g st.blocks }

/-- The `for i, block_def in enumerate(blocks)` loop of `execute_workflow`:
skip below `start_block_index`, record the current index, mark RUNNING,
execute the block (with `start_row` only at the resume block), let the last
progress callback land in `blocks[i].progress`, then mark COMPLETED and store
the frame, or surface the pause / error / hang.  Indexing `state.blocks[i]`
out of range raises an IndexError that the generic handler catches. -/
def runBlocksGo (env : Env) (sbi srow : Nat) (k : Option Nat) :
    List BlockDef → Nat → Nat → Option Frame → WorkflowState → Option Frame → FS → LoopRes
  | [], _i, cnt, curDf, st, store, fs => ⟨st, store, fs, cnt, curDf, .done⟩
  | bd :: rest, i, cnt, curDf, st, store, fs =>
    if i < sbi then runBlocksGo env sbi srow k rest (i + 1) cnt curDf st store fs
    else if i < st.blocks.length then
      let outFs := runBlock env fs bd.type bd.config curDf k cnt (if i = sbi then srow else 0)
      let st3 := applyProg (markRunning st i) i outFs.1.prog
      match outFs.1.res with
      | .ok f =>
        runBlocksGo env sbi srow k rest (i + 1) outFs.1.cnt (some f)
          (refreshResult (markCompleted st3 i) f) (some f) outFs.2
      | .paused f row => ⟨st3, store, outFs.2, outFs.1.cnt, curDf, .pausedAt f row⟩
      | .err m => ⟨st3, store, outFs.2, outFs.1.cnt, curDf, .raisedErr m⟩
      | .hung => ⟨st3, store, outFs.2, outFs.1.cnt, curDf, .hungAt⟩
    else ⟨{ st with current_block_index := i }, store, fs, cnt, curDf,
      .raisedErr ("list index out of range")⟩

/-- The `except PauseException` handler: status PAUSED, save the row cursor,
store the carried frame, refresh the derived result fields, mark the current
block PAUSED (bounds-guarded as in the source). -/
def pauseHandle (st : WorkflowState) (f : Frame) (row : Nat) : WorkflowState :=
  let st1 := refreshResult { st with status := .paused, last_processed_row := row } f
  let g := fun (b : BlockProgress) => { b with status := BlockStatus.paused }
  if st1.current_block_index < st1.blocks.length then
    { st1 with blocks := updNth st1.current_block_index g st1.blocks }
  else st1

/-- The generic `except Exception` handler: status FAILED, error recorded on
the state and on the current block (bounds-guarded as in the source). -/
def failHandle (st : WorkflowState) (m : String) : WorkflowState :=
  let st1 := { st with status := .failed, error := some m }
  let g := fun (b : BlockProgress) => { b with status := BlockStatus.failed, error := some m }
  if st1.current_block_index < st1.blocks.length then
    { st1 with blocks := updNth st1.current_block_index g st1.blocks }
  else st1

/-- Outcome of `execute_workflow` from the caller's view: the returned state,
a propagated exception, or no return at all (the loop hung). -/
inductive RunOutcome where
  | returned (st : WorkflowState)
  | raised (msg : String)
  | hung
deriving DecidableEq, Repr

/-- `WorkflowEngine.execute_workflow`.  Unknown workflow raises before any
mutation.  Otherwise: status RUNNING, pause flag reset, `blocks_config`
saved, the current frame taken from the store, the block loop, then the
completion / pause / failure handling, and the registries updated (the state
object is mutated in place in the source, so the registry reflects it even on
a hang). -/
def executeWorkflow (env : Env) (w : World) (wid : String) (blocks : List BlockDef)
    (sbi srow : Nat) (k : Option Nat) : World × RunOutcome :=
  match alookup w.engine.workflows wid with
  | none => (w, .raised (("Workflow ") ++ wid ++ (" not found")))
  | some st0 =>
    let st := { st0 with
      status := .running, pause_requested := false, blocks_config := some blocks }
    let store0 := alookup w.engine.dataframes wid
    let r := runBlocksGo env sbi srow k blocks 0 0 store0 st store0 w.fs
    let stF := match r.exit with
      | .done => { r.st with status := .completed }
      | .pausedAt f row => pauseHandle r.st f row
      | .raisedErr m => failHandle r.st m
      | .hungAt => r.st
    let store2 := match r.exit with
      | .pausedAt f _ => some f
      | _ => r.store
    let eng2 : WorkflowEngine :=
      { workflows := aupsert w.engine.workflows wid stF
        dataframes := match store2 with
          | some f => aupsert w.engine.dataframes wid f
          | none => w.engine.dataframes }
    (⟨eng2, r.fs⟩, match r.exit with | .hungAt => .hung | _ => .returned stF)

/-- `WorkflowEngine.resume_workflow`: only a PAUSED workflow with a saved,
non-empty `blocks_config` resumes, re-entering `execute_workflow` at the
saved block index and row cursor. -/
def resumeWorkflow (env : Env) (w : World) (wid : String) (k : Option Nat) :
    World × Option RunOutcome :=
  match alookup w.engine.workflows wid with
  | none => (w, none)
  | some st =>
    if st.status ≠ .paused then (w, none)
    else
      match st.blocks_config with
      | none => (w, none)
      | some blocks =>
        if blocks = [] then (w, none)
        else
          let r := executeWorkflow env w wid blocks st.current_block_index
            st.last_processed_row k
          (r.1, some r.2)

/-- The per-block progress records `create_workflow` materializes. -/
def initBlocks (blocks : List BlockDef) : List BlockProgress :=
  blocks.map fun b => { block_id := b.id, block_type := b.type }

/-- `WorkflowEngine.create_workflow` with the fresh uuid supplied as `wid`. -/
def createWorkflow (eng : WorkflowEngine) (wid : String) (blocks : List BlockDef) :
    WorkflowEngine :=
  let st : WorkflowState := { workflow_id := wid, blocks := initBlocks blocks }
  { eng with workflows := aupsert eng.workflows wid st }

/-! ## Derived combinators used in theorem statements -/

/-- Apply the per-row call and result application to a list of candidate
rows in order: the composite effect of fully processed batches. -/
def applyRowsWith (call : Nat → Row → List (String × String) × EnrichmentResult)
    (applyRes : Frame → Nat → EnrichmentResult → Frame)
    (f : Frame) (l : List (Nat × Row)) : Frame :=
  l.foldl (fun acc p => applyRes acc p.1 (call p.1 p.2).2) f

/-- The client calls issued for a list of candidate rows, in order. -/
def callsOf (call : Nat → Row → List (String × String) × EnrichmentResult)
    (l : List (Nat × Row)) : List (Nat × List (String × String)) :=
  l.map fun p => (p.1, (call p.1 p.2).1)

/-- A trivial environment for concrete witnesses. -/
def envStub : Env :=
  { enrich_lead := fun _ _ => ⟨false, none, none⟩
    find_email := fun _ _ => ⟨false, none, none⟩
    decode := fun _ => .error ("no codec")
    encode := fun _ => "" }

/-! ## Basic lemmas -/

theorem applyRowsWith_append (call applyRes f) (a b : List (Nat × Row)) :
    applyRowsWith call applyRes f (a ++ b) =
      applyRowsWith call applyRes (applyRowsWith call applyRes f a) b :=
  List.foldl_append _ _ a b

theorem callsOf_append (call) (a b : List (Nat × Row)) :
    callsOf call (a ++ b) = callsOf call a ++ callsOf call b :=
  List.map_append _ a b

theorem slice_split {α : Type} (rows : List α) (cur bend r : Nat)
    (h1 : cur ≤ bend) (h2 : bend ≤ r) :
    (rows.drop cur).take (r - cur) =
      (rows.drop cur).take (bend - cur) ++ (rows.drop bend).take (r - bend) := by
  have hr : r - cur = (bend - cur) + (r - bend) := by omega
  rw [hr, List.take_add, List.drop_drop]
  have hb : cur + (bend - cur) = bend := by omega
  rw [hb]

theorem fuelFor_pos (k : Option Nat) (total : Nat) : 0 < fuelFor k total := by
  cases k <;> simp [fuelFor]

theorem apiLoop_done (call applyRes rows total bs mc k fuel f cur cnt)
    (h : total ≤ cur) (hf : 0 < fuel) :
    apiLoop call applyRes rows total bs mc k fuel f cur cnt = ⟨.ok f, [], [], cnt⟩ := by
  cases fuel with
  | zero => omega
  | succ n => simp [apiLoop, Nat.not_lt.mpr h]

/-- If the batched loop pauses, it pauses at a whole number of batches past
the entry cursor, strictly inside the candidate list, the carried frame is
the entry frame with exactly the candidate rows in `[cur, r)` applied, and
the calls issued are exactly the calls for those rows. -/
theorem apiLoop_paused (call applyRes rows total bs mc k) :
    ∀ fuel f cur cnt P r,
      (apiLoop call applyRes rows total bs mc k fuel f cur cnt).res = .paused P r →
      ∃ j, r = cur + j * bs ∧ cur ≤ r ∧ r < total ∧
        P = applyRowsWith call applyRes f ((rows.drop cur).take (r - cur)) ∧
        (apiLoop call applyRes rows total bs mc k fuel f cur cnt).calls =
          callsOf call ((rows.drop cur).take (r - cur)) := by
  intro fuel
  induction fuel with
  | zero => intro f cur cnt P r h; simp [apiLoop] at h
  | succ n ih =>
    intro f cur cnt P r h
    by_cases hcur : cur < total
    · by_cases hchk : checkHit k cnt
      · simp only [apiLoop, if_pos hcur, if_pos hchk] at h ⊢
        obtain ⟨hP, hr⟩ : P = f ∧ r = cur := by
          cases h; exact ⟨rfl, rfl⟩
        refine ⟨0, by omega, by omega, by omega, ?_, ?_⟩
        · simp [hP, hr, applyRowsWith]
        · simp [hr, callsOf]
      · by_cases hmc : mc = 0 ∧ (rows.drop cur).take (min (cur + bs) total - cur) ≠ []
        · simp only [apiLoop, if_pos hcur, if_neg hchk, if_pos hmc] at h
          simp at h
        · simp only [apiLoop, if_pos hcur, if_neg hchk, if_neg hmc] at h ⊢
          set bend := min (cur + bs) total with hbend
          set batch := (rows.drop cur).take (bend - cur) with hbatch
          set f2 := (batch.map fun p => (p.1, call p.1 p.2)).foldl
            (fun acc pr => applyRes acc pr.1 pr.2.2) f with hf2
          obtain ⟨j, hj, hle, hlt, hPP, hcalls⟩ := ih f2 bend (cnt + 1) P r h
          have hbends : bend = cur + bs := by
            rcases le_total (cur + bs) total with hc | hc
            · rw [hbend]; exact Nat.min_eq_left hc
            · exfalso
              have hbt : bend = total := by rw [hbend]; exact Nat.min_eq_right hc
              omega
          have hf2' : f2 = applyRowsWith call applyRes f batch := by
            rw [hf2, applyRowsWith, List.foldl_map]
          have hsplit : (rows.drop cur).take (r - cur) =
              batch ++ (rows.drop bend).take (r - bend) := by
            rw [hbatch]
            exact slice_split rows cur bend r (by omega) hle
          have hmul : (j + 1) * bs = j * bs + bs := by ring
          refine ⟨j + 1, by omega, by omega, hlt, ?_, ?_⟩
          · rw [hsplit, applyRowsWith_append, ← hf2', hPP]
          · rw [hsplit, callsOf_append]
            have hcb : (batch.map fun p => (p.1, call p.1 p.2)).map
                (fun pr => (pr.1, pr.2.1)) = callsOf call batch := by
              rw [List.map_map, callsOf]; rfl
            rw [hcb, hcalls]
    · simp only [apiLoop, if_neg hcur] at h
      simp at h

/-! ## Claim C9 -/

/-- Claim C9: for every `workflow_id` absent from the engine registry,
`execute_workflow` raises to its caller instead of returning a state or
recording a FAILED status, and both registries (and the whole world) are
left unchanged. -/
theorem c9_unknown_workflow_raises (env : Env) (w : World) (wid : String)
    (blocks : List BlockDef) (sbi srow : Nat) (k : Option Nat)
    (h : alookup w.engine.workflows wid = none) :
    executeWorkflow env w wid blocks sbi srow k =
      (w, .raised (("Workflow ") ++ wid ++ (" not found"))) := by
  unfold executeWorkflow
  rw [h]

/-- Witness for C9 at a concrete empty registry. -/
theorem c9_unknown_workflow_raises_witness :
    executeWorkflow envStub ⟨{}, {}⟩ ("W") [] 0 0 none =
      (⟨{}, {}⟩, .raised (("Workflow ") ++ ("W") ++ (" not found"))) :=
  c9_unknown_workflow_raises envStub ⟨{}, {}⟩ ("W") [] 0 0 none rfl

/-! ## Claim C10 -/

/-- Claim C10: on a non-empty frame, the enrich-lead block invoked with
`start_row` at or past the number of rows returns the (copied) input frame
unchanged, issues no client call, and never invokes `progress_cb`. -/
theorem c10_enrich_start_row_past_end (env : Env) (cfg : Config) (df : Frame)
    (k : Option Nat) (cnt startRow : Nat)
    (h1 : df.rows ≠ []) (h2 : df.rows.length ≤ startRow) :
    enrichLeadExec env cfg (some df) k cnt startRow = ⟨.ok df, [], [], cnt⟩ := by
  have h0 : ¬ (df.rows.length = 0) := by simpa using h1
  simp only [enrichLeadExec]
  rw [if_neg h0]
  exact apiLoop_done _ _ _ _ _ _ _ _ _ _ _ h2 (fuelFor_pos _ _)

/-- Witness for C10 on a concrete one-row frame with `start_row = 1`. -/
theorem c10_enrich_start_row_past_end_witness :
    enrichLeadExec envStub {} (some ⟨[("c")], [(0, [])]⟩) none 0 1 =
      ⟨.ok ⟨[("c")], [(0, [])]⟩, [], [], 0⟩ :=
  c10_enrich_start_row_past_end envStub {} ⟨[("c")], [(0, [])]⟩ none 0 1
    (by decide) (by decide)

/-! ## Claim C4 -/

/-- Claim C4 (code bug): the spec says string operators treat missing cells
as non-matching, and the source passes `na=False` to that end; but
`astype(str)` has already rendered the missing cell as the literal string
"nan", so the `contains` operator can match it.  At the failing input below
(a one-row frame whose only cell is missing, filtered with `contains` and the
default empty value) the row survives the filter. -/
theorem c4_missing_cell_matches_contains :
    filterExec { column := ("c"), operator := ("contains"), value := .vStr ("") }
      (some ⟨[("c")], [(0, [(("c"), none)])]⟩) 0 =
      ⟨.ok ⟨[("c")], [(0, [(("c"), none)])]⟩, [10, 100], [], 0⟩ := by decide

/-! ## Claim C5 -/

/-- Counterexample to claim C5: the filter block does not raise on an empty
(zero-row) frame; with the filter column present it returns the empty frame
instead of failing with an EMPTY_INPUT error. -/
theorem c5_filter_accepts_empty_frame :
    filterExec { column := ("c") } (some ⟨[("c")], []⟩) 0 =
      ⟨.ok ⟨[("c")], []⟩, [10, 100], [], 0⟩ := by decide

/-- Claim C5 as amended: both enrichment blocks raise on a null or empty
frame, and the filter block raises on a null frame (an empty frame passes
through the filter, see the counterexample). -/
theorem c5_empty_input_errors (env : Env) (cfg : Config) (k : Option Nat)
    (cnt s : Nat) (df : Frame) (hemp : df.rows = []) :
    (enrichLeadExec env cfg none k cnt s).res =
        .err ("No DataFrame or empty DataFrame to enrich") ∧
    (enrichLeadExec env cfg (some df) k cnt s).res =
        .err ("No DataFrame or empty DataFrame to enrich") ∧
    (findEmailExec env cfg none k cnt s).res = .err ("No DataFrame or empty DataFrame") ∧
    (findEmailExec env cfg (some df) k cnt s).res =
        .err ("No DataFrame or empty DataFrame") ∧
    (filterExec cfg none cnt).res = .err ("No DataFrame to filter") := by
  refine ⟨rfl, ?_, rfl, ?_, rfl⟩ <;>
    simp [enrichLeadExec, findEmailExec, hemp]

/-- Witness for the amended C5 at the concrete empty frame. -/
theorem c5_empty_input_errors_witness :
    (enrichLeadExec envStub {} (some ⟨[("c")], []⟩) none 0 0).res =
      .err ("No DataFrame or empty DataFrame to enrich") :=
  (c5_empty_input_errors envStub {} none 0 0 ⟨[("c")], []⟩ rfl).2.1

/-! ## Claim C8 -/

theorem maskRows_idem (cfg : Config) :
    ∀ rows kept, maskRows cfg rows = .ok kept → maskRows cfg kept = .ok kept := by
  intro rows
  induction rows with
  | nil =>
    intro kept h
    simp only [maskRows] at h
    cases h
    simp [maskRows]
  | cons p rest ih =>
    intro kept h
    obtain ⟨idx, row⟩ := p
    simp only [maskRows] at h
    cases hcm : cellMatch cfg.operator cfg.value cfg.case_sensitive (cellOf row cfg.column) with
    | error e => rw [hcm] at h; cases h
    | ok b =>
      rw [hcm] at h
      cases hmr : maskRows cfg rest with
      | error e => rw [hmr] at h; cases h
      | ok kept2 =>
        rw [hmr] at h
        have ihk := ih kept2 hmr
        cases b with
        | false =>
          simp only [if_neg (by simp : ¬ (false = true))] at h
          cases h
          exact ihk
        | true =>
          simp only [if_pos rfl] at h
          cases h
          simp only [maskRows, hcm, ihk]

theorem filterExec_ok_inv (cfg : Config) (df g : Frame) (cnt : Nat)
    (h : (filterExec cfg (some df) cnt).res = .ok g) :
    cfg.column ≠ ("") ∧ cfg.column ∈ df.cols ∧ cfg.operator ∈ validOps ∧
    ∃ kept, maskRows cfg df.rows = .ok kept ∧ g = ⟨df.cols, kept⟩ := by
  simp only [filterExec] at h
  by_cases hc : cfg.column = ("")
  · rw [if_pos hc] at h; cases h
  · rw [if_neg hc] at h
    by_cases hm : cfg.column ∈ df.cols
    · rw [if_neg (not_not_intro hm)] at h
      by_cases ho : cfg.operator ∈ validOps
      · rw [if_neg (not_not_intro ho)] at h
        cases hmk : maskRows cfg df.rows with
        | error e => rw [hmk] at h; cases h
        | ok kept =>
          rw [hmk] at h
          simp only [BlockOut.res] at h
          cases h
          exact ⟨hc, hm, ho, kept, rfl, rfl⟩
      · rw [if_pos ho] at h; cases h
    · rw [if_pos hm] at h; cases h

theorem filterExec_ok_build (cfg : Config) (f : Frame) (kept : List (Nat × Row)) (cnt : Nat)
    (hc : cfg.column ≠ ("")) (hm : cfg.column ∈ f.cols) (ho : cfg.operator ∈ validOps)
    (hmk : maskRows cfg f.rows = .ok kept) :
    filterExec cfg (some f) cnt = ⟨.ok ⟨f.cols, kept⟩, [10, 100], [], cnt⟩ := by
  simp only [filterExec]
  rw [if_neg hc, if_neg (not_not_intro hm), if_neg (not_not_intro ho), hmk]

/-- Claim C8: the filter block is idempotent -- whenever it returns a frame,
applying the same filter configuration to that output frame returns the very
same frame. -/
theorem c8_filter_idempotent (cfg : Config) (df g : Frame) (cnt cnt2 : Nat)
    (h : (filterExec cfg (some df) cnt).res = .ok g) :
    (filterExec cfg (some g) cnt2).res = .ok g := by
  obtain ⟨hc, hm, ho, kept, hmk, hg⟩ := filterExec_ok_inv cfg df g cnt h
  subst hg
  rw [filterExec_ok_build cfg ⟨df.cols, kept⟩ kept cnt2 hc hm ho
    (maskRows_idem cfg df.rows kept hmk)]

/-- Witness for C8 on a concrete two-row frame where the filter keeps one
row. -/
theorem c8_filter_idempotent_witness :
    (filterExec { column := ("c"), operator := ("equals"), value := .vStr ("a") }
      (some ⟨[("c")], [(0, [(("c"), some (.vStr ("a")))])]⟩) 1).res =
      .ok ⟨[("c")], [(0, [(("c"), some (.vStr ("a")))])]⟩ :=
  c8_filter_idempotent { column := ("c"), operator := ("equals"), value := .vStr ("a") }
    ⟨[("c")], [(0, [(("c"), some (.vStr ("a")))]), (1, [(("c"), some (.vStr ("b")))])]⟩
    ⟨[("c")], [(0, [(("c"), some (.vStr ("a")))])]⟩ 0 1 (by decide)

/-! ## Frame-locality lemmas -/

/-- The frame carried by an `ok` or `paused` result. -/
def resFrame : ExecResult → Option Frame
  | .ok f => some f
  | .paused f _ => some f
  | .err _ => none
  | .hung => none

theorem ensureCol_rows (f : Frame) (c : String) : (ensureCol f c).rows = f.rows := by
  unfold ensureCol; split <;> rfl

theorem setAt_map_fst (f : Frame) (i : Nat) (c : String) (v : Cell) :
    (setAt f i c v).rows.map Prod.fst = f.rows.map Prod.fst := by
  simp only [setAt, List.map_map]
  congr 1
  funext p
  by_cases h : p.1 = i <;> simp [h]

theorem cellOf_setRowCell_same (r : Row) (c : String) (v : Cell) :
    cellOf (setRowCell r c v) c = v := by
  induction r with
  | nil => simp [setRowCell, cellOf, alookup]
  | cons p rest ih =>
    obtain ⟨c0, v0⟩ := p
    by_cases h : c0 = c
    · simp [setRowCell, h, cellOf, alookup]
    · simp only [setRowCell, if_neg h, cellOf, alookup]
      exact ih

theorem cellOf_setRowCell_ne (r : Row) (c c2 : String) (v : Cell) (h : c2 ≠ c) :
    cellOf (setRowCell r c v) c2 = cellOf r c2 := by
  have hcc : ¬ (c = c2) := fun hh => h hh.symm
  induction r with
  | nil => simp [setRowCell, cellOf, alookup, hcc]
  | cons p rest ih =>
    obtain ⟨c0, v0⟩ := p
    by_cases hc0 : c0 = c
    · subst hc0
      simp [setRowCell, cellOf, alookup, hcc]
    · simp only [setRowCell, if_neg hc0, cellOf, alookup]
      by_cases hc2 : c0 = c2
      · rw [if_pos hc2, if_pos hc2]
      · rw [if_neg hc2, if_neg hc2]
        exact ih

theorem getCell_setAt_ne (f : Frame) (idx idx2 : Nat) (c c2 : String) (v : Cell)
    (hne : idx2 ≠ idx) : getCell (setAt f idx c v) idx2 c2 = getCell f idx2 c2 := by
  obtain ⟨cols, rows⟩ := f
  simp only [setAt, getCell]
  induction rows with
  | nil => rfl
  | cons p rest ih =>
    obtain ⟨i, r⟩ := p
    rw [List.map_cons]
    by_cases hi : i = idx
    · have hfe : (if (i, r).1 = idx then ((i, r).1, setRowCell (i, r).2 c v) else (i, r))
          = (i, setRowCell r c v) := by simp [hi]
      rw [hfe]
      simp only [getCellRows]
      have h1 : ¬ (i = idx2) := fun hh => hne (hi ▸ hh.symm)
      rw [if_neg h1, if_neg h1]
      exact ih
    · have hfe : (if (i, r).1 = idx then ((i, r).1, setRowCell (i, r).2 c v) else (i, r))
          = (i, r) := by simp [hi]
      rw [hfe]
      simp only [getCellRows]
      by_cases h2 : i = idx2
      · rw [if_pos h2, if_pos h2]
      · rw [if_neg h2, if_neg h2]
        exact ih

theorem getCell_setAt_same (f : Frame) (idx : Nat) (c : String) (v : Cell)
    (hmem : idx ∈ f.rows.map Prod.fst) : getCell (setAt f idx c v) idx c = v := by
  obtain ⟨cols, rows⟩ := f
  simp only [setAt, getCell] at hmem ⊢
  induction rows with
  | nil => simp at hmem
  | cons p rest ih =>
    obtain ⟨i, r⟩ := p
    rw [List.map_cons]
    by_cases hi : i = idx
    · have hfe : (if (i, r).1 = idx then ((i, r).1, setRowCell (i, r).2 c v) else (i, r))
          = (i, setRowCell r c v) := by simp [hi]
      rw [hfe]
      simp only [getCellRows]
      rw [if_pos hi]
      exact cellOf_setRowCell_same r c v
    · have hfe : (if (i, r).1 = idx then ((i, r).1, setRowCell (i, r).2 c v) else (i, r))
          = (i, r) := by simp [hi]
      rw [hfe]
      simp only [getCellRows]
      rw [if_neg hi]
      refine ih ?_
      simp only [List.map_cons, List.mem_cons] at hmem
      rcases hmem with h | h
      · exact absurd h.symm hi
      · exact h

theorem applyFindResult_other (outCol : String) (g : Frame) (i : Nat)
    (r : EnrichmentResult) (idx : Nat) (c : String) (hne : idx ≠ i) :
    getCell (applyFindResult outCol g i r) idx c = getCell g idx c := by
  unfold applyFindResult
  cases r.data with
  | none => rfl
  | some d =>
    simp only
    split
    · split
      · exact getCell_setAt_ne g i idx outCol c _ hne
      · rfl
    · rfl

theorem applyRowsWith_other (call applyRes)
    (happ : ∀ g i r idx c, idx ≠ i → getCell (applyRes g i r) idx c = getCell g idx c)
    (idx : Nat) (c : String) :
    ∀ (l : List (Nat × Row)) (f : Frame), (∀ p ∈ l, p.1 ≠ idx) →
      getCell (applyRowsWith call applyRes f l) idx c = getCell f idx c := by
  intro l
  induction l with
  | nil => intro f _; rfl
  | cons p rest ih =>
    intro f hl
    simp only [applyRowsWith, List.foldl_cons]
    rw [show (rest.foldl (fun acc q => applyRes acc q.1 (call q.1 q.2).2)
        (applyRes f p.1 (call p.1 p.2).2)) =
        applyRowsWith call applyRes (applyRes f p.1 (call p.1 p.2).2) rest from rfl]
    rw [ih _ (fun q hq => hl q (List.mem_cons_of_mem p hq))]
    exact happ f p.1 _ idx c (fun hh => hl p (List.mem_cons_self p rest) hh.symm) |>.symm ▸ rfl

/-- Rows outside the candidate list keep their cells across the batched
loop, for any result application that only writes the called row's label. -/
theorem apiLoop_resFrame_pres (call applyRes rows total bs mc k)
    (happ : ∀ g i r idx c, idx ≠ i → getCell (applyRes g i r) idx c = getCell g idx c)
    (idx : Nat) (c : String) (hidx : ∀ p ∈ rows, p.1 ≠ idx) :
    ∀ fuel f cur cnt g,
      resFrame (apiLoop call applyRes rows total bs mc k fuel f cur cnt).res = some g →
      getCell g idx c = getCell f idx c := by
  intro fuel
  induction fuel with
  | zero => intro f cur cnt g h; simp [apiLoop, resFrame] at h
  | succ n ih =>
    intro f cur cnt g h
    by_cases hcur : cur < total
    · by_cases hchk : checkHit k cnt
      · simp only [apiLoop, if_pos hcur, if_pos hchk, resFrame] at h
        cases h
        rfl
      · by_cases hmc : mc = 0 ∧ (rows.drop cur).take (min (cur + bs) total - cur) ≠ []
        · simp only [apiLoop, if_pos hcur, if_neg hchk, if_pos hmc, resFrame] at h
          cases h
        · simp only [apiLoop, if_pos hcur, if_neg hchk, if_neg hmc] at h
          have hbt : ∀ p ∈ (rows.drop cur).take (min (cur + bs) total - cur), p.1 ≠ idx :=
            fun p hp => hidx p (List.drop_subset cur rows (List.take_subset _ _ hp))
          have hf2 : ((((rows.drop cur).take (min (cur + bs) total - cur)).map
              fun p => (p.1, call p.1 p.2)).foldl
              (fun acc pr => applyRes acc pr.1 pr.2.2) f) =
              applyRowsWith call applyRes f ((rows.drop cur).take (min (cur + bs) total - cur)) := by
            rw [applyRowsWith, List.foldl_map]
          rw [hf2] at h
          rw [ih _ _ _ _ h]
          exact applyRowsWith_other call applyRes happ idx c _ f hbt
    · simp only [apiLoop, if_neg hcur, resFrame] at h
      cases h
      rfl

/-- Every call issued by the batched loop is the call for one of the
candidate rows. -/
theorem apiLoop_calls_mem (call applyRes rows total bs mc k) :
    ∀ fuel f cur cnt x,
      x ∈ (apiLoop call applyRes rows total bs mc k fuel f cur cnt).calls →
      ∃ p ∈ rows, x = (p.1, (call p.1 p.2).1) := by
  intro fuel
  induction fuel with
  | zero => intro f cur cnt x h; simp [apiLoop] at h
  | succ n ih =>
    intro f cur cnt x h
    by_cases hcur : cur < total
    · by_cases hchk : checkHit k cnt
      · simp only [apiLoop, if_pos hcur, if_pos hchk] at h
        simp at h
      · by_cases hmc : mc = 0 ∧ (rows.drop cur).take (min (cur + bs) total - cur) ≠ []
        · simp only [apiLoop, if_pos hcur, if_neg hchk, if_pos hmc] at h
          simp at h
        · simp only [apiLoop, if_pos hcur, if_neg hchk, if_neg hmc, List.mem_append] at h
          rcases h with h | h
          · simp only [List.map_map, List.mem_map] at h
            obtain ⟨p, hp, hx⟩ := h
            refine ⟨p, List.drop_subset cur rows (List.take_subset _ _ hp), ?_⟩
            rw [← hx]
            rfl
          · exact ih _ _ _ _ h
    · simp only [apiLoop, if_neg hcur] at h
      simp at h

/-- Two bindings of the same label in a label-nodup row list are equal. -/
theorem nodup_keys_eq {rows : List (Nat × Row)} (hnd : (rows.map Prod.fst).Nodup)
    {i : Nat} {r1 r2 : Row} (h1 : (i, r1) ∈ rows) (h2 : (i, r2) ∈ rows) : r1 = r2 := by
  induction rows with
  | nil => cases h1
  | cons p rest ih =>
    simp only [List.map_cons, List.nodup_cons] at hnd
    rcases List.mem_cons.mp h1 with he1 | ht1 <;> rcases List.mem_cons.mp h2 with he2 | ht2
    · rw [← he2] at he1; cases he1; rfl
    · exfalso
      apply hnd.1
      rw [← he1]
      simpa using List.mem_map_of_mem Prod.fst ht2
    · exfalso
      apply hnd.1
      rw [← he2]
      simpa using List.mem_map_of_mem Prod.fst ht1
    · exact ih hnd.2 ht1 ht2

theorem femPrepGo_cons_skip (outCol : String) (i : Nat) (r : Row)
    (rest : List (Nat × Row)) (f : Frame) (h : truthyCell (cellOf r ("email")) = true) :
    femPrepGo outCol true ((i, r) :: rest) f =
      femPrepGo outCol true rest (setAt f i outCol (cellOf r ("email"))) := by
  simp [femPrepGo, h]

theorem femPrepGo_cons_cand (outCol : String) (skip : Bool) (i : Nat) (r : Row)
    (rest : List (Nat × Row)) (f : Frame)
    (h : ¬(skip = true ∧ truthyCell (cellOf r ("email")) = true)) :
    femPrepGo outCol skip ((i, r) :: rest) f =
      ((femPrepGo outCol skip rest f).1, (i, r) :: (femPrepGo outCol skip rest f).2) := by
  simp only [femPrepGo, if_neg h]

/-- Every candidate row of the find-email preparation is a source row that
failed the skip test. -/
theorem femPrepGo_mem (outCol : String) (skip : Bool) :
    ∀ (rows : List (Nat × Row)) (f : Frame) (p : Nat × Row),
      p ∈ (femPrepGo outCol skip rows f).2 →
      p ∈ rows ∧ ¬(skip = true ∧ truthyCell (cellOf p.2 ("email")) = true) := by
  intro rows
  induction rows with
  | nil => intro f p h; simp [femPrepGo] at h
  | cons q rest ih =>
    intro f p h
    obtain ⟨i, r⟩ := q
    by_cases hq : skip ∧ truthyCell (cellOf r ("email"))
    · simp only [femPrepGo, if_pos hq] at h
      obtain ⟨hmem, hns⟩ := ih _ p h
      exact ⟨List.mem_cons_of_mem _ hmem, hns⟩
    · simp only [femPrepGo, if_neg hq] at h
      rcases List.mem_cons.mp h with he | ht
      · subst he
        refine ⟨List.mem_cons_self _ _, ?_⟩
        simpa using hq
      · obtain ⟨hmem, hns⟩ := ih _ p ht
        exact ⟨List.mem_cons_of_mem _ hmem, hns⟩

/-- The preparation loop does not touch rows whose label is outside the
row list being folded. -/
theorem femPrepGo_frame_other (outCol : String) (skip : Bool) (idx : Nat) (c : String) :
    ∀ (rows : List (Nat × Row)) (f : Frame), idx ∉ rows.map Prod.fst →
      getCell (femPrepGo outCol skip rows f).1 idx c = getCell f idx c := by
  intro rows
  induction rows with
  | nil => intro f _; rfl
  | cons q rest ih =>
    intro f hidx
    obtain ⟨i, r⟩ := q
    simp only [List.map_cons, List.mem_cons, not_or] at hidx
    by_cases hq : skip ∧ truthyCell (cellOf r ("email"))
    · simp only [femPrepGo, if_pos hq]
      rw [ih _ hidx.2]
      exact getCell_setAt_ne f i idx outCol c _ hidx.1
    · simp only [femPrepGo, if_neg hq]
      exact ih f hidx.2

theorem femPrepGo_map_fst (outCol : String) (skip : Bool) :
    ∀ (rows : List (Nat × Row)) (f : Frame),
      (femPrepGo outCol skip rows f).1.rows.map Prod.fst = f.rows.map Prod.fst := by
  intro rows
  induction rows with
  | nil => intro f; rfl
  | cons q rest ih =>
    intro f
    obtain ⟨i, r⟩ := q
    by_cases hq : skip ∧ truthyCell (cellOf r ("email"))
    · simp only [femPrepGo, if_pos hq]
      rw [ih]
      exact setAt_map_fst f i outCol _
    · simp only [femPrepGo, if_neg hq]
      exact ih f

/-- In the prepared frame, a source row passing the skip test carries its
email in the output column. -/
theorem femPrepGo_skip_cell (outCol : String) (idx : Nat) (row : Row) :
    ∀ (rows : List (Nat × Row)) (f : Frame), (rows.map Prod.fst).Nodup →
      (idx, row) ∈ rows → truthyCell (cellOf row ("email")) = true →
      idx ∈ f.rows.map Prod.fst →
      getCell (femPrepGo outCol true rows f).1 idx outCol = cellOf row ("email") := by
  intro rows
  induction rows with
  | nil => intro f _ h; cases h
  | cons q rest ih =>
    intro f hnd hmem htr hin
    obtain ⟨i, r⟩ := q
    simp only [List.map_cons, List.nodup_cons] at hnd
    rcases List.mem_cons.mp hmem with he | ht
    · cases he
      rw [femPrepGo_cons_skip outCol idx row rest f htr]
      rw [femPrepGo_frame_other outCol true idx outCol rest _ hnd.1]
      exact getCell_setAt_same f idx outCol _ hin
    · by_cases hq : truthyCell (cellOf r ("email")) = true
      · rw [femPrepGo_cons_skip outCol i r rest f hq]
        refine ih _ hnd.2 ht htr ?_
        rw [setAt_map_fst]
        exact hin
      · rw [femPrepGo_cons_cand outCol true i r rest f (by simp [hq])]
        exact ih f hnd.2 ht htr hin

/-- If every source row passes the skip test, the candidate list is empty. -/
theorem femPrepGo_all_skip (outCol : String) :
    ∀ (rows : List (Nat × Row)) (f : Frame),
      (∀ p ∈ rows, truthyCell (cellOf p.2 ("email")) = true) →
      (femPrepGo outCol true rows f).2 = [] := by
  intro rows
  induction rows with
  | nil => intro f _; rfl
  | cons q rest ih =>
    intro f hall
    obtain ⟨i, r⟩ := q
    rw [femPrepGo_cons_skip outCol i r rest f (hall (i, r) (List.mem_cons_self _ _))]
    exact ih _ (fun p hp => hall p (List.mem_cons_of_mem _ hp))

/-! ## Claim C7 -/

/-- Claim C7: with `skip_existing` on, every row with a present, truthy
`email` cell has that email copied into the output column of the result
frame (whether the block completes or pauses) and is excluded from the
candidate list, so no client call carries its label; and when every row is
skipped (empty candidate list) the block emits a single progress `100` and
returns the prepared frame. -/
theorem c7_find_email_skip_existing (env : Env) (cfg : Config) (df : Frame)
    (k : Option Nat) (cnt start : Nat)
    (hskip : cfg.skip_existing = true) (hnd : nodupIdx df) :
    (∀ idx row, (idx, row) ∈ df.rows → truthyCell (cellOf row ("email")) = true →
      (∀ x ∈ (findEmailExec env cfg (some df) k cnt start).calls, x.1 ≠ idx) ∧
      (∀ g, resFrame (findEmailExec env cfg (some df) k cnt start).res = some g →
        getCell g idx cfg.output_column = cellOf row ("email"))) ∧
    ((∀ p ∈ df.rows, truthyCell (cellOf p.2 ("email")) = true) → df.rows ≠ [] →
      findEmailExec env cfg (some df) k cnt start =
        ⟨.ok (femPrep cfg df).1, [100], [], cnt⟩) := by
  have hbase : (ensureCol df cfg.output_column).rows = df.rows := ensureCol_rows df _
  constructor
  · intro idx row hmem htr
    have hne : df.rows.length ≠ 0 := by
      intro h0
      rw [List.length_eq_zero] at h0
      rw [h0] at hmem
      cases hmem
    have hcand : ∀ p ∈ (femPrep cfg df).2, p.1 ≠ idx := by
      intro p hp
      obtain ⟨hpm, hns⟩ := femPrepGo_mem cfg.output_column cfg.skip_existing df.rows _ p hp
      intro hpe
      obtain ⟨i2, r2⟩ := p
      simp only at hpe
      subst hpe
      have : r2 = row := nodup_keys_eq hnd hpm hmem
      subst this
      exact hns ⟨hskip, htr⟩
    have hprep : getCell (femPrep cfg df).1 idx cfg.output_column = cellOf row ("email") := by
      rw [femPrep, hskip]
      refine femPrepGo_skip_cell cfg.output_column idx row df.rows _ hnd hmem htr ?_
      rw [hbase]
      exact List.mem_map_of_mem Prod.fst hmem
    simp only [findEmailExec, if_neg hne]
    by_cases hcl : (femPrep cfg df).2 = []
    · rw [if_pos hcl]
      constructor
      · intro x hx; cases hx
      · intro g hg
        simp only [resFrame] at hg
        cases hg
        exact hprep
    · rw [if_neg hcl]
      constructor
      · intro x hx hxi
        obtain ⟨p, hp, hxp⟩ := apiLoop_calls_mem _ _ _ _ _ _ _ _ _ _ _ x hx
        apply hcand p hp
        rw [hxp] at hxi
        exact hxi
      · intro g hg
        rw [apiLoop_resFrame_pres (findCall env cfg) (applyFindResult cfg.output_column)
          (femPrep cfg df).2 (femPrep cfg df).2.length (femBS cfg) (femMC cfg) k
          (applyFindResult_other cfg.output_column) idx cfg.output_column hcand _ _ _ _ g hg]
        exact hprep
  · intro hall hne0
    have hne : df.rows.length ≠ 0 := by
      intro h0
      rw [List.length_eq_zero] at h0
      exact hne0 h0
    have hcl : (femPrep cfg df).2 = [] := by
      rw [femPrep, hskip]
      exact femPrepGo_all_skip cfg.output_column df.rows _ hall
    simp only [findEmailExec, if_neg hne]
    rw [if_pos hcl]

/-- Witness for C7 on a concrete frame where every row already has an
email: the candidate list is empty, progress is a single 100, the prepared
frame is returned. -/
theorem c7_find_email_skip_existing_witness :
    findEmailExec envStub {}
      (some ⟨[("email")], [(0, [(("email"), some (.vStr ("x@y")))])]⟩) none 3 0 =
      ⟨.ok (femPrep {} ⟨[("email")], [(0, [(("email"), some (.vStr ("x@y")))])]⟩).1,
        [100], [], 3⟩ :=
  (c7_find_email_skip_existing envStub {}
      ⟨[("email")], [(0, [(("email"), some (.vStr ("x@y")))])]⟩ none 3 0 rfl
      (by decide)).2 (by decide) (by decide)

/-! ## Claim C2 -/

/-- Claim C2: whenever an enrichment block execution ends in a pause, the
pause happens at a batch boundary (a whole number of batches past the entry
cursor, strictly before the end of the candidate list) and before any task
of the next batch is scheduled: the carried frame is the block's working
frame with exactly the candidate rows in `[start_row, last_processed_row)`
applied, and the client calls issued are exactly the calls for those rows
(for a fresh execution, `start_row = 0`, these are the first
`last_processed_row` candidate rows). -/
theorem c2_pause_batch_boundary :
    (∀ (env : Env) (cfg : Config) (df : Frame) (k : Option Nat) (cnt start : Nat)
       (P : Frame) (r : Nat),
      (enrichLeadExec env cfg (some df) k cnt start).res = .paused P r →
      ∃ j, r = start + j * enrichBS cfg ∧ start ≤ r ∧ r < df.rows.length ∧
        P = applyRowsWith (enrichCall env cfg) applyEnrichResult df
          ((df.rows.drop start).take (r - start)) ∧
        (enrichLeadExec env cfg (some df) k cnt start).calls =
          callsOf (enrichCall env cfg) ((df.rows.drop start).take (r - start))) ∧
    (∀ (env : Env) (cfg : Config) (df : Frame) (k : Option Nat) (cnt start : Nat)
       (P : Frame) (r : Nat),
      (findEmailExec env cfg (some df) k cnt start).res = .paused P r →
      ∃ j, r = start + j * femBS cfg ∧ start ≤ r ∧ r < (femPrep cfg df).2.length ∧
        P = applyRowsWith (findCall env cfg) (applyFindResult cfg.output_column)
          (femPrep cfg df).1 (((femPrep cfg df).2.drop start).take (r - start)) ∧
        (findEmailExec env cfg (some df) k cnt start).calls =
          callsOf (findCall env cfg) (((femPrep cfg df).2.drop start).take (r - start))) := by
  constructor
  · intro env cfg df k cnt start P r h
    by_cases h0 : df.rows.length = 0
    · simp [enrichLeadExec, h0] at h
    · simp only [enrichLeadExec, if_neg h0] at h ⊢
      exact apiLoop_paused _ _ _ _ _ _ _ _ _ _ _ P r h
  · intro env cfg df k cnt start P r h
    by_cases h0 : df.rows.length = 0
    · simp [findEmailExec, h0] at h
    · by_cases hcl : (femPrep cfg df).2 = []
      · simp [findEmailExec, h0, hcl] at h
      · simp only [findEmailExec, if_neg h0, if_neg hcl] at h ⊢
        exact apiLoop_paused _ _ _ _ _ _ _ _ _ _ _ P r h

/-- A deterministic client environment for concrete pause scenarios. -/
def envC2 : Env :=
  { enrich_lead := fun _ _ => ⟨true, some [(("x"), some (.vStr ("v")))], none⟩
    find_email := fun _ _ => ⟨true, some [(("email"), some (.vStr ("e")))], none⟩
    decode := fun _ => .error ("no codec")
    encode := fun _ => "" }

def cfgC2 : Config := { max_concurrent := some 1 }

def dfC2 : Frame := ⟨[("name")], [(0, []), (1, [])]⟩

/-- Witness for C2: a two-row frame with batch size 1 and the pause threshold
reached after the first batch pauses both blocks at row 1, with exactly the
first candidate row called. -/
theorem c2_pause_batch_boundary_witness :
    (enrichLeadExec envC2 cfgC2 (some dfC2) (some 1) 0 0).calls =
      callsOf (enrichCall envC2 cfgC2) ((dfC2.rows.drop 0).take 1) ∧
    (findEmailExec envC2 cfgC2 (some dfC2) (some 1) 0 0).calls =
      callsOf (findCall envC2 cfgC2) (((femPrep cfgC2 dfC2).2.drop 0).take 1) := by
  constructor
  · obtain ⟨j, h1, h2, h3, h4, h5⟩ := c2_pause_batch_boundary.1 envC2 cfgC2 dfC2 (some 1) 0 0
      ⟨[("name"), ("enriched_x")], [(0, [(("enriched_x"), some (.vStr ("v")))]), (1, [])]⟩ 1
      (by decide)
    simpa using h5
  · obtain ⟨j, h1, h2, h3, h4, h5⟩ := c2_pause_batch_boundary.2 envC2 cfgC2 dfC2 (some 1) 0 0
      ⟨[("name"), ("found_email")], [(0, [(("found_email"), some (.vStr ("e")))]), (1, [])]⟩ 1
      (by decide)
    simpa using h5

/-! ## Claim C6 -/

/-- The progress values emitted by the batched loop are bounded below by the
entry cursor's percentage and are non-decreasing. -/
theorem apiLoop_prog_bound_chain (call applyRes rows total bs mc k) :
    ∀ fuel f cur cnt,
      (∀ p ∈ (apiLoop call applyRes rows total bs mc k fuel f cur cnt).prog,
        cur * 100 / total ≤ p) ∧
      List.Chain' (· ≤ ·) (apiLoop call applyRes rows total bs mc k fuel f cur cnt).prog := by
  intro fuel
  induction fuel with
  | zero => intro f cur cnt; simp [apiLoop]
  | succ n ih =>
    intro f cur cnt
    by_cases hcur : cur < total
    · by_cases hchk : checkHit k cnt
      · simp [apiLoop, hcur, hchk]
      · by_cases hmc : mc = 0 ∧ (rows.drop cur).take (min (cur + bs) total - cur) ≠ []
        · simp only [apiLoop, if_pos hcur, if_neg hchk, if_pos hmc]
          simp
        · simp only [apiLoop, if_pos hcur, if_neg hchk, if_neg hmc]
          have hcb : cur ≤ min (cur + bs) total := le_min (by omega) (by omega)
          have hmono : cur * 100 / total ≤ min (cur + bs) total * 100 / total :=
            Nat.div_le_div_right (Nat.mul_le_mul_right 100 hcb)
          obtain ⟨ihb, ihc⟩ := ih ((((rows.drop cur).take (min (cur + bs) total - cur)).map
            fun p => (p.1, call p.1 p.2)).foldl (fun acc pr => applyRes acc pr.1 pr.2.2) f)
            (min (cur + bs) total) (cnt + 1)
          constructor
          · intro p hp
            rcases List.mem_cons.mp hp with he | hp2
            · rw [he]; exact hmono
            · exact le_trans hmono (ihb p hp2)
          · rw [List.chain'_cons']
            refine ⟨?_, ihc⟩
            intro b hb
            exact ihb b (List.mem_of_mem_head? hb)
    · simp [apiLoop, hcur]

/-- On a successful return the batched loop either never emitted progress
(only possible when the entry cursor was already past the end) or its last
progress value is 100. -/
theorem apiLoop_ok_last (call applyRes rows total bs mc k) :
    ∀ fuel f cur cnt g,
      (apiLoop call applyRes rows total bs mc k fuel f cur cnt).res = .ok g →
      ((apiLoop call applyRes rows total bs mc k fuel f cur cnt).prog = [] ∧ total ≤ cur) ∨
      (apiLoop call applyRes rows total bs mc k fuel f cur cnt).prog.getLast? = some 100 := by
  intro fuel
  induction fuel with
  | zero => intro f cur cnt g h; simp [apiLoop] at h
  | succ n ih =>
    intro f cur cnt g h
    by_cases hcur : cur < total
    · by_cases hchk : checkHit k cnt
      · simp [apiLoop, hcur, hchk] at h
      · by_cases hmc : mc = 0 ∧ (rows.drop cur).take (min (cur + bs) total - cur) ≠ []
        · simp only [apiLoop, if_pos hcur, if_neg hchk, if_pos hmc] at h
          simp at h
        · simp only [apiLoop, if_pos hcur, if_neg hchk, if_neg hmc] at h ⊢
          right
          rcases ih _ (min (cur + bs) total) (cnt + 1) g h with ⟨hpe, hle⟩ | hlast
          · have hbt : min (cur + bs) total = total :=
              Nat.le_antisymm (min_le_right _ _) hle
            rw [hpe, hbt]
            have h100 : total * 100 / total = 100 := by
              rw [Nat.mul_comm]
              exact Nat.mul_div_cancel 100 (by omega)
            simp [h100]
          · cases hrp : (apiLoop call applyRes rows total bs mc k n _ (min (cur + bs) total)
                (cnt + 1)).prog with
            | nil => rw [hrp] at hlast; simp at hlast
            | cons b l =>
              rw [hrp] at hlast
              rw [List.getLast?_cons_cons]
              exact hlast
    · left
      refine ⟨?_, by omega⟩
      simp [apiLoop, hcur]

theorem chain_le_10 : List.Chain' (α := Nat) (· ≤ ·) [10] := List.chain'_singleton 10

theorem chain_le_100 : List.Chain' (α := Nat) (· ≤ ·) [100] := List.chain'_singleton 100

theorem chain_le_10_100 : List.Chain' (α := Nat) (· ≤ ·) [10, 100] :=
  List.chain'_cons.mpr ⟨by omega, List.chain'_singleton 100⟩

/-- Shape classification of a read-csv execution. -/
theorem readCSVExec_cases (env : Env) (fs : FS) (cfg : Config) (cnt : Nat) :
    (∃ m, readCSVExec env fs cfg cnt = ⟨.err m, [], [], cnt⟩) ∨
    (∃ m, readCSVExec env fs cfg cnt = ⟨.err m, [10], [], cnt⟩) ∨
    (∃ f2, readCSVExec env fs cfg cnt = ⟨.ok f2, [10, 100], [], cnt⟩) := by
  unfold readCSVExec
  split
  all_goals try split
  all_goals try split
  all_goals
    first
    | exact Or.inl ⟨_, rfl⟩
    | exact Or.inr (Or.inl ⟨_, rfl⟩)
    | exact Or.inr (Or.inr ⟨_, rfl⟩)

/-- Shape classification of a save-csv execution. -/
theorem saveCSVExec_cases (env : Env) (fs : FS) (cfg : Config) (df : Option Frame)
    (cnt : Nat) :
    (saveCSVExec env fs cfg df cnt).1 = ⟨.err ("No DataFrame to save"), [], [], cnt⟩ ∨
    (∃ f, df = some f ∧ (saveCSVExec env fs cfg df cnt).1 = ⟨.ok f, [10, 100], [], cnt⟩) := by
  cases df with
  | none => exact Or.inl rfl
  | some f => exact Or.inr ⟨f, rfl, rfl⟩

/-- Shape classification of a filter execution. -/
theorem filterExec_cases (cfg : Config) (df : Option Frame) (cnt : Nat) :
    (∃ m, filterExec cfg df cnt = ⟨.err m, [], [], cnt⟩) ∨
    (∃ m, filterExec cfg df cnt = ⟨.err m, [10], [], cnt⟩) ∨
    (∃ g, filterExec cfg df cnt = ⟨.ok g, [10, 100], [], cnt⟩) := by
  cases df with
  | none => exact Or.inl ⟨_, rfl⟩
  | some f =>
    unfold filterExec
    split
    all_goals try split
    all_goals try split
    all_goals try split
    all_goals try split
    all_goals
      first
      | exact Or.inl ⟨_, rfl⟩
      | exact Or.inr (Or.inl ⟨_, rfl⟩)
      | exact Or.inr (Or.inr ⟨_, rfl⟩)

/-- Claim C6 as amended: for every block execution the progress values are
monotonically non-decreasing, and on every successful return the last
progress value is 100 -- except that an enrichment block entered with a
resume offset at or past the end of its candidate list (`start_row > 0`)
returns successfully without invoking the progress callback at all. -/
theorem c6_progress_monotone (env : Env) (fs : FS) (bt : BlockType) (cfg : Config)
    (df : Option Frame) (k : Option Nat) (cnt bstart : Nat) :
    List.Chain' (· ≤ ·) (runBlock env fs bt cfg df k cnt bstart).1.prog ∧
    (∀ g, (runBlock env fs bt cfg df k cnt bstart).1.res = .ok g →
      (runBlock env fs bt cfg df k cnt bstart).1.prog.getLast? = some 100 ∨
      ((runBlock env fs bt cfg df k cnt bstart).1.prog = [] ∧
        (bt = .enrich_lead ∨ bt = .find_email) ∧ 0 < bstart)) := by
  cases bt with
  | read_csv =>
    simp only [runBlock]
    rcases readCSVExec_cases env fs cfg cnt with ⟨m, he⟩ | ⟨m, he⟩ | ⟨f2, he⟩ <;> rw [he]
    · exact ⟨by simp, fun g h => by cases h⟩
    · exact ⟨chain_le_10, fun g h => by cases h⟩
    · exact ⟨chain_le_10_100, fun g h => Or.inl rfl⟩
  | save_csv =>
    simp only [runBlock]
    rcases saveCSVExec_cases env fs cfg df cnt with he | ⟨f, hdf, he⟩ <;> rw [he]
    · exact ⟨by simp, fun g h => by cases h⟩
    · exact ⟨chain_le_10_100, fun g h => Or.inl rfl⟩
  | filter =>
    simp only [runBlock]
    rcases filterExec_cases cfg df cnt with ⟨m, he⟩ | ⟨m, he⟩ | ⟨g2, he⟩ <;> rw [he]
    · exact ⟨by simp, fun g h => by cases h⟩
    · exact ⟨chain_le_10, fun g h => by cases h⟩
    · exact ⟨chain_le_10_100, fun g h => Or.inl rfl⟩
  | enrich_lead =>
    cases df with
    | none =>
      constructor
      · simp [runBlock, enrichLeadExec]
      · intro g h
        simp [runBlock, enrichLeadExec] at h
    | some dfv =>
      by_cases h0 : dfv.rows.length = 0
      · constructor
        · simp [runBlock, enrichLeadExec, h0]
        · intro g h
          simp [runBlock, enrichLeadExec, h0] at h
      · simp only [runBlock, enrichLeadExec, if_neg h0]
        refine ⟨(apiLoop_prog_bound_chain _ _ _ _ _ _ _ _ _ _ _).2, ?_⟩
        intro g h
        rcases apiLoop_ok_last _ _ _ _ _ _ _ _ _ _ _ g h with ⟨hpe, hle⟩ | hlast
        · exact Or.inr ⟨hpe, by simp, by omega⟩
        · exact Or.inl hlast
  | find_email =>
    cases df with
    | none =>
      constructor
      · simp [runBlock, findEmailExec]
      · intro g h
        simp [runBlock, findEmailExec] at h
    | some dfv =>
      by_cases h0 : dfv.rows.length = 0
      · constructor
        · simp [runBlock, findEmailExec, h0]
        · intro g h
          simp [runBlock, findEmailExec, h0] at h
      · simp only [runBlock, findEmailExec, if_neg h0]
        by_cases hcl : (femPrep cfg dfv).2 = []
        · rw [if_pos hcl]
          exact ⟨chain_le_100, fun g h => Or.inl rfl⟩
        · rw [if_neg hcl]
          refine ⟨(apiLoop_prog_bound_chain _ _ _ _ _ _ _ _ _ _ _).2, ?_⟩
          intro g h
          rcases apiLoop_ok_last _ _ _ _ _ _ _ _ _ _ _ g h with ⟨hpe, hle⟩ | hlast
          · have hlp : 0 < (femPrep cfg dfv).2.length := List.length_pos.mpr hcl
            exact Or.inr ⟨hpe, by simp, by omega⟩
          · exact Or.inl hlast

/-- Counterexample to claim C6 as stated: a successful enrich-lead execution
(resume offset past the end) that never invokes the progress callback, so in
particular the callback is not invoked with 100. -/
theorem c6_success_without_progress :
    (runBlock envStub ⟨[]⟩ .enrich_lead {} (some ⟨[("c")], [(0, [])]⟩) none 0 1).1 =
      ⟨.ok ⟨[("c")], [(0, [])]⟩, [], [], 0⟩ := by decide

/-- Witness for the amended C6 on a concrete successful filter execution. -/
theorem c6_progress_monotone_witness :
    (runBlock envStub ⟨[]⟩ .filter { column := ("c") }
      (some ⟨[("c")], [(0, [(("c"), some (.vStr ("a")))])]⟩) none 0 0).1.prog.getLast? =
        some 100 ∨
    ((runBlock envStub ⟨[]⟩ .filter { column := ("c") }
      (some ⟨[("c")], [(0, [(("c"), some (.vStr ("a")))])]⟩) none 0 0).1.prog = [] ∧
      (BlockType.filter = BlockType.enrich_lead ∨ BlockType.filter = BlockType.find_email) ∧
      0 < 0) :=
  (c6_progress_monotone envStub ⟨[]⟩ .filter { column := ("c") }
    (some ⟨[("c")], [(0, [(("c"), some (.vStr ("a")))])]⟩) none 0 0).2
    ⟨[("c")], [(0, [(("c"), some (.vStr ("a")))])]⟩ (by decide)

/-! ## Engine loop lemmas -/

theorem alookup_aupsert_self {α : Type} (key : String) (v : α) :
    ∀ (m : List (String × α)), alookup (aupsert m key v) key = some v := by
  intro m
  induction m with
  | nil => simp [aupsert, alookup]
  | cons p rest ih =>
    obtain ⟨k0, v0⟩ := p
    by_cases h : k0 = key
    · simp [aupsert, h, alookup]
    · simp only [aupsert, if_neg h, alookup]
      exact ih

theorem alookup_aupsert_ne {α : Type} (key key2 : String) (v : α) (hne : key2 ≠ key) :
    ∀ (m : List (String × α)), alookup (aupsert m key v) key2 = alookup m key2 := by
  intro m
  induction m with
  | nil => simp [aupsert, alookup, Ne.symm hne]
  | cons p rest ih =>
    obtain ⟨k0, v0⟩ := p
    by_cases h : k0 = key
    · subst h
      simp only [aupsert, if_pos rfl, alookup]
      rw [if_neg (fun h2 => hne h2.symm), if_neg (fun h2 => hne h2.symm)]
    · simp only [aupsert, if_neg h, alookup]
      by_cases h2 : k0 = key2
      · rw [if_pos h2, if_pos h2]
      · rw [if_neg h2, if_neg h2]
        exact ih

/-- The fresh state materialized by `create_workflow`. -/
def initialState (wid : String) (blocks : List BlockDef) : WorkflowState :=
  { workflow_id := wid, blocks := initBlocks blocks }

theorem createWorkflow_lookup (eng : WorkflowEngine) (wid : String) (blocks : List BlockDef) :
    alookup (createWorkflow eng wid blocks).workflows wid = some (initialState wid blocks) := by
  simp [createWorkflow, initialState, alookup_aupsert_self]

theorem initBlocks_length (blocks : List BlockDef) :
    (initBlocks blocks).length = blocks.length := List.length_map blocks _

theorem updNth_length {α : Type} (g : α → α) :
    ∀ (i : Nat) (l : List α), (updNth i g l).length = l.length := by
  intro i l
  induction l generalizing i with
  | nil => simp [updNth]
  | cons b rest ih =>
    cases i with
    | zero => rfl
    | succ j => simp [updNth, ih j]

theorem updNth_get?_ne {α : Type} (g : α → α) :
    ∀ (i j : Nat) (l : List α), j ≠ i → (updNth i g l).get? j = l.get? j := by
  intro i j l
  induction l generalizing i j with
  | nil => intro _; simp [updNth]
  | cons b rest ih =>
    intro hne
    cases i with
    | zero =>
      cases j with
      | zero => exact absurd rfl hne
      | succ j2 => rfl
    | succ i2 =>
      cases j with
      | zero => rfl
      | succ j2 =>
        simp only [updNth, List.get?]
        exact ih i2 j2 (fun h => hne (by rw [h]))

theorem updNth_get?_eq {α : Type} (g : α → α) :
    ∀ (i : Nat) (l : List α), (updNth i g l).get? i = (l.get? i).map g := by
  intro i l
  induction l generalizing i with
  | nil => simp [updNth]
  | cons b rest ih =>
    cases i with
    | zero => rfl
    | succ j => simpa [updNth, List.get?] using ih j

theorem markRunning_length (st : WorkflowState) (i : Nat) :
    (markRunning st i).blocks.length = st.blocks.length := by
  simp [markRunning, updNth_length]

theorem applyProg_length (st : WorkflowState) (i : Nat) (prog : List Nat) :
    (applyProg st i prog).blocks.length = st.blocks.length := by
  unfold applyProg
  cases prog.getLast? <;> simp [updNth_length]

theorem markCompleted_length (st : WorkflowState) (i : Nat) :
    (markCompleted st i).blocks.length = st.blocks.length := by
  simp [markCompleted, updNth_length]

theorem refreshResult_blocks (st : WorkflowState) (f : Frame) :
    (refreshResult st f).blocks = st.blocks := rfl

/-- The state resulting from one successfully completed block step. -/
def stepState (st : WorkflowState) (i : Nat) (prog : List Nat) (f : Frame) :
    WorkflowState :=
  refreshResult (markCompleted (applyProg (markRunning st i) i prog) i) f

theorem stepState_length (st : WorkflowState) (i : Nat) (prog : List Nat) (f : Frame) :
    (stepState st i prog f).blocks.length = st.blocks.length := by
  simp [stepState, refreshResult_blocks, markCompleted_length, applyProg_length,
    markRunning_length]

theorem stepState_get?_ne (st : WorkflowState) (i : Nat) (prog : List Nat) (f : Frame)
    (j : Nat) (hne : j ≠ i) :
    (stepState st i prog f).blocks.get? j = st.blocks.get? j := by
  simp only [stepState, refreshResult_blocks, markCompleted]
  rw [updNth_get?_ne _ _ _ _ hne]
  unfold applyProg
  cases hgl : prog.getLast? with
  | none =>
    simp only [markRunning]
    rw [updNth_get?_ne _ _ _ _ hne]
  | some p =>
    simp only [markRunning]
    rw [updNth_get?_ne _ _ _ _ hne, updNth_get?_ne _ _ _ _ hne]

theorem stepState_get?_eq (st : WorkflowState) (i : Nat) (prog : List Nat) (f : Frame)
    (b0 : BlockProgress) (hb0 : st.blocks.get? i = some b0) :
    (stepState st i prog f).blocks.get? i =
      some { b0 with status := BlockStatus.completed, progress := 100 } := by
  simp only [stepState, refreshResult_blocks, markCompleted]
  rw [updNth_get?_eq]
  unfold applyProg
  cases hgl : prog.getLast? with
  | none =>
    simp only [markRunning]
    rw [updNth_get?_eq, hb0]
    rfl
  | some p =>
    simp only [markRunning]
    rw [updNth_get?_eq, updNth_get?_eq, hb0]
    rfl

/-! ## Step equations for the block loop -/

theorem runGo_cons_skip (env : Env) (sbi srow : Nat) (k : Option Nat) (bd : BlockDef)
    (rest : List BlockDef) (i cnt : Nat) (curDf : Option Frame) (st : WorkflowState)
    (store : Option Frame) (fs : FS) (hskip : i < sbi) :
    runBlocksGo env sbi srow k (bd :: rest) i cnt curDf st store fs =
      runBlocksGo env sbi srow k rest (i + 1) cnt curDf st store fs := by
  simp only [runBlocksGo, if_pos hskip]

theorem runGo_cons_oob (env : Env) (sbi srow : Nat) (k : Option Nat) (bd : BlockDef)
    (rest : List BlockDef) (i cnt : Nat) (curDf : Option Frame) (st : WorkflowState)
    (store : Option Frame) (fs : FS) (hskip : ¬ i < sbi) (hib : ¬ i < st.blocks.length) :
    runBlocksGo env sbi srow k (bd :: rest) i cnt curDf st store fs =
      ⟨{ st with current_block_index := i }, store, fs, cnt, curDf,
        .raisedErr ("list index out of range")⟩ := by
  simp only [runBlocksGo, if_neg hskip, if_neg hib]

theorem runGo_cons_ok (env : Env) (sbi srow : Nat) (k : Option Nat) (bd : BlockDef)
    (rest : List BlockDef) (i cnt : Nat) (curDf : Option Frame) (st : WorkflowState)
    (store : Option Frame) (fs : FS) (f : Frame)
    (hskip : ¬ i < sbi) (hib : i < st.blocks.length)
    (hres : (runBlock env fs bd.type bd.config curDf k cnt
      (if i = sbi then srow else 0)).1.res = .ok f) :
    runBlocksGo env sbi srow k (bd :: rest) i cnt curDf st store fs =
      runBlocksGo env sbi srow k rest (i + 1)
        (runBlock env fs bd.type bd.config curDf k cnt (if i = sbi then srow else 0)).1.cnt
        (some f)
        (stepState st i
          (runBlock env fs bd.type bd.config curDf k cnt (if i = sbi then srow else 0)).1.prog f)
        (some f)
        (runBlock env fs bd.type bd.config curDf k cnt (if i = sbi then srow else 0)).2 := by
  simp only [runBlocksGo, if_neg hskip, if_pos hib]
  rw [hres]
  rfl

theorem runGo_cons_paused (env : Env) (sbi srow : Nat) (k : Option Nat) (bd : BlockDef)
    (rest : List BlockDef) (i cnt : Nat) (curDf : Option Frame) (st : WorkflowState)
    (store : Option Frame) (fs : FS) (f : Frame) (row : Nat)
    (hskip : ¬ i < sbi) (hib : i < st.blocks.length)
    (hres : (runBlock env fs bd.type bd.config curDf k cnt
      (if i = sbi then srow else 0)).1.res = .paused f row) :
    runBlocksGo env sbi srow k (bd :: rest) i cnt curDf st store fs =
      ⟨applyProg (markRunning st i) i
          (runBlock env fs bd.type bd.config curDf k cnt (if i = sbi then srow else 0)).1.prog,
        store,
        (runBlock env fs bd.type bd.config curDf k cnt (if i = sbi then srow else 0)).2,
        (runBlock env fs bd.type bd.config curDf k cnt (if i = sbi then srow else 0)).1.cnt,
        curDf, .pausedAt f row⟩ := by
  simp only [runBlocksGo, if_neg hskip, if_pos hib]
  rw [hres]

theorem runGo_cons_err (env : Env) (sbi srow : Nat) (k : Option Nat) (bd : BlockDef)
    (rest : List BlockDef) (i cnt : Nat) (curDf : Option Frame) (st : WorkflowState)
    (store : Option Frame) (fs : FS) (m : String)
    (hskip : ¬ i < sbi) (hib : i < st.blocks.length)
    (hres : (runBlock env fs bd.type bd.config curDf k cnt
      (if i = sbi then srow else 0)).1.res = .err m) :
    runBlocksGo env sbi srow k (bd :: rest) i cnt curDf st store fs =
      ⟨applyProg (markRunning st i) i
          (runBlock env fs bd.type bd.config curDf k cnt (if i = sbi then srow else 0)).1.prog,
        store,
        (runBlock env fs bd.type bd.config curDf k cnt (if i = sbi then srow else 0)).2,
        (runBlock env fs bd.type bd.config curDf k cnt (if i = sbi then srow else 0)).1.cnt,
        curDf, .raisedErr m⟩ := by
  simp only [runBlocksGo, if_neg hskip, if_pos hib]
  rw [hres]

theorem runGo_cons_hung (env : Env) (sbi srow : Nat) (k : Option Nat) (bd : BlockDef)
    (rest : List BlockDef) (i cnt : Nat) (curDf : Option Frame) (st : WorkflowState)
    (store : Option Frame) (fs : FS)
    (hskip : ¬ i < sbi) (hib : i < st.blocks.length)
    (hres : (runBlock env fs bd.type bd.config curDf k cnt
      (if i = sbi then srow else 0)).1.res = .hung) :
    runBlocksGo env sbi srow k (bd :: rest) i cnt curDf st store fs =
      ⟨applyProg (markRunning st i) i
          (runBlock env fs bd.type bd.config curDf k cnt (if i = sbi then srow else 0)).1.prog,
        store,
        (runBlock env fs bd.type bd.config curDf k cnt (if i = sbi then srow else 0)).2,
        (runBlock env fs bd.type bd.config curDf k cnt (if i = sbi then srow else 0)).1.cnt,
        curDf, .hungAt⟩ := by
  simp only [runBlocksGo, if_neg hskip, if_pos hib]
  rw [hres]

/-- The block loop never changes the number of per-block records. -/
theorem runGo_blocks_length (env : Env) (sbi srow : Nat) (k : Option Nat) :
    ∀ (l : List BlockDef) (i cnt : Nat) (curDf : Option Frame) (st : WorkflowState)
      (store : Option Frame) (fs : FS),
      (runBlocksGo env sbi srow k l i cnt curDf st store fs).st.blocks.length =
        st.blocks.length := by
  intro l
  induction l with
  | nil => intro i cnt curDf st store fs; rfl
  | cons bd rest ih =>
    intro i cnt curDf st store fs
    by_cases hskip : i < sbi
    · rw [runGo_cons_skip _ _ _ _ _ _ _ _ _ _ _ _ hskip]
      exact ih _ _ _ _ _ _
    · by_cases hib : i < st.blocks.length
      · cases hres : (runBlock env fs bd.type bd.config curDf k cnt
          (if i = sbi then srow else 0)).1.res with
        | ok f =>
          rw [runGo_cons_ok _ _ _ _ _ _ _ _ _ _ _ _ _ hskip hib hres, ih]
          exact stepState_length _ _ _ _
        | paused f row =>
          rw [runGo_cons_paused _ _ _ _ _ _ _ _ _ _ _ _ _ _ hskip hib hres]
          simp [applyProg_length, markRunning_length]
        | err m =>
          rw [runGo_cons_err _ _ _ _ _ _ _ _ _ _ _ _ _ hskip hib hres]
          simp [applyProg_length, markRunning_length]
        | hung =>
          rw [runGo_cons_hung _ _ _ _ _ _ _ _ _ _ _ _ hskip hib hres]
          simp [applyProg_length, markRunning_length]
      · rw [runGo_cons_oob _ _ _ _ _ _ _ _ _ _ _ _ hskip hib]

/-- The workflow-level metadata the block loop never touches. -/
def metaOf (st : WorkflowState) :
    WorkflowStatus × Option String × Option (List BlockDef) × Bool × Nat × String :=
  (st.status, st.error, st.blocks_config, st.pause_requested, st.last_processed_row,
    st.workflow_id)

theorem stepState_metaOf (st : WorkflowState) (i : Nat) (prog : List Nat) (f : Frame) :
    metaOf (stepState st i prog f) = metaOf st := by
  simp only [metaOf, stepState, refreshResult, markCompleted, markRunning, applyProg]
  cases prog.getLast? <;> rfl

theorem pausedState_metaOf (st : WorkflowState) (i : Nat) (prog : List Nat) :
    metaOf (applyProg (markRunning st i) i prog) = metaOf st := by
  simp only [metaOf, markRunning, applyProg]
  cases prog.getLast? <;> rfl

theorem runGo_metaOf (env : Env) (sbi srow : Nat) (k : Option Nat) :
    ∀ (l : List BlockDef) (i cnt : Nat) (curDf : Option Frame) (st : WorkflowState)
      (store : Option Frame) (fs : FS),
      metaOf (runBlocksGo env sbi srow k l i cnt curDf st store fs).st = metaOf st := by
  intro l
  induction l with
  | nil => intro i cnt curDf st store fs; rfl
  | cons bd rest ih =>
    intro i cnt curDf st store fs
    by_cases hskip : i < sbi
    · rw [runGo_cons_skip _ _ _ _ _ _ _ _ _ _ _ _ hskip]
      exact ih _ _ _ _ _ _
    · by_cases hib : i < st.blocks.length
      · cases hres : (runBlock env fs bd.type bd.config curDf k cnt
          (if i = sbi then srow else 0)).1.res with
        | ok f =>
          rw [runGo_cons_ok _ _ _ _ _ _ _ _ _ _ _ _ _ hskip hib hres, ih]
          exact stepState_metaOf _ _ _ _
        | paused f row =>
          rw [runGo_cons_paused _ _ _ _ _ _ _ _ _ _ _ _ _ _ hskip hib hres]
          exact pausedState_metaOf _ _ _
        | err m =>
          rw [runGo_cons_err _ _ _ _ _ _ _ _ _ _ _ _ _ hskip hib hres]
          exact pausedState_metaOf _ _ _
        | hung =>
          rw [runGo_cons_hung _ _ _ _ _ _ _ _ _ _ _ _ hskip hib hres]
          exact pausedState_metaOf _ _ _
      · rw [runGo_cons_oob _ _ _ _ _ _ _ _ _ _ _ _ hskip hib]
        rfl

/-- A block loop that runs to completion marks every processed block
COMPLETED at progress 100 and leaves every other block record unchanged. -/
theorem runGo_done_window (env : Env) (sbi srow : Nat) (k : Option Nat) :
    ∀ (l : List BlockDef) (i cnt : Nat) (curDf : Option Frame) (st : WorkflowState)
      (store : Option Frame) (fs : FS),
      sbi ≤ i → i + l.length ≤ st.blocks.length →
      (runBlocksGo env sbi srow k l i cnt curDf st store fs).exit = .done →
      (∀ j, i ≤ j → j < i + l.length →
        ((runBlocksGo env sbi srow k l i cnt curDf st store fs).st.blocks.get? j).map
          (fun b => b.status) = some .completed) ∧
      (∀ j, j < i ∨ i + l.length ≤ j →
        (runBlocksGo env sbi srow k l i cnt curDf st store fs).st.blocks.get? j =
          st.blocks.get? j) := by
  intro l
  induction l with
  | nil =>
    intro i cnt curDf st store fs _ _ _
    refine ⟨fun j h1 h2 => ?_, fun j _ => rfl⟩
    simp only [List.length_nil] at h2
    omega
  | cons bd rest ih =>
    intro i cnt curDf st store fs hsbi hlen hdone
    have hskip : ¬ i < sbi := by omega
    have hib : i < st.blocks.length := by
      simp only [List.length_cons] at hlen
      omega
    cases hres : (runBlock env fs bd.type bd.config curDf k cnt
        (if i = sbi then srow else 0)).1.res with
    | ok f =>
      rw [runGo_cons_ok _ _ _ _ _ _ _ _ _ _ _ _ _ hskip hib hres] at hdone ⊢
      have hlen2 : (i + 1) + rest.length ≤ (stepState st i
          (runBlock env fs bd.type bd.config curDf k cnt
            (if i = sbi then srow else 0)).1.prog f).blocks.length := by
        rw [stepState_length]
        simp only [List.length_cons] at hlen
        omega
      obtain ⟨ihw, iho⟩ := ih (i + 1) _ (some f) _ (some f) _ (by omega) hlen2 hdone
      obtain ⟨b0, hb0⟩ : ∃ b0, st.blocks.get? i = some b0 := by
        rw [List.get?_eq_get hib]
        exact ⟨_, rfl⟩
      constructor
      · intro j h1 h2
        by_cases hj : j = i
        · subst hj
          rw [iho j (Or.inl (by omega))]
          rw [stepState_get?_eq st j _ f b0 hb0]
          rfl
        · refine ihw j (by omega) ?_
          simp only [List.length_cons] at h2
          omega
      · intro j hj
        have hj2 : j < i + 1 ∨ i + 1 + rest.length ≤ j := by
          simp only [List.length_cons] at hj
          rcases hj with h | h
          · exact Or.inl (by omega)
          · exact Or.inr (by omega)
        rcases hj2 with hj2 | hj2
        · have hji : j ≠ i := by
            rcases hj with h | h
            · omega
            · simp only [List.length_cons] at h; omega
          rw [iho j (Or.inl hj2)]
          exact stepState_get?_ne st i _ f j hji
        · rw [iho j (Or.inr hj2)]
          have hji : j ≠ i := by omega
          exact stepState_get?_ne st i _ f j hji
    | paused f row =>
      rw [runGo_cons_paused _ _ _ _ _ _ _ _ _ _ _ _ _ _ hskip hib hres] at hdone
      cases hdone
    | err m =>
      rw [runGo_cons_err _ _ _ _ _ _ _ _ _ _ _ _ _ hskip hib hres] at hdone
      cases hdone
    | hung =>
      rw [runGo_cons_hung _ _ _ _ _ _ _ _ _ _ _ _ hskip hib hres] at hdone
      cases hdone

/-- A block loop that raises decomposes into a completed prefix followed by
the single failing block. -/
theorem runGo_err_split (env : Env) (sbi srow : Nat) (k : Option Nat) :
    ∀ (l : List BlockDef) (i cnt : Nat) (curDf : Option Frame) (st : WorkflowState)
      (store : Option Frame) (fs : FS) (m : String),
      sbi ≤ i → i + l.length ≤ st.blocks.length →
      (runBlocksGo env sbi srow k l i cnt curDf st store fs).exit = .raisedErr m →
      ∃ n bd, l.get? n = some bd ∧
        (runBlocksGo env sbi srow k (l.take n) i cnt curDf st store fs).exit = .done ∧
        runBlocksGo env sbi srow k l i cnt curDf st store fs =
          runBlocksGo env sbi srow k [bd] (i + n)
            (runBlocksGo env sbi srow k (l.take n) i cnt curDf st store fs).cnt
            (runBlocksGo env sbi srow k (l.take n) i cnt curDf st store fs).curDf
            (runBlocksGo env sbi srow k (l.take n) i cnt curDf st store fs).st
            (runBlocksGo env sbi srow k (l.take n) i cnt curDf st store fs).store
            (runBlocksGo env sbi srow k (l.take n) i cnt curDf st store fs).fs := by
  intro l
  induction l with
  | nil =>
    intro i cnt curDf st store fs m _ _ herr
    cases herr
  | cons bd rest ih =>
    intro i cnt curDf st store fs m hsbi hlen herr
    have hskip : ¬ i < sbi := by omega
    have hib : i < st.blocks.length := by
      simp only [List.length_cons] at hlen
      omega
    cases hres : (runBlock env fs bd.type bd.config curDf k cnt
        (if i = sbi then srow else 0)).1.res with
    | ok f =>
      rw [runGo_cons_ok _ _ _ _ _ _ _ _ _ _ _ _ _ hskip hib hres] at herr ⊢
      have hlen2 : (i + 1) + rest.length ≤ (stepState st i
          (runBlock env fs bd.type bd.config curDf k cnt
            (if i = sbi then srow else 0)).1.prog f).blocks.length := by
        rw [stepState_length]
        simp only [List.length_cons] at hlen
        omega
      obtain ⟨n, bd2, hget, hpre, hsplit⟩ :=
        ih (i + 1) _ (some f) _ (some f) _ m (by omega) hlen2 herr
      refine ⟨n + 1, bd2, by simpa using hget, ?_, ?_⟩
      · rw [List.take_succ_cons,
          runGo_cons_ok _ _ _ _ _ _ _ _ _ _ _ _ _ hskip hib hres]
        exact hpre
      · rw [List.take_succ_cons,
          runGo_cons_ok _ _ _ _ _ _ _ _ _ _ _ _ _ hskip hib hres]
        have hidx : i + (n + 1) = i + 1 + n := by omega
        rw [hidx]
        exact hsplit
    | paused f row =>
      rw [runGo_cons_paused _ _ _ _ _ _ _ _ _ _ _ _ _ _ hskip hib hres] at herr
      cases herr
    | err m0 =>
      refine ⟨0, bd, rfl, rfl, ?_⟩
      exact (runGo_cons_err env sbi srow k bd rest i cnt curDf st store fs m0
          hskip hib hres).trans
        (runGo_cons_err env sbi srow k bd [] i cnt curDf st store fs m0
          hskip hib hres).symm
    | hung =>
      rw [runGo_cons_hung _ _ _ _ _ _ _ _ _ _ _ _ hskip hib hres] at herr
      cases herr

/-- The pending store only becomes `none` if it started as `none`: every write
stores a concrete frame. -/
theorem runGo_store_none (env : Env) (sbi srow : Nat) (k : Option Nat) :
    ∀ (l : List BlockDef) (i cnt : Nat) (curDf : Option Frame) (st : WorkflowState)
      (store : Option Frame) (fs : FS),
      (runBlocksGo env sbi srow k l i cnt curDf st store fs).store = none →
      store = none := by
  intro l
  induction l with
  | nil => intro i cnt curDf st store fs h; exact h
  | cons bd rest ih =>
    intro i cnt curDf st store fs h
    by_cases hskip : i < sbi
    · rw [runGo_cons_skip _ _ _ _ _ _ _ _ _ _ _ _ hskip] at h
      exact ih _ _ _ _ _ _ h
    · by_cases hib : i < st.blocks.length
      · cases hres : (runBlock env fs bd.type bd.config curDf k cnt
            (if i = sbi then srow else 0)).1.res with
        | ok f =>
          rw [runGo_cons_ok _ _ _ _ _ _ _ _ _ _ _ _ _ hskip hib hres] at h
          exact Option.noConfusion (ih _ _ _ _ _ _ h)
        | paused f row =>
          rw [runGo_cons_paused _ _ _ _ _ _ _ _ _ _ _ _ _ _ hskip hib hres] at h
          exact h
        | err m =>
          rw [runGo_cons_err _ _ _ _ _ _ _ _ _ _ _ _ _ hskip hib hres] at h
          exact h
        | hung =>
          rw [runGo_cons_hung _ _ _ _ _ _ _ _ _ _ _ _ hskip hib hres] at h
          exact h
      · rw [runGo_cons_oob _ _ _ _ _ _ _ _ _ _ _ _ hskip hib] at h
        exact h

/-- The paused/failed mid-block state leaves every other block record alone. -/
theorem pausedState_get?_ne (st : WorkflowState) (i : Nat) (prog : List Nat)
    (j : Nat) (hne : j ≠ i) :
    (applyProg (markRunning st i) i prog).blocks.get? j = st.blocks.get? j := by
  unfold applyProg
  cases hgl : prog.getLast? with
  | none =>
    simp only [markRunning]
    rw [updNth_get?_ne _ _ _ _ hne]
  | some p =>
    simp only [markRunning]
    rw [updNth_get?_ne _ _ _ _ hne, updNth_get?_ne _ _ _ _ hne]

theorem pausedState_index (st : WorkflowState) (i : Nat) (prog : List Nat) :
    (applyProg (markRunning st i) i prog).current_block_index = i := by
  unfold applyProg
  cases prog.getLast? <;> rfl

theorem pausedState_length (st : WorkflowState) (i : Nat) (prog : List Nat) :
    (applyProg (markRunning st i) i prog).blocks.length = st.blocks.length := by
  simp [applyProg_length, markRunning_length]

theorem failHandle_status (st : WorkflowState) (m : String) :
    (failHandle st m).status = .failed := by
  simp only [failHandle]
  split <;> rfl

theorem failHandle_error (st : WorkflowState) (m : String) :
    (failHandle st m).error = some m := by
  simp only [failHandle]
  split <;> rfl

theorem failHandle_index (st : WorkflowState) (m : String) :
    (failHandle st m).current_block_index = st.current_block_index := by
  simp only [failHandle]
  split <;> rfl

theorem failHandle_get?_ne (st : WorkflowState) (m : String) (j : Nat)
    (hne : j ≠ st.current_block_index) :
    (failHandle st m).blocks.get? j = st.blocks.get? j := by
  simp only [failHandle]
  split
  · exact updNth_get?_ne _ _ _ _ hne
  · rfl

theorem failHandle_get?_cur (st : WorkflowState) (m : String)
    (h : st.current_block_index < st.blocks.length) :
    (failHandle st m).blocks.get? st.current_block_index =
      (st.blocks.get? st.current_block_index).map
        (fun b => { b with status := BlockStatus.failed, error := some m }) := by
  simp only [failHandle]
  rw [if_pos h]
  exact updNth_get?_eq _ _ _

/-- The state `execute_workflow` works on after its entry mutations: status
RUNNING, pause flag cleared, `blocks_config` saved. -/
def entryState (st0 : WorkflowState) (blocks : List BlockDef) : WorkflowState :=
  { st0 with
    status := .running
    pause_requested := false
    blocks_config := some blocks }

/-- `execute_workflow` when the block loop raises: the state after the generic
handler is returned and upserted; the store keeps the loop's pending frame. -/
theorem executeWorkflow_raisedErr (env : Env) (w : World) (wid : String)
    (blocks : List BlockDef) (sbi srow : Nat) (k : Option Nat)
    (st0 : WorkflowState) (m : String)
    (hst : alookup w.engine.workflows wid = some st0)
    (herr : (runBlocksGo env sbi srow k blocks 0 0 (alookup w.engine.dataframes wid)
        (entryState st0 blocks)
        (alookup w.engine.dataframes wid) w.fs).exit = .raisedErr m) :
    executeWorkflow env w wid blocks sbi srow k =
      (⟨{ workflows := aupsert w.engine.workflows wid
            (failHandle (runBlocksGo env sbi srow k blocks 0 0
              (alookup w.engine.dataframes wid) (entryState st0 blocks)
              (alookup w.engine.dataframes wid) w.fs).st m)
          dataframes := match (runBlocksGo env sbi srow k blocks 0 0
              (alookup w.engine.dataframes wid) (entryState st0 blocks)
              (alookup w.engine.dataframes wid) w.fs).store with
            | some f => aupsert w.engine.dataframes wid f
            | none => w.engine.dataframes },
        (runBlocksGo env sbi srow k blocks 0 0
          (alookup w.engine.dataframes wid) (entryState st0 blocks)
          (alookup w.engine.dataframes wid) w.fs).fs⟩,
       .returned (failHandle (runBlocksGo env sbi srow k blocks 0 0
          (alookup w.engine.dataframes wid) (entryState st0 blocks)
          (alookup w.engine.dataframes wid) w.fs).st m)) := by
  simp only [entryState] at herr
  simp only [executeWorkflow, hst]
  rw [herr]
  simp only [entryState]

/-- C3: when a block raises any error other than the pause signal,
`execute_workflow` returns (and registers) a FAILED state with the error
message copied into both `WorkflowState.error` and the failing block's
`error` field, the failing block's status FAILED, every block of the
completed prefix still COMPLETED, and the stored frame equal to the pending
store of the completed prefix run, so the completed blocks' effects on the
stored frame are preserved. -/
theorem c3_failure_state (env : Env) (w : World) (wid : String)
    (blocks : List BlockDef) (srow : Nat) (k : Option Nat)
    (st0 : WorkflowState) (m : String)
    (hst : alookup w.engine.workflows wid = some st0)
    (hlen : blocks.length ≤ st0.blocks.length)
    (herr : (runBlocksGo env 0 srow k blocks 0 0 (alookup w.engine.dataframes wid)
        (entryState st0 blocks)
        (alookup w.engine.dataframes wid) w.fs).exit = .raisedErr m) :
    ∃ n bd stF, blocks.get? n = some bd ∧
      (executeWorkflow env w wid blocks 0 srow k).2 = .returned stF ∧
      alookup (executeWorkflow env w wid blocks 0 srow k).1.engine.workflows wid =
        some stF ∧
      stF.status = .failed ∧
      stF.error = some m ∧
      stF.current_block_index = n ∧
      (stF.blocks.get? n).map (fun b => (b.status, b.error)) =
        some (BlockStatus.failed, some m) ∧
      (∀ j, j < n →
        (stF.blocks.get? j).map (fun b => b.status) = some BlockStatus.completed) ∧
      (runBlocksGo env 0 srow k (blocks.take n) 0 0 (alookup w.engine.dataframes wid)
        (entryState st0 blocks) (alookup w.engine.dataframes wid) w.fs).exit = .done ∧
      alookup (executeWorkflow env w wid blocks 0 srow k).1.engine.dataframes wid =
        (runBlocksGo env 0 srow k (blocks.take n) 0 0 (alookup w.engine.dataframes wid)
          (entryState st0 blocks) (alookup w.engine.dataframes wid) w.fs).store := by
  have hlen1 : 0 + blocks.length ≤ (entryState st0 blocks).blocks.length := by
    simpa [entryState] using hlen
  obtain ⟨n, bd, hget, hpre, hsplit⟩ :=
    runGo_err_split env 0 srow k blocks 0 0
      (alookup w.engine.dataframes wid) (entryState st0 blocks)
      (alookup w.engine.dataframes wid) w.fs m (Nat.le_refl 0) hlen1 herr
  obtain ⟨hn, -⟩ := List.get?_eq_some.mp hget
  set P : LoopRes := runBlocksGo env 0 srow k (blocks.take n) 0 0
    (alookup w.engine.dataframes wid) (entryState st0 blocks)
    (alookup w.engine.dataframes wid) w.fs with hP
  have hplen : P.st.blocks.length = st0.blocks.length := by
    rw [hP]
    exact runGo_blocks_length env 0 srow k _ _ _ _ _ _ _
  have hskip2 : ¬ 0 + n < 0 := by omega
  have hib2 : 0 + n < P.st.blocks.length := by
    rw [hplen]
    omega
  cases hres2 : (runBlock env P.fs bd.type bd.config P.curDf k P.cnt
      (if 0 + n = 0 then srow else 0)).1.res with
  | ok f =>
    have hx := herr
    rw [hsplit, runGo_cons_ok env 0 srow k bd [] (0 + n) P.cnt P.curDf P.st P.store
      P.fs f hskip2 hib2 hres2] at hx
    cases hx
  | paused f row =>
    have hx := herr
    rw [hsplit, runGo_cons_paused env 0 srow k bd [] (0 + n) P.cnt P.curDf P.st P.store
      P.fs f row hskip2 hib2 hres2] at hx
    cases hx
  | hung =>
    have hx := herr
    rw [hsplit, runGo_cons_hung env 0 srow k bd [] (0 + n) P.cnt P.curDf P.st P.store
      P.fs hskip2 hib2 hres2] at hx
    cases hx
  | err m2 =>
    have hr : runBlocksGo env 0 srow k blocks 0 0 (alookup w.engine.dataframes wid)
        (entryState st0 blocks) (alookup w.engine.dataframes wid) w.fs =
        ⟨applyProg (markRunning P.st (0 + n)) (0 + n)
            (runBlock env P.fs bd.type bd.config P.curDf k P.cnt
              (if 0 + n = 0 then srow else 0)).1.prog,
          P.store,
          (runBlock env P.fs bd.type bd.config P.curDf k P.cnt
            (if 0 + n = 0 then srow else 0)).2,
          (runBlock env P.fs bd.type bd.config P.curDf k P.cnt
            (if 0 + n = 0 then srow else 0)).1.cnt,
          P.curDf, .raisedErr m2⟩ :=
      hsplit.trans (runGo_cons_err env 0 srow k bd [] (0 + n) P.cnt P.curDf P.st
        P.store P.fs m2 hskip2 hib2 hres2)
    have hm : m2 = m := by
      have h3 := herr
      rw [hr] at h3
      have h2 : LoopExit.raisedErr m2 = LoopExit.raisedErr m := h3
      injection h2
    rw [hm] at hres2 hr
    have hstq : (runBlocksGo env 0 srow k blocks 0 0 (alookup w.engine.dataframes wid)
        (entryState st0 blocks) (alookup w.engine.dataframes wid) w.fs).st =
        applyProg (markRunning P.st (0 + n)) (0 + n)
          (runBlock env P.fs bd.type bd.config P.curDf k P.cnt
            (if 0 + n = 0 then srow else 0)).1.prog := by
      rw [hr]
    have hstore : (runBlocksGo env 0 srow k blocks 0 0 (alookup w.engine.dataframes wid)
        (entryState st0 blocks) (alookup w.engine.dataframes wid) w.fs).store =
        P.store := by
      rw [hr]
    have hcur : (runBlocksGo env 0 srow k blocks 0 0 (alookup w.engine.dataframes wid)
        (entryState st0 blocks) (alookup w.engine.dataframes wid) w.fs).st.current_block_index
        = 0 + n := by
      rw [hstq, pausedState_index]
    have hblen : (runBlocksGo env 0 srow k blocks 0 0 (alookup w.engine.dataframes wid)
        (entryState st0 blocks) (alookup w.engine.dataframes wid) w.fs).st.blocks.length =
        st0.blocks.length := by
      rw [hstq, pausedState_length, hplen]
    have hx := executeWorkflow_raisedErr env w wid blocks 0 srow k st0 m hst herr
    refine ⟨n, bd, failHandle (runBlocksGo env 0 srow k blocks 0 0
        (alookup w.engine.dataframes wid) (entryState st0 blocks)
        (alookup w.engine.dataframes wid) w.fs).st m,
      hget, ?_, ?_, failHandle_status _ _, failHandle_error _ _, ?_, ?_, ?_, hpre, ?_⟩
    · rw [hx]
    · rw [hx]
      exact alookup_aupsert_self wid _ _
    · rw [failHandle_index, hcur, Nat.zero_add]
    · have hbound : (runBlocksGo env 0 srow k blocks 0 0
          (alookup w.engine.dataframes wid) (entryState st0 blocks)
          (alookup w.engine.dataframes wid) w.fs).st.current_block_index <
          (runBlocksGo env 0 srow k blocks 0 0
          (alookup w.engine.dataframes wid) (entryState st0 blocks)
          (alookup w.engine.dataframes wid) w.fs).st.blocks.length := by
        rw [hcur, hblen]
        omega
      have h7 := failHandle_get?_cur _ m hbound
      rw [hcur, Nat.zero_add] at h7
      rw [h7]
      obtain ⟨b1, hb1⟩ : ∃ b1, (runBlocksGo env 0 srow k blocks 0 0
          (alookup w.engine.dataframes wid) (entryState st0 blocks)
          (alookup w.engine.dataframes wid) w.fs).st.blocks.get? n = some b1 := by
        rw [List.get?_eq_get (by rw [hblen]; omega)]
        exact ⟨_, rfl⟩
      rw [hb1]
      rfl
    · intro j hj
      have hjne : j ≠ (runBlocksGo env 0 srow k blocks 0 0
          (alookup w.engine.dataframes wid) (entryState st0 blocks)
          (alookup w.engine.dataframes wid) w.fs).st.current_block_index := by
        rw [hcur]
        omega
      rw [failHandle_get?_ne _ _ _ hjne, hstq,
        pausedState_get?_ne _ _ _ _ (show j ≠ 0 + n by omega)]
      have htklen : 0 + (blocks.take n).length ≤ (entryState st0 blocks).blocks.length := by
        have h := Nat.min_le_right n blocks.length
        show 0 + (blocks.take n).length ≤ st0.blocks.length
        simp only [List.length_take]
        omega
      obtain ⟨hwin, -⟩ := runGo_done_window env 0 srow k (blocks.take n) 0 0
        (alookup w.engine.dataframes wid) (entryState st0 blocks)
        (alookup w.engine.dataframes wid) w.fs (Nat.le_refl 0) htklen (by rw [← hP]; exact hpre)
      have hwj := hwin j (Nat.zero_le j) (by
        simp only [List.length_take]
        have h := Nat.min_le_right n blocks.length
        omega)
      rw [← hP] at hwj
      exact hwj
    · rw [hx, hstore]
      cases hps : P.store with
      | some f =>
        exact alookup_aupsert_self wid f _
      | none =>
        have h0 : (runBlocksGo env 0 srow k (blocks.take n) 0 0
            (alookup w.engine.dataframes wid) (entryState st0 blocks)
            (alookup w.engine.dataframes wid) w.fs).store = none := by
          rw [← hP]
          exact hps
        exact runGo_store_none env 0 srow k _ _ _ _ _ _ _ h0

/-- A one-block workflow whose filter block fails (no input frame). -/
def blocksC3 : List BlockDef := [{ id := ("b"), type := BlockType.filter }]

/-- A world holding only that freshly created workflow. -/
def wC3 : World :=
  { engine := { workflows := [(("w"), initialState ("w") blocksC3)] } }

theorem c3_failure_state_witness :
    (alookup wC3.engine.workflows ("w") = some (initialState ("w") blocksC3)) ∧
    blocksC3.length ≤ (initialState ("w") blocksC3).blocks.length ∧
    (runBlocksGo envStub 0 0 none blocksC3 0 0 (alookup wC3.engine.dataframes ("w"))
      (entryState (initialState ("w") blocksC3) blocksC3)
      (alookup wC3.engine.dataframes ("w")) wC3.fs).exit =
      .raisedErr ("No DataFrame to filter") ∧
    (∃ n bd stF, blocksC3.get? n = some bd ∧
      (executeWorkflow envStub wC3 ("w") blocksC3 0 0 none).2 = .returned stF ∧
      alookup (executeWorkflow envStub wC3 ("w") blocksC3 0 0 none).1.engine.workflows
        ("w") = some stF ∧
      stF.status = .failed ∧
      stF.error = some ("No DataFrame to filter") ∧
      stF.current_block_index = n ∧
      (stF.blocks.get? n).map (fun b => (b.status, b.error)) =
        some (BlockStatus.failed, some ("No DataFrame to filter")) ∧
      (∀ j, j < n →
        (stF.blocks.get? j).map (fun b => b.status) = some BlockStatus.completed) ∧
      (runBlocksGo envStub 0 0 none (blocksC3.take n) 0 0
        (alookup wC3.engine.dataframes ("w"))
        (entryState (initialState ("w") blocksC3) blocksC3)
        (alookup wC3.engine.dataframes ("w")) wC3.fs).exit = .done ∧
      alookup (executeWorkflow envStub wC3 ("w") blocksC3 0 0 none).1.engine.dataframes
        ("w") =
        (runBlocksGo envStub 0 0 none (blocksC3.take n) 0 0
          (alookup wC3.engine.dataframes ("w"))
          (entryState (initialState ("w") blocksC3) blocksC3)
          (alookup wC3.engine.dataframes ("w")) wC3.fs).store) :=
  ⟨rfl, by decide,
    rfl,
    c3_failure_state envStub wC3 ("w") blocksC3 0 none
      (initialState ("w") blocksC3) ("No DataFrame to filter") rfl (by decide) rfl⟩

/-! ## Pause/resume analysis: row and frame primitives -/

theorem alookup_setRowCell_same (r : Row) (c : String) (v : Cell) :
    alookup (setRowCell r c v) c = some v := by
  induction r with
  | nil => simp [setRowCell, alookup]
  | cons p rest ih =>
    obtain ⟨c0, v0⟩ := p
    by_cases h : c0 = c
    · simp [setRowCell, h, alookup]
    · simp only [setRowCell, if_neg h, alookup, if_neg h]
      exact ih

theorem alookup_setRowCell_ne (r : Row) (c c2 : String) (v : Cell) (h : c2 ≠ c) :
    alookup (setRowCell r c v) c2 = alookup r c2 := by
  induction r with
  | nil => simp [setRowCell, alookup, if_neg (fun hh => h (Eq.symm hh))]
  | cons p rest ih =>
    obtain ⟨c0, v0⟩ := p
    by_cases h0 : c0 = c
    · subst h0
      simp only [setRowCell, if_pos rfl, alookup]
      rw [if_neg (fun hh => h hh.symm), if_neg (fun hh => h hh.symm)]
    · simp only [setRowCell, if_neg h0, alookup]
      by_cases h2 : c0 = c2
      · rw [if_pos h2, if_pos h2]
      · rw [if_neg h2, if_neg h2]
        exact ih

theorem setRowCell_id (r : Row) (c : String) (v : Cell) (h : alookup r c = some v) :
    setRowCell r c v = r := by
  induction r with
  | nil => simp [alookup] at h
  | cons p rest ih =>
    obtain ⟨c0, v0⟩ := p
    by_cases h0 : c0 = c
    · subst h0
      simp only [alookup, if_pos rfl] at h
      cases h
      simp [setRowCell]
    · simp only [alookup, if_neg h0] at h
      simp only [setRowCell, if_neg h0]
      rw [ih h]

theorem cellOf_eq_some (r : Row) (c : String) (x : Val) (h : cellOf r c = some x) :
    alookup r c = some (some x) := by
  unfold cellOf at h
  cases ha : alookup r c with
  | none => rw [ha] at h; cases h
  | some cel =>
    rw [ha] at h
    simp only [Option.getD_some] at h
    rw [h]

theorem map_id_of_eq {α : Type} (g : α → α) :
    ∀ (l : List α), (∀ x ∈ l, g x = x) → l.map g = l := by
  intro l
  induction l with
  | nil => intro _; rfl
  | cons a rest ih =>
    intro h
    simp only [List.map_cons]
    rw [h a (List.mem_cons_self a rest), ih (fun x hx => h x (List.mem_cons_of_mem a hx))]

theorem setAt_rows (f : Frame) (idx : Nat) (c : String) (v : Cell) :
    (setAt f idx c v).rows =
      f.rows.map fun p => if p.1 = idx then (p.1, setRowCell p.2 c v) else p := rfl

theorem setAt_cols (f : Frame) (idx : Nat) (c : String) (v : Cell) :
    (setAt f idx c v).cols = f.cols := rfl

theorem setAt_id (f : Frame) (idx : Nat) (c : String) (v : Cell)
    (h : ∀ q ∈ f.rows, q.1 = idx → alookup q.2 c = some v) : setAt f idx c v = f := by
  unfold setAt
  have hmap : (f.rows.map fun p => if p.1 = idx then (p.1, setRowCell p.2 c v) else p) =
      f.rows := by
    apply map_id_of_eq
    intro p hp
    by_cases hpi : p.1 = idx
    · rw [if_pos hpi, setRowCell_id p.2 c v (h p hp hpi)]
    · rw [if_neg hpi]
  rw [hmap]

theorem ensureCol_id (f : Frame) (c : String) (h : c ∈ f.cols) : ensureCol f c = f := by
  simp [ensureCol, h]

theorem mem_ensureCol_cols (f : Frame) (c : String) : c ∈ (ensureCol f c).cols := by
  unfold ensureCol
  split
  · assumption
  · simp

theorem ensureCol_cols_mono (f : Frame) (c c2 : String) (h : c2 ∈ f.cols) :
    c2 ∈ (ensureCol f c).cols := by
  unfold ensureCol
  split
  · exact h
  · simp [h]

theorem applyFindResult_shape (outCol : String) (g : Frame) (idx : Nat)
    (res : EnrichmentResult) :
    applyFindResult outCol g idx res = g ∨
      ∃ v, applyFindResult outCol g idx res = setAt g idx outCol v := by
  unfold applyFindResult
  cases res.data with
  | none => exact Or.inl rfl
  | some d =>
    simp only
    split
    · split
      · exact Or.inr ⟨_, rfl⟩
      · exact Or.inl rfl
    · exact Or.inl rfl

theorem applyFindResult_cols (outCol : String) (g : Frame) (idx : Nat)
    (res : EnrichmentResult) : (applyFindResult outCol g idx res).cols = g.cols := by
  rcases applyFindResult_shape outCol g idx res with h | ⟨v, h⟩
  · rw [h]
  · rw [h, setAt_cols]

/-- The per-key fold of `applyEnrichResult` acts pointwise on the rows,
touching only the written label. -/
theorem foldl_setAt_rows (idx : Nat) :
    ∀ (d : List (String × Cell)) (g : Frame),
      ∃ G : Nat × Row → Nat × Row,
        (d.foldl (fun acc kv =>
          if kv.1 = ("success") ∨ kv.1 = ("error") then acc
          else setAt (ensureCol acc (("enriched_") ++ kv.1)) idx
            (("enriched_") ++ kv.1) kv.2) g).rows = g.rows.map G ∧
        (∀ p, (G p).1 = p.1) ∧ (∀ p, p.1 ≠ idx → G p = p) := by
  intro d
  induction d with
  | nil =>
    intro g
    exact ⟨id, (List.map_id _).symm, fun p => rfl, fun p _ => rfl⟩
  | cons kv rest ih =>
    intro g
    simp only [List.foldl_cons]
    by_cases hkv : kv.1 = ("success") ∨ kv.1 = ("error")
    · rw [if_pos hkv]
      exact ih g
    · rw [if_neg hkv]
      obtain ⟨G, hG, h1, h2⟩ :=
        ih (setAt (ensureCol g (("enriched_") ++ kv.1)) idx (("enriched_") ++ kv.1) kv.2)
      refine ⟨fun p => G (if p.1 = idx
          then (p.1, setRowCell p.2 (("enriched_") ++ kv.1) kv.2) else p), ?_, ?_, ?_⟩
      · rw [hG]
        have hrows : (setAt (ensureCol g (("enriched_") ++ kv.1)) idx
            (("enriched_") ++ kv.1) kv.2).rows =
            g.rows.map (fun p => if p.1 = idx
              then (p.1, setRowCell p.2 (("enriched_") ++ kv.1) kv.2) else p) := by
          rw [setAt_rows, ensureCol_rows]
        rw [hrows, List.map_map]
        rfl
      · intro p
        dsimp only
        by_cases hp : p.1 = idx
        · rw [if_pos hp, h1]
        · rw [if_neg hp]
          exact h1 p
      · intro p hp
        dsimp only
        rw [if_neg hp]
        exact h2 p hp

theorem applyEnrichResult_rowsG (g : Frame) (idx : Nat) (res : EnrichmentResult) :
    ∃ G : Nat × Row → Nat × Row,
      (applyEnrichResult g idx res).rows = g.rows.map G ∧
      (∀ p, (G p).1 = p.1) ∧ (∀ p, p.1 ≠ idx → G p = p) := by
  unfold applyEnrichResult
  cases res.data with
  | none => exact ⟨id, (List.map_id _).symm, fun p => rfl, fun p _ => rfl⟩
  | some d =>
    simp only
    split
    · exact foldl_setAt_rows idx d g
    · exact ⟨id, (List.map_id _).symm, fun p => rfl, fun p _ => rfl⟩

theorem applyFindResult_rowsG (outCol : String) (g : Frame) (idx : Nat)
    (res : EnrichmentResult) :
    ∃ G : Nat × Row → Nat × Row,
      (applyFindResult outCol g idx res).rows = g.rows.map G ∧
      (∀ p, (G p).1 = p.1) ∧ (∀ p, p.1 ≠ idx → G p = p) ∧
      (∀ p c2, c2 ≠ outCol → cellOf (G p).2 c2 = cellOf p.2 c2) := by
  rcases applyFindResult_shape outCol g idx res with h | ⟨v, h⟩
  · exact ⟨id, by rw [h]; exact (List.map_id _).symm, fun p => rfl, fun p _ => rfl,
      fun p c2 _ => rfl⟩
  · refine ⟨fun p => if p.1 = idx then (p.1, setRowCell p.2 outCol v) else p,
      by rw [h, setAt_rows], ?_, ?_, ?_⟩
    · intro p
      dsimp only
      by_cases hp : p.1 = idx
      · rw [if_pos hp]
      · rw [if_neg hp]
    · intro p hp
      dsimp only
      rw [if_neg hp]
    · intro p c2 hc2
      dsimp only
      by_cases hp : p.1 = idx
      · rw [if_pos hp]
        show cellOf (setRowCell p.2 outCol v) c2 = cellOf p.2 c2
        unfold cellOf
        rw [alookup_setRowCell_ne p.2 outCol c2 v hc2]
      · rw [if_neg hp]

/-- Batched application acts pointwise on the rows, touching only the
candidate labels. -/
theorem applyRowsWith_rowsG (call : Nat → Row → List (String × String) × EnrichmentResult)
    (applyRes : Frame → Nat → EnrichmentResult → Frame)
    (hstep : ∀ g idx res, ∃ G : Nat × Row → Nat × Row,
      (applyRes g idx res).rows = g.rows.map G ∧ (∀ p, (G p).1 = p.1) ∧
      (∀ p, p.1 ≠ idx → G p = p)) :
    ∀ (l : List (Nat × Row)) (f : Frame),
      ∃ G : Nat × Row → Nat × Row,
        (applyRowsWith call applyRes f l).rows = f.rows.map G ∧
        (∀ p, (G p).1 = p.1) ∧ (∀ p, p.1 ∉ l.map Prod.fst → G p = p) := by
  intro l
  induction l with
  | nil =>
    intro f
    exact ⟨id, (List.map_id _).symm, fun p => rfl, fun p _ => rfl⟩
  | cons q rest ih =>
    intro f
    obtain ⟨G1, hG1, h11, h12⟩ := hstep f q.1 (call q.1 q.2).2
    obtain ⟨G2, hG2, h21, h22⟩ := ih (applyRes f q.1 (call q.1 q.2).2)
    refine ⟨fun p => G2 (G1 p), ?_, ?_, ?_⟩
    · show (applyRowsWith call applyRes (applyRes f q.1 (call q.1 q.2).2) rest).rows = _
      rw [hG2, hG1, List.map_map]
      rfl
    · intro p
      dsimp only
      rw [h21, h11]
    · intro p hp
      dsimp only
      simp only [List.map_cons, List.mem_cons, not_or] at hp
      rw [h12 p hp.1, h22 p hp.2]

/-- Batched find-email application: pointwise, label-local, and only the
output column is ever written. -/
theorem applyRowsWith_find_rowsG (call : Nat → Row → List (String × String) × EnrichmentResult)
    (outCol : String) :
    ∀ (l : List (Nat × Row)) (f : Frame),
      ∃ G : Nat × Row → Nat × Row,
        (applyRowsWith call (applyFindResult outCol) f l).rows = f.rows.map G ∧
        (∀ p, (G p).1 = p.1) ∧ (∀ p, p.1 ∉ l.map Prod.fst → G p = p) ∧
        (∀ p c2, c2 ≠ outCol → cellOf (G p).2 c2 = cellOf p.2 c2) := by
  intro l
  induction l with
  | nil =>
    intro f
    exact ⟨id, (List.map_id _).symm, fun p => rfl, fun p _ => rfl, fun p c2 _ => rfl⟩
  | cons q rest ih =>
    intro f
    obtain ⟨G1, hG1, h11, h12, h13⟩ := applyFindResult_rowsG outCol f q.1 (call q.1 q.2).2
    obtain ⟨G2, hG2, h21, h22, h23⟩ := ih (applyFindResult outCol f q.1 (call q.1 q.2).2)
    refine ⟨fun p => G2 (G1 p), ?_, ?_, ?_, ?_⟩
    · show (applyRowsWith call (applyFindResult outCol)
        (applyFindResult outCol f q.1 (call q.1 q.2).2) rest).rows = _
      rw [hG2, hG1, List.map_map]
      rfl
    · intro p
      dsimp only
      rw [h21, h11]
    · intro p hp
      dsimp only
      simp only [List.map_cons, List.mem_cons, not_or] at hp
      rw [h12 p hp.1, h22 p hp.2]
    · intro p c2 hc2
      dsimp only
      rw [h23 _ _ hc2, h13 _ _ hc2]

theorem applyRowsWith_find_cols (call : Nat → Row → List (String × String) × EnrichmentResult)
    (outCol : String) :
    ∀ (l : List (Nat × Row)) (f : Frame),
      (applyRowsWith call (applyFindResult outCol) f l).cols = f.cols := by
  intro l
  induction l with
  | nil => intro f; rfl
  | cons q rest ih =>
    intro f
    show (applyRowsWith call (applyFindResult outCol)
      (applyFindResult outCol f q.1 (call q.1 q.2).2) rest).cols = _
    rw [ih, applyFindResult_cols]

/-- The find-email preparation loop acts pointwise, touching only labels of
rows passing the skip test, and only in the output column. -/
theorem femPrepGo_rowsG (outCol : String) (skip : Bool) :
    ∀ (rows : List (Nat × Row)) (f : Frame),
      ∃ G : Nat × Row → Nat × Row,
        (femPrepGo outCol skip rows f).1.rows = f.rows.map G ∧
        (∀ p, (G p).1 = p.1) ∧
        (∀ p, p.1 ∉ (rows.filter
          (fun q => skip && truthyCell (cellOf q.2 ("email")))).map Prod.fst → G p = p) ∧
        (∀ p c2, c2 ≠ outCol → cellOf (G p).2 c2 = cellOf p.2 c2) := by
  intro rows
  induction rows with
  | nil =>
    intro f
    exact ⟨id, (List.map_id _).symm, fun p => rfl, fun p _ => rfl, fun p c2 _ => rfl⟩
  | cons q rest ih =>
    intro f
    obtain ⟨i, r⟩ := q
    by_cases hq : skip ∧ truthyCell (cellOf r ("email"))
    · have hq2 : (skip && truthyCell (cellOf r ("email"))) = true := by
        simp [hq.1, hq.2]
      simp only [femPrepGo, if_pos hq]
      obtain ⟨G2, hG2, h21, h22, h23⟩ := ih (setAt f i outCol (cellOf r ("email")))
      refine ⟨fun p => G2 (if p.1 = i
          then (p.1, setRowCell p.2 outCol (cellOf r ("email"))) else p), ?_, ?_, ?_, ?_⟩
      · rw [hG2, setAt_rows, List.map_map]
        rfl
      · intro p
        dsimp only
        by_cases hp : p.1 = i
        · rw [if_pos hp, h21]
        · rw [if_neg hp]
          exact h21 p
      · intro p hp
        dsimp only
        rw [List.filter_cons, if_pos hq2] at hp
        simp only [List.map_cons, List.mem_cons, not_or] at hp
        rw [if_neg hp.1, h22 p hp.2]
      · intro p c2 hc2
        dsimp only
        rw [h23 _ _ hc2]
        by_cases hp : p.1 = i
        · rw [if_pos hp]
          show cellOf (setRowCell p.2 outCol (cellOf r ("email"))) c2 = cellOf p.2 c2
          unfold cellOf
          rw [alookup_setRowCell_ne p.2 outCol c2 _ hc2]
        · rw [if_neg hp]
    · have hq2 : (skip && truthyCell (cellOf r ("email"))) = false := by
        cases hs : skip with
        | false => rfl
        | true =>
          cases ht : truthyCell (cellOf r ("email")) with
          | false => rfl
          | true => exact absurd ⟨hs, ht⟩ hq
      simp only [femPrepGo, if_neg hq]
      obtain ⟨G2, hG2, h21, h22, h23⟩ := ih f
      refine ⟨G2, hG2, h21, ?_, h23⟩
      intro p hp
      rw [List.filter_cons, if_neg (by simp [hq2])] at hp
      exact h22 p hp

theorem femPrepGo_cols (outCol : String) (skip : Bool) :
    ∀ (rows : List (Nat × Row)) (f : Frame),
      (femPrepGo outCol skip rows f).1.cols = f.cols := by
  intro rows
  induction rows with
  | nil => intro f; rfl
  | cons q rest ih =>
    intro f
    obtain ⟨i, r⟩ := q
    by_cases hq : skip ∧ truthyCell (cellOf r ("email"))
    · simp only [femPrepGo, if_pos hq]
      rw [ih, setAt_cols]
    · simp only [femPrepGo, if_neg hq]
      exact ih f

/-! ## The batched loop is deterministic without a pause threshold -/

/-- Without a pause threshold and with a positive batch size and concurrency,
the batched loop completes and applies exactly the candidate rows from the
entry cursor to the end. -/
theorem apiLoop_none_ok (call : Nat → Row → List (String × String) × EnrichmentResult)
    (applyRes : Frame → Nat → EnrichmentResult → Frame)
    (rows : List (Nat × Row)) (total bs mc : Nat) (hbs : 1 ≤ bs) (hmc : 1 ≤ mc) :
    ∀ (fuel : Nat) (f : Frame) (cur cnt : Nat), (total - cur) + 1 ≤ fuel →
      (apiLoop call applyRes rows total bs mc none fuel f cur cnt).res =
        .ok (applyRowsWith call applyRes f ((rows.drop cur).take (total - cur))) := by
  intro fuel
  induction fuel with
  | zero => intro f cur cnt h; omega
  | succ n ih =>
    intro f cur cnt h
    by_cases hcur : cur < total
    · have hchk : ¬ checkHit none cnt = true := by simp [checkHit]
      have hmcb : ¬ (mc = 0 ∧ (rows.drop cur).take (min (cur + bs) total - cur) ≠ []) :=
        fun hc => by omega
      simp only [apiLoop, if_pos hcur, if_neg hchk, if_neg hmcb]
      set bend := min (cur + bs) total with hbend
      set batch := (rows.drop cur).take (bend - cur) with hbatch
      set f2 := (batch.map fun p => (p.1, call p.1 p.2)).foldl
        (fun acc pr => applyRes acc pr.1 pr.2.2) f with hf2
      have hcb : cur < bend := by
        rw [hbend]
        rcases le_total (cur + bs) total with hc | hc
        · rw [Nat.min_eq_left hc]; omega
        · rw [Nat.min_eq_right hc]; omega
      have hbt : bend ≤ total := by
        rw [hbend]
        exact Nat.min_le_right _ _
      have hf2e : f2 = applyRowsWith call applyRes f batch := by
        rw [hf2, applyRowsWith, List.foldl_map]
      have hrest := ih f2 bend (cnt + 1) (by omega)
      rw [hrest]
      rw [show (rows.drop cur).take (total - cur) =
        batch ++ (rows.drop bend).take (total - bend) from by
          rw [hbatch]
          exact slice_split rows cur bend total (le_of_lt hcb) hbt]
      rw [applyRowsWith_append, ← hf2e]
    · simp only [apiLoop, if_neg hcur]
      rw [show total - cur = 0 from by omega]
      rfl

/-- Whenever the batched loop completes, the result frame is the entry frame
with exactly the candidate rows from the entry cursor applied, for any pause
threshold. -/
theorem apiLoop_ok_frame (call : Nat → Row → List (String × String) × EnrichmentResult)
    (applyRes : Frame → Nat → EnrichmentResult → Frame)
    (rows : List (Nat × Row)) (total bs mc : Nat) (k : Option Nat) :
    ∀ (fuel : Nat) (f : Frame) (cur cnt : Nat) (F : Frame),
      (apiLoop call applyRes rows total bs mc k fuel f cur cnt).res = .ok F →
      F = applyRowsWith call applyRes f ((rows.drop cur).take (total - cur)) := by
  intro fuel
  induction fuel with
  | zero => intro f cur cnt F h; simp [apiLoop] at h
  | succ n ih =>
    intro f cur cnt F h
    by_cases hcur : cur < total
    · by_cases hchk : checkHit k cnt
      · simp only [apiLoop, if_pos hcur, if_pos hchk] at h
        cases h
      · by_cases hmcb : mc = 0 ∧ (rows.drop cur).take (min (cur + bs) total - cur) ≠ []
        · simp only [apiLoop, if_pos hcur, if_neg hchk, if_pos hmcb] at h
          cases h
        · simp only [apiLoop, if_pos hcur, if_neg hchk, if_neg hmcb] at h
          set bend := min (cur + bs) total with hbend
          set batch := (rows.drop cur).take (bend - cur) with hbatch
          set f2 := (batch.map fun p => (p.1, call p.1 p.2)).foldl
            (fun acc pr => applyRes acc pr.1 pr.2.2) f with hf2
          have hcb : cur ≤ bend := by
            rw [hbend]
            exact le_min (by omega) (by omega)
          have hbt : bend ≤ total := by
            rw [hbend]
            exact Nat.min_le_right _ _
          have hf2e : f2 = applyRowsWith call applyRes f batch := by
            rw [hf2, applyRowsWith, List.foldl_map]
          rw [ih f2 bend (cnt + 1) F h]
          rw [show (rows.drop cur).take (total - cur) =
            batch ++ (rows.drop bend).take (total - bend) from by
              rw [hbatch]
              exact slice_split rows cur bend total hcb hbt]
          rw [applyRowsWith_append, ← hf2e]
    · simp only [apiLoop, if_neg hcur] at h
      have hF : f = F := by cases h; rfl
      rw [← hF, show total - cur = 0 from by omega]
      rfl

/-- Without a pause threshold the loop's result, progress trace and calls do
not depend on the check counter. -/
theorem apiLoop_none_cnt (call : Nat → Row → List (String × String) × EnrichmentResult)
    (applyRes : Frame → Nat → EnrichmentResult → Frame)
    (rows : List (Nat × Row)) (total bs mc : Nat) :
    ∀ (fuel : Nat) (f : Frame) (cur cnt cnt' : Nat),
      (apiLoop call applyRes rows total bs mc none fuel f cur cnt).res =
        (apiLoop call applyRes rows total bs mc none fuel f cur cnt').res ∧
      (apiLoop call applyRes rows total bs mc none fuel f cur cnt).prog =
        (apiLoop call applyRes rows total bs mc none fuel f cur cnt').prog := by
  intro fuel
  induction fuel with
  | zero => intro f cur cnt cnt'; exact ⟨rfl, rfl⟩
  | succ n ih =>
    intro f cur cnt cnt'
    by_cases hcur : cur < total
    · have hchk : ∀ m : Nat, ¬ checkHit none m = true := by simp [checkHit]
      by_cases hmcb : mc = 0 ∧ (rows.drop cur).take (min (cur + bs) total - cur) ≠ []
      · simp only [apiLoop, if_pos hcur, if_neg (hchk cnt), if_neg (hchk cnt'),
          if_pos hmcb]
        exact ⟨trivial, trivial⟩
      · simp only [apiLoop, if_pos hcur, if_neg (hchk cnt), if_neg (hchk cnt'),
          if_neg hmcb]
        obtain ⟨h1, h2⟩ := ih ((((rows.drop cur).take (min (cur + bs) total - cur)).map
            fun p => (p.1, call p.1 p.2)).foldl (fun acc pr => applyRes acc pr.1 pr.2.2) f)
          (min (cur + bs) total) (cnt + 1) (cnt' + 1)
        exact ⟨h1, by rw [h2]⟩
    · simp only [apiLoop, if_neg hcur]
      exact ⟨trivial, trivial⟩

/-! ## Find-email preparation: candidate structure -/

/-- The candidate predicate of the preparation pass. -/
def femKeep (skip : Bool) (p : Nat × Row) : Bool :=
  !(skip && truthyCell (cellOf p.2 ("email")))

/-- The candidate list the preparation pass returns. -/
def femCand (skip : Bool) (rows : List (Nat × Row)) : List (Nat × Row) :=
  rows.filter (femKeep skip)

theorem femPrepGo_snd (outCol : String) (skip : Bool) :
    ∀ (rows : List (Nat × Row)) (f : Frame),
      (femPrepGo outCol skip rows f).2 = femCand skip rows := by
  intro rows
  induction rows with
  | nil => intro f; rfl
  | cons q rest ih =>
    intro f
    obtain ⟨i, r⟩ := q
    by_cases hq : skip ∧ truthyCell (cellOf r ("email"))
    · have hk : femKeep skip (i, r) = false := by
        simp [femKeep, hq.1, hq.2]
      simp only [femPrepGo, if_pos hq, femCand, List.filter_cons, hk]
      simp only [femCand] at ih
      exact ih _
    · have hk : femKeep skip (i, r) = true := by
        cases hs : skip with
        | false => rfl
        | true =>
          cases ht : truthyCell (cellOf r ("email")) with
          | false => simp [femKeep, hs, ht]
          | true => exact absurd ⟨hs, ht⟩ hq
      simp only [femPrepGo, if_neg hq, femCand, List.filter_cons, hk]
      simp only [femCand] at ih
      rw [ih f]
      simp

theorem femPrepGo_noskip (outCol : String) :
    ∀ (rows : List (Nat × Row)) (f : Frame),
      femPrepGo outCol false rows f = (f, rows) := by
  intro rows
  induction rows with
  | nil => intro f; rfl
  | cons q rest ih =>
    intro f
    obtain ⟨i, r⟩ := q
    have hq : ¬ ((false : Bool) = true ∧ truthyCell (cellOf r ("email")) = true) := by
      simp
    simp only [femPrepGo, if_neg hq, ih f]

/-- The preparation pass over a pointwise image of the original rows: when
every skip write is the identity on the frame, the pass returns the frame
unchanged and the image of the original candidate list. -/
theorem femPrepGo_map_id (outCol : String) (skip : Bool) (g : Nat × Row → Nat × Row) :
    ∀ (rows : List (Nat × Row)) (f : Frame),
      (∀ p ∈ rows, truthyCell (cellOf (g p).2 ("email")) =
        truthyCell (cellOf p.2 ("email"))) →
      (∀ p ∈ rows, skip = true → truthyCell (cellOf p.2 ("email")) = true →
        setAt f (g p).1 outCol (cellOf (g p).2 ("email")) = f) →
      femPrepGo outCol skip (rows.map g) f = (f, (femCand skip rows).map g) := by
  intro rows
  induction rows with
  | nil => intro f _ _; rfl
  | cons q rest ih =>
    intro f hemail hset
    simp only [List.map_cons]
    by_cases hq : skip = true ∧ truthyCell (cellOf q.2 ("email")) = true
    · have hq2 : skip = true ∧ truthyCell (cellOf (g q).2 ("email")) = true :=
        ⟨hq.1, by rw [hemail q (List.mem_cons_self q rest)]; exact hq.2⟩
      have hk : femKeep skip q = false := by
        simp [femKeep, hq.1, hq.2]
      rw [show femPrepGo outCol skip (g q :: rest.map g) f =
        femPrepGo outCol skip (rest.map g)
          (setAt f (g q).1 outCol (cellOf (g q).2 ("email"))) from by
          simp only [femPrepGo, if_pos hq2]]
      rw [hset q (List.mem_cons_self q rest) hq.1 hq.2]
      rw [ih f (fun p hp => hemail p (List.mem_cons_of_mem q hp))
        (fun p hp => hset p (List.mem_cons_of_mem q hp))]
      simp only [femCand, List.filter_cons, hk]
      rfl
    · have hq2 : ¬ (skip = true ∧ truthyCell (cellOf (g q).2 ("email")) = true) := by
        intro hc
        exact hq ⟨hc.1, by rw [← hemail q (List.mem_cons_self q rest)]; exact hc.2⟩
      have hk : femKeep skip q = true := by
        cases hs : skip with
        | false => rfl
        | true =>
          cases ht : truthyCell (cellOf q.2 ("email")) with
          | false => simp [femKeep, hs, ht]
          | true => exact absurd ⟨hs, ht⟩ hq
      rw [show femPrepGo outCol skip (g q :: rest.map g) f =
        ((femPrepGo outCol skip (rest.map g) f).1,
          g q :: (femPrepGo outCol skip (rest.map g) f).2) from by
          simp only [femPrepGo, if_neg hq2]]
      rw [ih f (fun p hp => hemail p (List.mem_cons_of_mem q hp))
        (fun p hp => hset p (List.mem_cons_of_mem q hp))]
      simp only [femCand, List.filter_cons, hk]
      rfl

theorem femCand_labels_sublist (skip : Bool) (rows : List (Nat × Row)) :
    ((femCand skip rows).map Prod.fst).Sublist (rows.map Prod.fst) :=
  (List.filter_sublist rows).map Prod.fst

theorem femCand_labels_nodup (skip : Bool) (rows : List (Nat × Row))
    (hnd : (rows.map Prod.fst).Nodup) : ((femCand skip rows).map Prod.fst).Nodup :=
  (femCand_labels_sublist skip rows).nodup hnd

/-- An entry of the tail of a label-nodup list never carries a label of the
head segment. -/
theorem drop_label_not_in_take {l : List (Nat × Row)} (hnd : (l.map Prod.fst).Nodup)
    (n : Nat) (p : Nat × Row) (hp : p ∈ l.drop n) :
    p.1 ∉ (l.take n).map Prod.fst := by
  intro hmem
  have hsplit : l.map Prod.fst = (l.take n).map Prod.fst ++ (l.drop n).map Prod.fst := by
    rw [← List.map_append, List.take_append_drop]
  rw [hsplit] at hnd
  have hdisj := (List.nodup_append.mp hnd).2.2
  exact hdisj hmem (List.mem_map_of_mem Prod.fst hp)

/-- A candidate row never carries the label of a skipped row. -/
theorem cand_label_not_skip (skip : Bool) (rows : List (Nat × Row))
    (hnd : (rows.map Prod.fst).Nodup) (p : Nat × Row) (hp : p ∈ femCand skip rows) :
    p.1 ∉ (rows.filter
      (fun q => skip && truthyCell (cellOf q.2 ("email")))).map Prod.fst := by
  intro hmem
  obtain ⟨q, hq, hq1⟩ := List.mem_map.mp hmem
  have hqrows : q ∈ rows := List.mem_of_mem_filter hq
  have hprows : p ∈ rows := List.mem_of_mem_filter hp
  have hqp : q.2 = p.2 := by
    have h1 : (p.1, q.2) ∈ rows := by
      have he : q = (p.1, q.2) := by rw [← hq1]
      rw [← he]
      exact hqrows
    have h2 : (p.1, p.2) ∈ rows := hprows
    exact nodup_keys_eq hnd h1 h2
  have hskipq : (skip && truthyCell (cellOf q.2 ("email"))) = true :=
    (List.mem_filter.mp hq).2
  have hkeepp : femKeep skip p = true := (List.mem_filter.mp hp).2
  rw [hqp] at hskipq
  rw [femKeep, hskipq] at hkeepp
  cases hkeepp

/-- With unique labels, the cell read at a label is the cell of the member
row carrying it. -/
theorem getCell_eq_of_mem (f : Frame) (hnd : nodupIdx f) (i : Nat) (r : Row)
    (hmem : (i, r) ∈ f.rows) (c : String) : getCell f i c = cellOf r c := by
  unfold getCell
  unfold nodupIdx at hnd
  revert hnd hmem
  generalize f.rows = rows
  intro hnd hmem
  induction rows with
  | nil => cases hmem
  | cons q rest ih =>
    obtain ⟨i0, r0⟩ := q
    simp only [List.map_cons, List.nodup_cons] at hnd
    rcases List.mem_cons.mp hmem with he | ht
    · cases he
      simp [getCellRows]
    · simp only [getCellRows]
      by_cases hi : i0 = i
      · exfalso
        apply hnd.1
        rw [hi]
        simpa using List.mem_map_of_mem Prod.fst ht
      · rw [if_neg hi]
        exact ih hnd.2 ht

/-! ## Block-level resume equivalence -/

/-- A paused enrich-lead block re-entered on its partial frame at the saved
row completes, and produces the same frame as a fresh no-pause run on the
original input. -/
theorem enrichLead_resume (env : Env) (cfg : Config) (dfv P : Frame) (k : Option Nat)
    (cnt ρ : Nat) (hnd : nodupIdx dfv)
    (hbs : 1 ≤ enrichBS cfg) (hmc : 1 ≤ enrichMC cfg)
    (hrun : (enrichLeadExec env cfg (some dfv) k cnt 0).res = .paused P ρ) :
    ∃ F, (∀ cnt2, (enrichLeadExec env cfg (some P) none cnt2 ρ).res = .ok F) ∧
      (∀ cnt3, (enrichLeadExec env cfg (some dfv) none cnt3 0).res = .ok F) := by
  simp only [enrichLeadExec] at hrun
  by_cases hz : dfv.rows.length = 0
  · rw [if_pos hz] at hrun
    cases hrun
  · rw [if_neg hz] at hrun
    obtain ⟨j, hjr, hle, hlt, hPP, -⟩ := apiLoop_paused (enrichCall env cfg)
      applyEnrichResult dfv.rows dfv.rows.length (enrichBS cfg) (enrichMC cfg) k
      _ dfv 0 cnt P ρ hrun
    have hPP2 : P = applyRowsWith (enrichCall env cfg) applyEnrichResult dfv
        (dfv.rows.take ρ) := by
      rw [hPP, List.drop_zero, Nat.sub_zero]
    obtain ⟨G, hG, hGfst, hGid⟩ := applyRowsWith_rowsG (enrichCall env cfg)
      applyEnrichResult (fun g idx res => applyEnrichResult_rowsG g idx res)
      (dfv.rows.take ρ) dfv
    have hProws : P.rows = dfv.rows.map G := by
      rw [hPP2]
      exact hG
    have hPlen : P.rows.length = dfv.rows.length := by
      rw [hProws, List.length_map]
    have hPdrop : P.rows.drop ρ = dfv.rows.drop ρ := by
      rw [hProws, ← List.map_drop]
      apply map_id_of_eq
      intro p hp
      exact hGid p (drop_label_not_in_take hnd ρ p hp)
    refine ⟨applyRowsWith (enrichCall env cfg) applyEnrichResult P (dfv.rows.drop ρ),
      ?_, ?_⟩
    · intro cnt2
      simp only [enrichLeadExec]
      rw [if_neg (by rw [hPlen]; exact hz)]
      rw [apiLoop_none_ok (enrichCall env cfg) applyEnrichResult P.rows P.rows.length
        (enrichBS cfg) (enrichMC cfg) hbs hmc (fuelFor none P.rows.length) P ρ cnt2
        (by simp [fuelFor]; omega)]
      have htake : (P.rows.drop ρ).take (P.rows.length - ρ) = P.rows.drop ρ := by
        rw [show P.rows.length - ρ = (P.rows.drop ρ).length from by
          rw [List.length_drop]]
        exact List.take_length _
      rw [htake, hPdrop]
    · intro cnt3
      simp only [enrichLeadExec]
      rw [if_neg hz]
      rw [apiLoop_none_ok (enrichCall env cfg) applyEnrichResult dfv.rows dfv.rows.length
        (enrichBS cfg) (enrichMC cfg) hbs hmc (fuelFor none dfv.rows.length) dfv 0 cnt3
        (by simp only [fuelFor]; omega)]
      rw [List.drop_zero, Nat.sub_zero, List.take_length]
      rw [show dfv.rows = dfv.rows.take ρ ++ dfv.rows.drop ρ from
        (List.take_append_drop ρ dfv.rows).symm]
      rw [applyRowsWith_append, ← hPP2]
      rw [List.take_append_drop]

theorem femCand_false (rows : List (Nat × Row)) : femCand false rows = rows := by
  unfold femCand
  apply List.filter_eq_self.mpr
  intro a _
  rfl

/-- A paused find-email block re-entered on its partial frame at the saved
candidate position completes, and produces the same frame as a fresh
no-pause run on the original input, provided the output column is not the
email column itself or skipping is off. -/
theorem findEmail_resume (env : Env) (cfg : Config) (dfv P : Frame) (k : Option Nat)
    (cnt ρ : Nat) (hnd : nodupIdx dfv)
    (hbs : 1 ≤ femBS cfg) (hmc : 1 ≤ femMC cfg)
    (hout : cfg.output_column ≠ ("email") ∨ cfg.skip_existing = false)
    (hrun : (findEmailExec env cfg (some dfv) k cnt 0).res = .paused P ρ) :
    ∃ F, (∀ cnt2, (findEmailExec env cfg (some P) none cnt2 ρ).res = .ok F) ∧
      (∀ cnt3, (findEmailExec env cfg (some dfv) none cnt3 0).res = .ok F) := by
  simp only [findEmailExec] at hrun
  by_cases hz : dfv.rows.length = 0
  · rw [if_pos hz] at hrun
    cases hrun
  rw [if_neg hz] at hrun
  by_cases hc : (femPrep cfg dfv).2 = []
  · rw [if_pos hc] at hrun
    cases hrun
  rw [if_neg hc] at hrun
  obtain ⟨j, hjr, hle, hlt, hPP, -⟩ := apiLoop_paused (findCall env cfg)
    (applyFindResult cfg.output_column) (femPrep cfg dfv).2 (femPrep cfg dfv).2.length
    (femBS cfg) (femMC cfg) k _ (femPrep cfg dfv).1 0 cnt P ρ hrun
  have hcand : (femPrep cfg dfv).2 = femCand cfg.skip_existing dfv.rows :=
    femPrepGo_snd _ _ dfv.rows _
  have hPP2 : P = applyRowsWith (findCall env cfg) (applyFindResult cfg.output_column)
      (femPrep cfg dfv).1 ((femCand cfg.skip_existing dfv.rows).take ρ) := by
    rw [hPP, List.drop_zero, Nat.sub_zero, hcand]
  obtain ⟨GA, hGA, hGAfst, hGAid, hGAcol⟩ := femPrepGo_rowsG cfg.output_column
    cfg.skip_existing dfv.rows (ensureCol dfv cfg.output_column)
  obtain ⟨GB, hGB, hGBfst, hGBid, hGBcol⟩ := applyRowsWith_find_rowsG (findCall env cfg)
    cfg.output_column ((femCand cfg.skip_existing dfv.rows).take ρ) (femPrep cfg dfv).1
  have hf1rows : (femPrep cfg dfv).1.rows = dfv.rows.map GA := by
    show (femPrepGo cfg.output_column cfg.skip_existing dfv.rows
      (ensureCol dfv cfg.output_column)).1.rows = _
    rw [hGA, ensureCol_rows]
  have hProws : P.rows = dfv.rows.map (fun p => GB (GA p)) := by
    rw [hPP2, hGB, hf1rows, List.map_map]
    rfl
  have hPlen : P.rows.length = dfv.rows.length := by
    rw [hProws, List.length_map]
  have hPcols : cfg.output_column ∈ P.cols := by
    rw [hPP2, applyRowsWith_find_cols]
    show cfg.output_column ∈ (femPrepGo cfg.output_column cfg.skip_existing dfv.rows
      (ensureCol dfv cfg.output_column)).1.cols
    rw [femPrepGo_cols]
    exact mem_ensureCol_cols dfv cfg.output_column
  have hPfst : P.rows.map Prod.fst = dfv.rows.map Prod.fst := by
    rw [hProws, List.map_map]
    exact List.map_congr_left (fun p _ => by
      show (GB (GA p)).1 = p.1
      rw [hGBfst, hGAfst])
  have hndP : nodupIdx P := by
    unfold nodupIdx
    rw [hPfst]
    exact hnd
  have hcandnd : ((femCand cfg.skip_existing dfv.rows).map Prod.fst).Nodup :=
    femCand_labels_nodup cfg.skip_existing dfv.rows hnd
  obtain ⟨candP, hprep2, hlenC, hdropC, hneC⟩ :
      ∃ candP, femPrep cfg P = (P, candP) ∧
        candP.length = (femCand cfg.skip_existing dfv.rows).length ∧
        candP.drop ρ = (femCand cfg.skip_existing dfv.rows).drop ρ ∧
        candP ≠ [] := by
    have hgid : ∀ p ∈ (femCand cfg.skip_existing dfv.rows).drop ρ, GB (GA p) = p := by
      intro p hp
      have hpcand : p ∈ femCand cfg.skip_existing dfv.rows := List.drop_subset _ _ hp
      have hA : GA p = p :=
        hGAid p (cand_label_not_skip cfg.skip_existing dfv.rows hnd p hpcand)
      rw [hA]
      exact hGBid p (drop_label_not_in_take hcandnd ρ p hp)
    rcases hout with houtc | hskipf
    · -- output column distinct from the email column
      have hge : ∀ p, cellOf (GB (GA p)).2 ("email") = cellOf p.2 ("email") := by
        intro p
        rw [hGBcol _ _ (fun hh => houtc hh.symm), hGAcol _ _ (fun hh => houtc hh.symm)]
      have hemail : ∀ p ∈ dfv.rows,
          truthyCell (cellOf (GB (GA p)).2 ("email")) =
            truthyCell (cellOf p.2 ("email")) := by
        intro p _
        rw [hge]
      have hset : ∀ p ∈ dfv.rows, cfg.skip_existing = true →
          truthyCell (cellOf p.2 ("email")) = true →
          setAt P (GB (GA p)).1 cfg.output_column (cellOf (GB (GA p)).2 ("email")) = P := by
        intro p hmem hsk htr
        obtain ⟨ev, hev⟩ : ∃ ev, cellOf p.2 ("email") = some ev := by
          cases hcell : cellOf p.2 ("email") with
          | none => rw [hcell] at htr; cases htr
          | some ev => exact ⟨ev, rfl⟩
        have hfst : (GB (GA p)).1 = p.1 := by rw [hGBfst, hGAfst]
        rw [hfst, hge p]
        have hf1get : getCell (femPrep cfg dfv).1 p.1 cfg.output_column =
            cellOf p.2 ("email") := by
          show getCell (femPrepGo cfg.output_column cfg.skip_existing dfv.rows
            (ensureCol dfv cfg.output_column)).1 p.1 cfg.output_column = _
          rw [hsk]
          apply femPrepGo_skip_cell cfg.output_column p.1 p.2 dfv.rows _ hnd
            (show ((p.1, p.2) : Nat × Row) ∈ dfv.rows from hmem) htr
          rw [ensureCol_rows]
          exact List.mem_map_of_mem Prod.fst hmem
        have hskiplab : p.1 ∈ (dfv.rows.filter
            (fun q => cfg.skip_existing && truthyCell (cellOf q.2 ("email")))).map
              Prod.fst := by
          apply List.mem_map_of_mem Prod.fst
          apply List.mem_filter.mpr
          refine ⟨hmem, ?_⟩
          rw [hsk, htr]
          rfl
        have hloop : getCell P p.1 cfg.output_column =
            getCell (femPrep cfg dfv).1 p.1 cfg.output_column := by
          rw [hPP2]
          apply applyRowsWith_other (findCall env cfg) (applyFindResult cfg.output_column)
            (fun g0 i0 r0 idx0 c0 hne0 =>
              applyFindResult_other cfg.output_column g0 i0 r0 idx0 c0 hne0)
            p.1 cfg.output_column _ _
          intro q2 hq2 heq
          have hq2cand : q2 ∈ femCand cfg.skip_existing dfv.rows :=
            List.take_subset _ _ hq2
          have := cand_label_not_skip cfg.skip_existing dfv.rows hnd q2 hq2cand
          rw [heq] at this
          exact this hskiplab
        have hPget : getCell P p.1 cfg.output_column = cellOf p.2 ("email") := by
          rw [hloop, hf1get]
        apply setAt_id
        intro q hq hq1
        obtain ⟨p2, hp2mem, hp2e⟩ := List.mem_map.mp (by rw [← hProws]; exact hq :
          q ∈ dfv.rows.map (fun p0 => GB (GA p0)))
        have hq2get : cellOf q.2 cfg.output_column = getCell P p.1 cfg.output_column := by
          rw [(getCell_eq_of_mem P hndP p.1 q.2 (by
            rw [show ((p.1, q.2) : Nat × Row) = q from by rw [← hq1]]
            exact hq) cfg.output_column)]
        rw [hPget] at hq2get
        rw [hev] at hq2get
        have := cellOf_eq_some q.2 cfg.output_column ev hq2get
        rw [this, hev]
      have hprep : femPrep cfg P = (P, (femCand cfg.skip_existing dfv.rows).map
          (fun p => GB (GA p))) := by
        show femPrepGo cfg.output_column cfg.skip_existing P.rows
          (ensureCol P cfg.output_column) = _
        rw [ensureCol_id P cfg.output_column hPcols, hProws]
        exact femPrepGo_map_id cfg.output_column cfg.skip_existing _ dfv.rows P
          hemail hset
      refine ⟨_, hprep, by rw [List.length_map], ?_, ?_⟩
      · rw [← List.map_drop]
        exact map_id_of_eq _ _ hgid
      · rw [Ne, List.map_eq_nil_iff]
        rw [hcand] at hc
        exact hc
    · -- skipping off: the preparation pass is the identity
      have hprep : femPrep cfg P = (P, P.rows) := by
        show femPrepGo cfg.output_column cfg.skip_existing P.rows
          (ensureCol P cfg.output_column) = _
        rw [hskipf, femPrepGo_noskip, ensureCol_id P cfg.output_column hPcols]
      refine ⟨P.rows, hprep, ?_, ?_, ?_⟩
      · rw [hskipf, femCand_false, hPlen]
      · rw [hskipf, femCand_false, hProws, ← List.map_drop]
        apply map_id_of_eq
        intro p hp
        have hp2 : p ∈ (femCand cfg.skip_existing dfv.rows).drop ρ := by
          rw [hskipf, femCand_false]
          exact hp
        exact hgid p hp2
      · intro hnil
        apply hz
        rw [← hPlen, hnil]
        rfl
  refine ⟨applyRowsWith (findCall env cfg) (applyFindResult cfg.output_column) P
    ((femCand cfg.skip_existing dfv.rows).drop ρ), ?_, ?_⟩
  · intro cnt2
    simp only [findEmailExec]
    rw [if_neg (by rw [hPlen]; exact hz)]
    rw [hprep2]
    rw [if_neg hneC]
    rw [apiLoop_none_ok (findCall env cfg) (applyFindResult cfg.output_column) candP
      candP.length (femBS cfg) (femMC cfg) hbs hmc (fuelFor none candP.length) P ρ cnt2
      (by simp only [fuelFor]; omega)]
    rw [show (candP.drop ρ).take (candP.length - ρ) = candP.drop ρ from by
      rw [show candP.length - ρ = (candP.drop ρ).length from by rw [List.length_drop]]
      exact List.take_length _]
    rw [hdropC]
  · intro cnt3
    simp only [findEmailExec]
    rw [if_neg hz]
    rw [if_neg hc]
    rw [apiLoop_none_ok (findCall env cfg) (applyFindResult cfg.output_column)
      (femPrep cfg dfv).2 (femPrep cfg dfv).2.length (femBS cfg) (femMC cfg) hbs hmc
      (fuelFor none (femPrep cfg dfv).2.length) (femPrep cfg dfv).1 0 cnt3
      (by simp only [fuelFor]; omega)]
    rw [List.drop_zero, Nat.sub_zero, List.take_length]
    rw [hcand]
    rw [show femCand cfg.skip_existing dfv.rows =
      (femCand cfg.skip_existing dfv.rows).take ρ ++
        (femCand cfg.skip_existing dfv.rows).drop ρ from
      (List.take_append_drop ρ _).symm]
    rw [applyRowsWith_append, ← hPP2, List.take_append_drop]

/-! ## Per-block determinism across pause thresholds -/

/-- Effective-parameter sanity of one block: enrichment blocks have positive
batch size and concurrency, and a find-email block does not write its output
into the email column it skips by. -/
def apiOKT (t : BlockType) (cfg : Config) : Prop :=
  match t with
  | .enrich_lead => 1 ≤ enrichBS cfg ∧ 1 ≤ enrichMC cfg
  | .find_email => 1 ≤ femBS cfg ∧ 1 ≤ femMC cfg ∧
      (cfg.output_column ≠ ("email") ∨ cfg.skip_existing = false)
  | _ => True

def apiOK (bd : BlockDef) : Prop := apiOKT bd.type bd.config

theorem readCSVExec_cnt (env : Env) (fs : FS) (cfg : Config) (cnt cnt' : Nat) :
    (readCSVExec env fs cfg cnt).res = (readCSVExec env fs cfg cnt').res ∧
    (readCSVExec env fs cfg cnt).prog = (readCSVExec env fs cfg cnt').prog := by
  unfold readCSVExec
  by_cases h1 : cfg.file_path = ("")
  · rw [if_pos h1, if_pos h1]
    exact ⟨rfl, rfl⟩
  · rw [if_neg h1, if_neg h1]
    cases alookup fs.entries (resolvePath fs cfg.file_path) with
    | none => exact ⟨rfl, rfl⟩
    | some content =>
      dsimp only
      cases env.decode content with
      | error e => exact ⟨rfl, rfl⟩
      | ok f => exact ⟨rfl, rfl⟩

theorem saveCSVExec_cnt (env : Env) (fs : FS) (cfg : Config) (df : Option Frame)
    (cnt cnt' : Nat) :
    (saveCSVExec env fs cfg df cnt).1.res = (saveCSVExec env fs cfg df cnt').1.res ∧
    (saveCSVExec env fs cfg df cnt).1.prog = (saveCSVExec env fs cfg df cnt').1.prog ∧
    (saveCSVExec env fs cfg df cnt).2 = (saveCSVExec env fs cfg df cnt').2 := by
  cases df with
  | none => exact ⟨rfl, rfl, rfl⟩
  | some f => exact ⟨rfl, rfl, rfl⟩

theorem filterExec_cnt (cfg : Config) (df : Option Frame) (cnt cnt' : Nat) :
    (filterExec cfg df cnt).res = (filterExec cfg df cnt').res ∧
    (filterExec cfg df cnt).prog = (filterExec cfg df cnt').prog := by
  unfold filterExec
  cases df with
  | none => exact ⟨rfl, rfl⟩
  | some f =>
    dsimp only
    by_cases h1 : cfg.column = ("")
    · rw [if_pos h1, if_pos h1]
      exact ⟨rfl, rfl⟩
    · rw [if_neg h1, if_neg h1]
      by_cases h2 : cfg.column ∈ f.cols
      · rw [if_neg (show ¬ cfg.column ∉ f.cols from fun hh => hh h2),
          if_neg (show ¬ cfg.column ∉ f.cols from fun hh => hh h2)]
        by_cases h3 : cfg.operator ∈ validOps
        · rw [if_neg (show ¬ cfg.operator ∉ validOps from fun hh => hh h3),
            if_neg (show ¬ cfg.operator ∉ validOps from fun hh => hh h3)]
          cases maskRows cfg f.rows with
          | error e => exact ⟨rfl, rfl⟩
          | ok kept => exact ⟨rfl, rfl⟩
        · rw [if_pos (show cfg.operator ∉ validOps from h3),
            if_pos (show cfg.operator ∉ validOps from h3)]
          exact ⟨rfl, rfl⟩
      · rw [if_pos (show cfg.column ∉ f.cols from h2),
          if_pos (show cfg.column ∉ f.cols from h2)]
        exact ⟨rfl, rfl⟩

/-- A successful enrich-lead run at any pause threshold is reproduced by the
threshold-free run. -/
theorem enrichLeadExec_ok_none (env : Env) (cfg : Config) (df : Option Frame)
    (k : Option Nat) (cnt s : Nat) (f : Frame)
    (hbs : 1 ≤ enrichBS cfg) (hmc : 1 ≤ enrichMC cfg)
    (h : (enrichLeadExec env cfg df k cnt s).res = .ok f) :
    ∀ cnt', (enrichLeadExec env cfg df none cnt' s).res = .ok f := by
  intro cnt'
  unfold enrichLeadExec at h ⊢
  cases df with
  | none => cases h
  | some dfv =>
    dsimp only at h ⊢
    by_cases hz : dfv.rows.length = 0
    · rw [if_pos hz] at h
      cases h
    · rw [if_neg hz] at h ⊢
      rw [apiLoop_none_ok (enrichCall env cfg) applyEnrichResult dfv.rows
        dfv.rows.length (enrichBS cfg) (enrichMC cfg) hbs hmc
        (fuelFor none dfv.rows.length) dfv s cnt' (by simp only [fuelFor]; omega)]
      rw [apiLoop_ok_frame (enrichCall env cfg) applyEnrichResult dfv.rows
        dfv.rows.length (enrichBS cfg) (enrichMC cfg) k _ dfv s cnt f h]

/-- A successful find-email run at any pause threshold is reproduced by the
threshold-free run. -/
theorem findEmailExec_ok_none (env : Env) (cfg : Config) (df : Option Frame)
    (k : Option Nat) (cnt s : Nat) (f : Frame)
    (hbs : 1 ≤ femBS cfg) (hmc : 1 ≤ femMC cfg)
    (h : (findEmailExec env cfg df k cnt s).res = .ok f) :
    ∀ cnt', (findEmailExec env cfg df none cnt' s).res = .ok f := by
  intro cnt'
  unfold findEmailExec at h ⊢
  cases df with
  | none => cases h
  | some dfv =>
    dsimp only at h ⊢
    by_cases hz : dfv.rows.length = 0
    · rw [if_pos hz] at h
      cases h
    · rw [if_neg hz] at h ⊢
      by_cases hc : (femPrep cfg dfv).2 = []
      · rw [if_pos hc] at h ⊢
        exact h
      · rw [if_neg hc] at h ⊢
        rw [apiLoop_none_ok (findCall env cfg) (applyFindResult cfg.output_column)
          (femPrep cfg dfv).2 (femPrep cfg dfv).2.length (femBS cfg) (femMC cfg) hbs hmc
          (fuelFor none (femPrep cfg dfv).2.length) (femPrep cfg dfv).1 s cnt'
          (by simp only [fuelFor]; omega)]
        rw [apiLoop_ok_frame (findCall env cfg) (applyFindResult cfg.output_column)
          (femPrep cfg dfv).2 (femPrep cfg dfv).2.length (femBS cfg) (femMC cfg) k _
          (femPrep cfg dfv).1 s cnt f h]

/-- A block completion transfers from any pause threshold to the
threshold-free run, with the same result frame and the same file system. -/
theorem runBlock_ok_none (env : Env) (fs : FS) (t : BlockType) (cfg : Config)
    (df : Option Frame) (k : Option Nat) (cnt s : Nat) (f : Frame)
    (hok : apiOKT t cfg)
    (h : (runBlock env fs t cfg df k cnt s).1.res = .ok f) :
    ∀ cnt', (runBlock env fs t cfg df none cnt' s).1.res = .ok f ∧
      (runBlock env fs t cfg df none cnt' s).2 = (runBlock env fs t cfg df k cnt s).2 := by
  intro cnt'
  cases t with
  | read_csv =>
    refine ⟨?_, rfl⟩
    show (readCSVExec env fs cfg cnt').res = .ok f
    rw [(readCSVExec_cnt env fs cfg cnt' cnt).1]
    exact h
  | save_csv =>
    constructor
    · show (saveCSVExec env fs cfg df cnt').1.res = .ok f
      rw [(saveCSVExec_cnt env fs cfg df cnt' cnt).1]
      exact h
    · show (saveCSVExec env fs cfg df cnt').2 = (saveCSVExec env fs cfg df cnt).2
      exact (saveCSVExec_cnt env fs cfg df cnt' cnt).2.2
  | filter =>
    refine ⟨?_, rfl⟩
    show (filterExec cfg df cnt').res = .ok f
    rw [(filterExec_cnt cfg df cnt' cnt).1]
    exact h
  | enrich_lead =>
    exact ⟨enrichLeadExec_ok_none env cfg df k cnt s f hok.1 hok.2 h cnt', rfl⟩
  | find_email =>
    exact ⟨findEmailExec_ok_none env cfg df k cnt s f hok.1 hok.2.1 h cnt', rfl⟩

/-- Threshold-free blocks with sane parameters never hang and never pause. -/
theorem runBlock_none_exclude (env : Env) (fs : FS) (t : BlockType) (cfg : Config)
    (df : Option Frame) (cnt s : Nat) (hok : apiOKT t cfg) :
    (runBlock env fs t cfg df none cnt s).1.res ≠ .hung ∧
    (∀ P ρ, (runBlock env fs t cfg df none cnt s).1.res ≠ .paused P ρ) := by
  cases t with
  | read_csv =>
    rcases readCSVExec_cases env fs cfg cnt with ⟨m, hm⟩ | ⟨m, hm⟩ | ⟨f2, hm⟩ <;>
      refine ⟨?_, fun P ρ => ?_⟩ <;> (show (readCSVExec env fs cfg cnt).res ≠ _) <;>
      rw [hm] <;> intro hx <;> cases hx
  | save_csv =>
    rcases saveCSVExec_cases env fs cfg df cnt with hm | ⟨f2, -, hm⟩ <;>
      refine ⟨?_, fun P ρ => ?_⟩ <;> (show (saveCSVExec env fs cfg df cnt).1.res ≠ _) <;>
      rw [hm] <;> intro hx <;> cases hx
  | filter =>
    rcases filterExec_cases cfg df cnt with ⟨m, hm⟩ | ⟨m, hm⟩ | ⟨g, hm⟩ <;>
      refine ⟨?_, fun P ρ => ?_⟩ <;> (show (filterExec cfg df cnt).res ≠ _) <;>
      rw [hm] <;> intro hx <;> cases hx
  | enrich_lead =>
    show (enrichLeadExec env cfg df none cnt s).res ≠ .hung ∧
      ∀ P ρ, (enrichLeadExec env cfg df none cnt s).res ≠ .paused P ρ
    unfold enrichLeadExec
    cases df with
    | none =>
      exact ⟨fun hx => ExecResult.noConfusion hx,
        fun P ρ hx => ExecResult.noConfusion hx⟩
    | some dfv =>
      dsimp only
      by_cases hz : dfv.rows.length = 0
      · rw [if_pos hz]
        exact ⟨fun hx => ExecResult.noConfusion hx,
          fun P ρ hx => ExecResult.noConfusion hx⟩
      · rw [if_neg hz]
        rw [apiLoop_none_ok (enrichCall env cfg) applyEnrichResult dfv.rows
          dfv.rows.length (enrichBS cfg) (enrichMC cfg) hok.1 hok.2
          (fuelFor none dfv.rows.length) dfv s cnt (by simp only [fuelFor]; omega)]
        exact ⟨fun hx => ExecResult.noConfusion hx,
          fun P ρ hx => ExecResult.noConfusion hx⟩
  | find_email =>
    show (findEmailExec env cfg df none cnt s).res ≠ .hung ∧
      ∀ P ρ, (findEmailExec env cfg df none cnt s).res ≠ .paused P ρ
    unfold findEmailExec
    cases df with
    | none =>
      exact ⟨fun hx => ExecResult.noConfusion hx,
        fun P ρ hx => ExecResult.noConfusion hx⟩
    | some dfv =>
      dsimp only
      by_cases hz : dfv.rows.length = 0
      · rw [if_pos hz]
        exact ⟨fun hx => ExecResult.noConfusion hx,
          fun P ρ hx => ExecResult.noConfusion hx⟩
      · rw [if_neg hz]
        by_cases hc : (femPrep cfg dfv).2 = []
        · rw [if_pos hc]
          exact ⟨fun hx => ExecResult.noConfusion hx,
            fun P ρ hx => ExecResult.noConfusion hx⟩
        · rw [if_neg hc]
          rw [apiLoop_none_ok (findCall env cfg) (applyFindResult cfg.output_column)
            (femPrep cfg dfv).2 (femPrep cfg dfv).2.length (femBS cfg) (femMC cfg)
            hok.1 hok.2.1 (fuelFor none (femPrep cfg dfv).2.length) (femPrep cfg dfv).1
            s cnt (by simp only [fuelFor]; omega)]
          exact ⟨fun hx => ExecResult.noConfusion hx,
            fun P ρ hx => ExecResult.noConfusion hx⟩

/-- Threshold-free block results, progress traces and file-system effects do
not depend on the check counter. -/
theorem runBlock_none_cnt (env : Env) (fs : FS) (t : BlockType) (cfg : Config)
    (df : Option Frame) (cnt cnt' s : Nat) :
    (runBlock env fs t cfg df none cnt s).1.res =
      (runBlock env fs t cfg df none cnt' s).1.res ∧
    (runBlock env fs t cfg df none cnt s).1.prog =
      (runBlock env fs t cfg df none cnt' s).1.prog ∧
    (runBlock env fs t cfg df none cnt s).2 = (runBlock env fs t cfg df none cnt' s).2 := by
  cases t with
  | read_csv =>
    obtain ⟨h1, h2⟩ := readCSVExec_cnt env fs cfg cnt cnt'
    exact ⟨h1, h2, rfl⟩
  | save_csv =>
    obtain ⟨h1, h2, h3⟩ := saveCSVExec_cnt env fs cfg df cnt cnt'
    exact ⟨h1, h2, h3⟩
  | filter =>
    obtain ⟨h1, h2⟩ := filterExec_cnt cfg df cnt cnt'
    exact ⟨h1, h2, rfl⟩
  | enrich_lead =>
    refine ⟨?_, ?_, rfl⟩
    · show (enrichLeadExec env cfg df none cnt s).res =
        (enrichLeadExec env cfg df none cnt' s).res
      unfold enrichLeadExec
      cases df with
      | none => rfl
      | some dfv =>
        dsimp only
        by_cases hz : dfv.rows.length = 0
        · rw [if_pos hz, if_pos hz]
        · rw [if_neg hz, if_neg hz]
          exact (apiLoop_none_cnt (enrichCall env cfg) applyEnrichResult dfv.rows
            dfv.rows.length (enrichBS cfg) (enrichMC cfg) _ dfv s cnt cnt').1
    · show (enrichLeadExec env cfg df none cnt s).prog =
        (enrichLeadExec env cfg df none cnt' s).prog
      unfold enrichLeadExec
      cases df with
      | none => rfl
      | some dfv =>
        dsimp only
        by_cases hz : dfv.rows.length = 0
        · rw [if_pos hz, if_pos hz]
        · rw [if_neg hz, if_neg hz]
          exact (apiLoop_none_cnt (enrichCall env cfg) applyEnrichResult dfv.rows
            dfv.rows.length (enrichBS cfg) (enrichMC cfg) _ dfv s cnt cnt').2
  | find_email =>
    refine ⟨?_, ?_, rfl⟩
    · show (findEmailExec env cfg df none cnt s).res =
        (findEmailExec env cfg df none cnt' s).res
      unfold findEmailExec
      cases df with
      | none => rfl
      | some dfv =>
        dsimp only
        by_cases hz : dfv.rows.length = 0
        · rw [if_pos hz, if_pos hz]
        · rw [if_neg hz, if_neg hz]
          by_cases hc : (femPrep cfg dfv).2 = []
          · rw [if_pos hc, if_pos hc]
          · rw [if_neg hc, if_neg hc]
            exact (apiLoop_none_cnt (findCall env cfg)
              (applyFindResult cfg.output_column) (femPrep cfg dfv).2
              (femPrep cfg dfv).2.length (femBS cfg) (femMC cfg) _
              (femPrep cfg dfv).1 s cnt cnt').1
    · show (findEmailExec env cfg df none cnt s).prog =
        (findEmailExec env cfg df none cnt' s).prog
      unfold findEmailExec
      cases df with
      | none => rfl
      | some dfv =>
        dsimp only
        by_cases hz : dfv.rows.length = 0
        · rw [if_pos hz, if_pos hz]
        · rw [if_neg hz, if_neg hz]
          by_cases hc : (femPrep cfg dfv).2 = []
          · rw [if_pos hc, if_pos hc]
          · rw [if_neg hc, if_neg hc]
            exact (apiLoop_none_cnt (findCall env cfg)
              (applyFindResult cfg.output_column) (femPrep cfg dfv).2
              (femPrep cfg dfv).2.length (femBS cfg) (femMC cfg) _
              (femPrep cfg dfv).1 s cnt cnt').2

/-- Only the enrichment blocks can raise the pause signal, and only on a
non-empty input frame. -/
theorem runBlock_paused_shape (env : Env) (fs : FS) (t : BlockType) (cfg : Config)
    (df : Option Frame) (k : Option Nat) (cnt s : Nat) (P : Frame) (ρ : Nat)
    (h : (runBlock env fs t cfg df k cnt s).1.res = .paused P ρ) :
    (t = .enrich_lead ∨ t = .find_email) ∧
    (∃ dfv, df = some dfv ∧ dfv.rows.length ≠ 0) ∧
    (runBlock env fs t cfg df k cnt s).2 = fs := by
  cases t with
  | read_csv =>
    exfalso
    rcases readCSVExec_cases env fs cfg cnt with ⟨m, hm⟩ | ⟨m, hm⟩ | ⟨f2, hm⟩ <;>
      (have hx : (readCSVExec env fs cfg cnt).res = .paused P ρ := h) <;>
      rw [hm] at hx <;> cases hx
  | save_csv =>
    exfalso
    rcases saveCSVExec_cases env fs cfg df cnt with hm | ⟨f2, -, hm⟩ <;>
      (have hx : (saveCSVExec env fs cfg df cnt).1.res = .paused P ρ := h) <;>
      rw [hm] at hx <;> cases hx
  | filter =>
    exfalso
    rcases filterExec_cases cfg df cnt with ⟨m, hm⟩ | ⟨m, hm⟩ | ⟨g, hm⟩ <;>
      (have hx : (filterExec cfg df cnt).res = .paused P ρ := h) <;>
      rw [hm] at hx <;> cases hx
  | enrich_lead =>
    refine ⟨Or.inl rfl, ?_, rfl⟩
    have hx : (enrichLeadExec env cfg df k cnt s).res = .paused P ρ := h
    unfold enrichLeadExec at hx
    cases df with
    | none => cases hx
    | some dfv =>
      dsimp only at hx
      by_cases hz : dfv.rows.length = 0
      · rw [if_pos hz] at hx
        cases hx
      · exact ⟨dfv, rfl, hz⟩
  | find_email =>
    refine ⟨Or.inr rfl, ?_, rfl⟩
    have hx : (findEmailExec env cfg df k cnt s).res = .paused P ρ := h
    unfold findEmailExec at hx
    cases df with
    | none => cases hx
    | some dfv =>
      dsimp only at hx
      by_cases hz : dfv.rows.length = 0
      · rw [if_pos hz] at hx
        cases hx
      · exact ⟨dfv, rfl, hz⟩

/-! ## Engine loop: state congruence machinery -/

theorem wsExt (a b : WorkflowState)
    (h1 : a.workflow_id = b.workflow_id) (h2 : a.status = b.status)
    (h3 : a.blocks = b.blocks) (h4 : a.current_block_index = b.current_block_index)
    (h5 : a.error = b.error) (h6 : a.result_preview = b.result_preview)
    (h7 : a.result_columns = b.result_columns)
    (h8 : a.result_row_count = b.result_row_count)
    (h9 : a.pause_requested = b.pause_requested)
    (h10 : a.last_processed_row = b.last_processed_row)
    (h11 : a.blocks_config = b.blocks_config) : a = b := by
  cases a
  cases b
  simp only [] at h1 h2 h3 h4 h5 h6 h7 h8 h9 h10 h11
  subst h1 h2 h3 h4 h5 h6 h7 h8 h9 h10 h11
  rfl

theorem updNth_updNth_same {α : Type} (g h : α → α) :
    ∀ (i : Nat) (l : List α), updNth i g (updNth i h l) = updNth i (fun x => g (h x)) l := by
  intro i l
  induction l generalizing i with
  | nil => simp [updNth]
  | cons b rest ih =>
    cases i with
    | zero => rfl
    | succ j =>
      simp only [updNth]
      rw [ih j]

/-- The completed-block state does not depend on the progress trace: the
completion overwrites both status and progress. -/
theorem stepState_prog_irrel (st : WorkflowState) (i : Nat) (prog prog' : List Nat)
    (f : Frame) : stepState st i prog f = stepState st i prog' f := by
  unfold stepState refreshResult markCompleted applyProg markRunning
  cases prog.getLast? with
  | none =>
    cases prog'.getLast? with
    | none => rfl
    | some p' =>
      dsimp only
      apply wsExt <;> try rfl
      simp only [updNth_updNth_same]
  | some p =>
    cases prog'.getLast? with
    | none =>
      dsimp only
      apply wsExt <;> try rfl
      simp only [updNth_updNth_same]
    | some p' =>
      dsimp only
      apply wsExt <;> try rfl
      simp only [updNth_updNth_same]

theorem stepState_index (st : WorkflowState) (i : Nat) (prog : List Nat) (f : Frame) :
    (stepState st i prog f).current_block_index = i := by
  unfold stepState refreshResult markCompleted applyProg markRunning
  cases prog.getLast? <;> rfl

theorem stepState_wid (st : WorkflowState) (i : Nat) (prog : List Nat) (f : Frame) :
    (stepState st i prog f).workflow_id = st.workflow_id := by
  unfold stepState refreshResult markCompleted applyProg markRunning
  cases prog.getLast? <;> rfl

theorem stepState_status (st : WorkflowState) (i : Nat) (prog : List Nat) (f : Frame) :
    (stepState st i prog f).status = st.status := by
  unfold stepState refreshResult markCompleted applyProg markRunning
  cases prog.getLast? <;> rfl

theorem stepState_error (st : WorkflowState) (i : Nat) (prog : List Nat) (f : Frame) :
    (stepState st i prog f).error = st.error := by
  unfold stepState refreshResult markCompleted applyProg markRunning
  cases prog.getLast? <;> rfl

theorem stepState_pause (st : WorkflowState) (i : Nat) (prog : List Nat) (f : Frame) :
    (stepState st i prog f).pause_requested = st.pause_requested := by
  unfold stepState refreshResult markCompleted applyProg markRunning
  cases prog.getLast? <;> rfl

theorem stepState_bc (st : WorkflowState) (i : Nat) (prog : List Nat) (f : Frame) :
    (stepState st i prog f).blocks_config = st.blocks_config := by
  unfold stepState refreshResult markCompleted applyProg markRunning
  cases prog.getLast? <;> rfl

theorem stepState_lpr (st : WorkflowState) (i : Nat) (prog : List Nat) (f : Frame) :
    (stepState st i prog f).last_processed_row = st.last_processed_row := by
  unfold stepState refreshResult markCompleted applyProg markRunning
  cases prog.getLast? <;> rfl

theorem stepState_preview (st : WorkflowState) (i : Nat) (prog : List Nat) (f : Frame) :
    (stepState st i prog f).result_preview = some (f.rows.take 10) := rfl

theorem stepState_columns (st : WorkflowState) (i : Nat) (prog : List Nat) (f : Frame) :
    (stepState st i prog f).result_columns = some f.cols := rfl

theorem stepState_rowcount (st : WorkflowState) (i : Nat) (prog : List Nat) (f : Frame) :
    (stepState st i prog f).result_row_count = f.rows.length := rfl

theorem stepState_blocks (st : WorkflowState) (i : Nat) (prog : List Nat) (f : Frame) :
    (stepState st i prog f).blocks =
      updNth i (fun b => { b with status := BlockStatus.completed, progress := 100 })
        (updNth i (fun b => { b with status := BlockStatus.running }) st.blocks) := by
  rw [stepState_prog_irrel st i prog [] f]
  rfl

/-- Everything the block loop reads and writes of a state, except the
resume cursor `last_processed_row`. -/
def stateCore (st : WorkflowState) :
    String × WorkflowStatus × List BlockProgress × Nat × Option String ×
    Option (List (Nat × Row)) × Option (List String) × Nat × Bool ×
    Option (List BlockDef) :=
  (st.workflow_id, st.status, st.blocks, st.current_block_index, st.error,
   st.result_preview, st.result_columns, st.result_row_count, st.pause_requested,
   st.blocks_config)

theorem stateCore_ext {a b : WorkflowState}
    (h1 : a.workflow_id = b.workflow_id) (h2 : a.status = b.status)
    (h3 : a.blocks = b.blocks) (h4 : a.current_block_index = b.current_block_index)
    (h5 : a.error = b.error) (h6 : a.result_preview = b.result_preview)
    (h7 : a.result_columns = b.result_columns)
    (h8 : a.result_row_count = b.result_row_count)
    (h9 : a.pause_requested = b.pause_requested)
    (h10 : a.blocks_config = b.blocks_config) : stateCore a = stateCore b := by
  unfold stateCore
  rw [h1, h2, h3, h4, h5, h6, h7, h8, h9, h10]

theorem stateCore_parts {a b : WorkflowState} (h : stateCore a = stateCore b) :
    a.workflow_id = b.workflow_id ∧ a.status = b.status ∧ a.blocks = b.blocks ∧
    a.current_block_index = b.current_block_index ∧ a.error = b.error ∧
    a.result_preview = b.result_preview ∧ a.result_columns = b.result_columns ∧
    a.result_row_count = b.result_row_count ∧ a.pause_requested = b.pause_requested ∧
    a.blocks_config = b.blocks_config := by
  simp only [stateCore, Prod.mk.injEq] at h
  exact h

theorem stateCore_blocks {a b : WorkflowState} (h : stateCore a = stateCore b) :
    a.blocks = b.blocks := (stateCore_parts h).2.2.1

theorem stepState_core_congr {a b : WorkflowState} (h : stateCore a = stateCore b)
    (i : Nat) (pa pb : List Nat) (f : Frame) :
    stateCore (stepState a i pa f) = stateCore (stepState b i pb f) := by
  obtain ⟨h1, h2, h3, h4, h5, h6, h7, h8, h9, h10⟩ := stateCore_parts h
  apply stateCore_ext
  · rw [stepState_wid, stepState_wid, h1]
  · rw [stepState_status, stepState_status, h2]
  · rw [stepState_blocks, stepState_blocks, h3]
  · rw [stepState_index, stepState_index]
  · rw [stepState_error, stepState_error, h5]
  · rw [stepState_preview, stepState_preview]
  · rw [stepState_columns, stepState_columns]
  · rw [stepState_rowcount, stepState_rowcount]
  · rw [stepState_pause, stepState_pause, h9]
  · rw [stepState_bc, stepState_bc, h10]

theorem pausedState_wid (st : WorkflowState) (i : Nat) (prog : List Nat) :
    (applyProg (markRunning st i) i prog).workflow_id = st.workflow_id := by
  unfold applyProg markRunning
  cases prog.getLast? <;> rfl

theorem pausedState_status (st : WorkflowState) (i : Nat) (prog : List Nat) :
    (applyProg (markRunning st i) i prog).status = st.status := by
  unfold applyProg markRunning
  cases prog.getLast? <;> rfl

theorem pausedState_error (st : WorkflowState) (i : Nat) (prog : List Nat) :
    (applyProg (markRunning st i) i prog).error = st.error := by
  unfold applyProg markRunning
  cases prog.getLast? <;> rfl

theorem pausedState_preview (st : WorkflowState) (i : Nat) (prog : List Nat) :
    (applyProg (markRunning st i) i prog).result_preview = st.result_preview := by
  unfold applyProg markRunning
  cases prog.getLast? <;> rfl

theorem pausedState_columns (st : WorkflowState) (i : Nat) (prog : List Nat) :
    (applyProg (markRunning st i) i prog).result_columns = st.result_columns := by
  unfold applyProg markRunning
  cases prog.getLast? <;> rfl

theorem pausedState_rowcount (st : WorkflowState) (i : Nat) (prog : List Nat) :
    (applyProg (markRunning st i) i prog).result_row_count = st.result_row_count := by
  unfold applyProg markRunning
  cases prog.getLast? <;> rfl

theorem pausedState_pause (st : WorkflowState) (i : Nat) (prog : List Nat) :
    (applyProg (markRunning st i) i prog).pause_requested = st.pause_requested := by
  unfold applyProg markRunning
  cases prog.getLast? <;> rfl

theorem pausedState_bc (st : WorkflowState) (i : Nat) (prog : List Nat) :
    (applyProg (markRunning st i) i prog).blocks_config = st.blocks_config := by
  unfold applyProg markRunning
  cases prog.getLast? <;> rfl

theorem pausedState_lpr (st : WorkflowState) (i : Nat) (prog : List Nat) :
    (applyProg (markRunning st i) i prog).last_processed_row = st.last_processed_row := by
  unfold applyProg markRunning
  cases prog.getLast? <;> rfl

theorem pausedState_blocks_congr {a b : WorkflowState} (h3 : a.blocks = b.blocks)
    (i : Nat) (prog : List Nat) :
    (applyProg (markRunning a i) i prog).blocks =
      (applyProg (markRunning b i) i prog).blocks := by
  unfold applyProg markRunning
  cases prog.getLast? with
  | none =>
    dsimp only
    rw [h3]
  | some p =>
    dsimp only
    rw [h3]

theorem pausedState_core_congr {a b : WorkflowState} (h : stateCore a = stateCore b)
    (i : Nat) (prog : List Nat) :
    stateCore (applyProg (markRunning a i) i prog) =
      stateCore (applyProg (markRunning b i) i prog) := by
  obtain ⟨h1, h2, h3, h4, h5, h6, h7, h8, h9, h10⟩ := stateCore_parts h
  apply stateCore_ext
  · rw [pausedState_wid, pausedState_wid, h1]
  · rw [pausedState_status, pausedState_status, h2]
  · exact pausedState_blocks_congr h3 i prog
  · rw [pausedState_index, pausedState_index]
  · rw [pausedState_error, pausedState_error, h5]
  · rw [pausedState_preview, pausedState_preview, h6]
  · rw [pausedState_columns, pausedState_columns, h7]
  · rw [pausedState_rowcount, pausedState_rowcount, h8]
  · rw [pausedState_pause, pausedState_pause, h9]
  · rw [pausedState_bc, pausedState_bc, h10]

theorem oob_core_congr {a b : WorkflowState} (h : stateCore a = stateCore b) (i : Nat) :
    stateCore { a with current_block_index := i } =
      stateCore { b with current_block_index := i } := by
  obtain ⟨h1, h2, h3, h4, h5, h6, h7, h8, h9, h10⟩ := stateCore_parts h
  apply stateCore_ext <;>
    first
    | exact h1 | exact h2 | exact h3 | exact h5 | exact h6 | exact h7
    | exact h8 | exact h9 | exact h10 | rfl

/-! ## Engine loop: splitting and simulation -/

/-- A loop whose first `n` blocks complete continues as the loop over the
remaining blocks from the prefix registers. -/
theorem runGo_done_cont (env : Env) (sbi srow : Nat) (k : Option Nat) :
    ∀ (n : Nat) (l : List BlockDef) (i cnt : Nat) (curDf : Option Frame)
      (st : WorkflowState) (store : Option Frame) (fs : FS), n ≤ l.length →
      (runBlocksGo env sbi srow k (l.take n) i cnt curDf st store fs).exit = .done →
      runBlocksGo env sbi srow k l i cnt curDf st store fs =
        runBlocksGo env sbi srow k (l.drop n) (i + n)
          (runBlocksGo env sbi srow k (l.take n) i cnt curDf st store fs).cnt
          (runBlocksGo env sbi srow k (l.take n) i cnt curDf st store fs).curDf
          (runBlocksGo env sbi srow k (l.take n) i cnt curDf st store fs).st
          (runBlocksGo env sbi srow k (l.take n) i cnt curDf st store fs).store
          (runBlocksGo env sbi srow k (l.take n) i cnt curDf st store fs).fs := by
  intro n
  induction n with
  | zero =>
    intro l i cnt curDf st store fs _ _
    rfl
  | succ n ih =>
    intro l i cnt curDf st store fs hn hdone
    cases l with
    | nil => simp at hn
    | cons bd rest =>
      rw [List.take_succ_cons] at hdone ⊢
      rw [List.drop_succ_cons]
      by_cases hskip : i < sbi
      · rw [runGo_cons_skip _ _ _ _ _ _ _ _ _ _ _ _ hskip] at hdone ⊢
        rw [runGo_cons_skip _ _ _ _ _ _ _ _ _ _ _ _ hskip]
        rw [show i + (n + 1) = i + 1 + n from by omega]
        exact ih rest (i + 1) cnt curDf st store fs (by simpa using hn) hdone
      · by_cases hib : i < st.blocks.length
        · cases hres : (runBlock env fs bd.type bd.config curDf k cnt
              (if i = sbi then srow else 0)).1.res with
          | ok f =>
            rw [runGo_cons_ok _ _ _ _ _ _ _ _ _ _ _ _ _ hskip hib hres] at hdone ⊢
            rw [runGo_cons_ok _ _ _ _ _ _ _ _ _ _ _ _ _ hskip hib hres]
            rw [show i + (n + 1) = i + 1 + n from by omega]
            exact ih rest (i + 1) _ _ _ _ _ (by simpa using hn) hdone
          | paused f row =>
            rw [runGo_cons_paused _ _ _ _ _ _ _ _ _ _ _ _ _ _ hskip hib hres] at hdone
            cases hdone
          | err m =>
            rw [runGo_cons_err _ _ _ _ _ _ _ _ _ _ _ _ _ hskip hib hres] at hdone
            cases hdone
          | hung =>
            rw [runGo_cons_hung _ _ _ _ _ _ _ _ _ _ _ _ hskip hib hres] at hdone
            cases hdone
        · rw [runGo_cons_oob _ _ _ _ _ _ _ _ _ _ _ _ hskip hib] at hdone
          cases hdone

/-- Starting below the resume index only skips blocks until the resume
index is reached. -/
theorem runGo_skip_prefix (env : Env) (sbi srow : Nat) (k : Option Nat) :
    ∀ (l : List BlockDef) (i cnt : Nat) (curDf : Option Frame) (st : WorkflowState)
      (store : Option Frame) (fs : FS), i ≤ sbi → sbi - i ≤ l.length →
      runBlocksGo env sbi srow k l i cnt curDf st store fs =
        runBlocksGo env sbi srow k (l.drop (sbi - i)) sbi cnt curDf st store fs := by
  intro l
  induction l with
  | nil =>
    intro i cnt curDf st store fs hle hlen
    rw [List.drop_nil]
    rfl
  | cons bd rest ih =>
    intro i cnt curDf st store fs hle hlen
    by_cases he : i = sbi
    · subst he
      rw [Nat.sub_self, List.drop_zero]
    · have hlt : i < sbi := by omega
      rw [runGo_cons_skip _ _ _ _ _ _ _ _ _ _ _ _ hlt]
      rw [ih (i + 1) cnt curDf st store fs (by omega)
        (by simp only [List.length_cons] at hlen; omega)]
      rw [show sbi - i = sbi - (i + 1) + 1 from by omega, List.drop_succ_cons]

/-- Two threshold-free loops over the same blocks from the same registers,
differing only in resume coordinates already passed and in the check
counter, agree on everything except the counter and the resume cursor. -/
theorem runGo_congr (env : Env) (sbiA srowA sbiB srowB : Nat) :
    ∀ (l : List BlockDef) (i : Nat) (cntA cntB : Nat) (curDf : Option Frame)
      (stA stB : WorkflowState) (store : Option Frame) (fsv : FS),
      sbiA < i → sbiB < i → stateCore stA = stateCore stB →
      (runBlocksGo env sbiA srowA none l i cntA curDf stA store fsv).exit =
        (runBlocksGo env sbiB srowB none l i cntB curDf stB store fsv).exit ∧
      (runBlocksGo env sbiA srowA none l i cntA curDf stA store fsv).store =
        (runBlocksGo env sbiB srowB none l i cntB curDf stB store fsv).store ∧
      (runBlocksGo env sbiA srowA none l i cntA curDf stA store fsv).curDf =
        (runBlocksGo env sbiB srowB none l i cntB curDf stB store fsv).curDf ∧
      (runBlocksGo env sbiA srowA none l i cntA curDf stA store fsv).fs =
        (runBlocksGo env sbiB srowB none l i cntB curDf stB store fsv).fs ∧
      stateCore (runBlocksGo env sbiA srowA none l i cntA curDf stA store fsv).st =
        stateCore (runBlocksGo env sbiB srowB none l i cntB curDf stB store fsv).st := by
  intro l
  induction l with
  | nil =>
    intro i cntA cntB curDf stA stB store fsv _ _ hcore
    exact ⟨rfl, rfl, rfl, rfl, hcore⟩
  | cons bd rest ih =>
    intro i cntA cntB curDf stA stB store fsv hA hB hcore
    have hskipA : ¬ i < sbiA := by omega
    have hskipB : ¬ i < sbiB := by omega
    have hblocks : stA.blocks = stB.blocks := stateCore_blocks hcore
    have hsrowA : (if i = sbiA then srowA else 0) = 0 := if_neg (by omega)
    have hsrowB : (if i = sbiB then srowB else 0) = 0 := if_neg (by omega)
    obtain ⟨hres0, hprog0, hfs0⟩ := runBlock_none_cnt env fsv bd.type bd.config curDf
      cntA cntB 0
    by_cases hib : i < stA.blocks.length
    · have hibB : i < stB.blocks.length := by rw [← hblocks]; exact hib
      cases hc : (runBlock env fsv bd.type bd.config curDf none cntA 0).1.res with
      | ok f =>
        have hcB : (runBlock env fsv bd.type bd.config curDf none cntB 0).1.res =
            .ok f := by
          rw [← hres0]
          exact hc
        rw [runGo_cons_ok env sbiA srowA none bd rest i cntA curDf stA store fsv f
          hskipA hib (by rw [hsrowA]; exact hc)]
        rw [runGo_cons_ok env sbiB srowB none bd rest i cntB curDf stB store fsv f
          hskipB hibB (by rw [hsrowB]; exact hcB)]
        rw [hsrowA, hsrowB, hfs0]
        exact ih (i + 1) _ _ (some f) _ _ (some f) _ (by omega) (by omega)
          (stepState_core_congr hcore i _ _ f)
      | paused f row =>
        have hcB : (runBlock env fsv bd.type bd.config curDf none cntB 0).1.res =
            .paused f row := by
          rw [← hres0]
          exact hc
        rw [runGo_cons_paused env sbiA srowA none bd rest i cntA curDf stA store fsv f
          row hskipA hib (by rw [hsrowA]; exact hc)]
        rw [runGo_cons_paused env sbiB srowB none bd rest i cntB curDf stB store fsv f
          row hskipB hibB (by rw [hsrowB]; exact hcB)]
        rw [hsrowA, hsrowB, hfs0, hprog0]
        exact ⟨rfl, rfl, rfl, rfl, pausedState_core_congr hcore i _⟩
      | err m =>
        have hcB : (runBlock env fsv bd.type bd.config curDf none cntB 0).1.res =
            .err m := by
          rw [← hres0]
          exact hc
        rw [runGo_cons_err env sbiA srowA none bd rest i cntA curDf stA store fsv m
          hskipA hib (by rw [hsrowA]; exact hc)]
        rw [runGo_cons_err env sbiB srowB none bd rest i cntB curDf stB store fsv m
          hskipB hibB (by rw [hsrowB]; exact hcB)]
        rw [hsrowA, hsrowB, hfs0, hprog0]
        exact ⟨rfl, rfl, rfl, rfl, pausedState_core_congr hcore i _⟩
      | hung =>
        have hcB : (runBlock env fsv bd.type bd.config curDf none cntB 0).1.res =
            .hung := by
          rw [← hres0]
          exact hc
        rw [runGo_cons_hung env sbiA srowA none bd rest i cntA curDf stA store fsv
          hskipA hib (by rw [hsrowA]; exact hc)]
        rw [runGo_cons_hung env sbiB srowB none bd rest i cntB curDf stB store fsv
          hskipB hibB (by rw [hsrowB]; exact hcB)]
        rw [hsrowA, hsrowB, hfs0, hprog0]
        exact ⟨rfl, rfl, rfl, rfl, pausedState_core_congr hcore i _⟩
    · have hibB : ¬ i < stB.blocks.length := by rw [← hblocks]; exact hib
      rw [runGo_cons_oob env sbiA srowA none bd rest i cntA curDf stA store fsv
        hskipA hib]
      rw [runGo_cons_oob env sbiB srowB none bd rest i cntB curDf stB store fsv
        hskipB hibB]
      exact ⟨rfl, rfl, rfl, rfl, oob_core_congr hcore i⟩

/-- A threshold-free loop over sane blocks never hangs. -/
theorem runGo_none_no_hang (env : Env) (sbi srow : Nat) :
    ∀ (l : List BlockDef) (i cnt : Nat) (curDf : Option Frame) (st : WorkflowState)
      (store : Option Frame) (fs : FS), (∀ bd ∈ l, apiOK bd) →
      (runBlocksGo env sbi srow none l i cnt curDf st store fs).exit ≠ .hungAt := by
  intro l
  induction l with
  | nil =>
    intro i cnt curDf st store fs _ hx
    cases hx
  | cons bd rest ih =>
    intro i cnt curDf st store fs hall hx
    have hok : apiOKT bd.type bd.config := hall bd (List.mem_cons_self bd rest)
    have hrest : ∀ bd2 ∈ rest, apiOK bd2 :=
      fun bd2 h2 => hall bd2 (List.mem_cons_of_mem bd h2)
    by_cases hskip : i < sbi
    · rw [runGo_cons_skip _ _ _ _ _ _ _ _ _ _ _ _ hskip] at hx
      exact ih _ _ _ _ _ _ hrest hx
    · by_cases hib : i < st.blocks.length
      · cases hres : (runBlock env fs bd.type bd.config curDf none cnt
            (if i = sbi then srow else 0)).1.res with
        | ok f =>
          rw [runGo_cons_ok _ _ _ _ _ _ _ _ _ _ _ _ _ hskip hib hres] at hx
          exact ih _ _ _ _ _ _ hrest hx
        | paused f row =>
          exact (runBlock_none_exclude env fs bd.type bd.config curDf cnt
            (if i = sbi then srow else 0) hok).2 f row hres
        | err m =>
          rw [runGo_cons_err _ _ _ _ _ _ _ _ _ _ _ _ _ hskip hib hres] at hx
          cases hx
        | hung =>
          exact (runBlock_none_exclude env fs bd.type bd.config curDf cnt
            (if i = sbi then srow else 0) hok).1 hres
      · rw [runGo_cons_oob _ _ _ _ _ _ _ _ _ _ _ _ hskip hib] at hx
        cases hx

/-! ## Engine loop: label uniqueness invariant -/

theorem maskRows_sublist (cfg : Config) :
    ∀ (rows kept : List (Nat × Row)), maskRows cfg rows = .ok kept →
      kept.Sublist rows := by
  intro rows
  induction rows with
  | nil =>
    intro kept h
    cases h
    exact List.Sublist.refl []
  | cons q rest ih =>
    intro kept h
    obtain ⟨idx, row⟩ := q
    unfold maskRows at h
    cases hcm : cellMatch cfg.operator cfg.value cfg.case_sensitive
        (cellOf row cfg.column) with
    | error e =>
      rw [hcm] at h
      cases h
    | ok b =>
      rw [hcm] at h
      dsimp only at h
      cases hmr : maskRows cfg rest with
      | error e =>
        rw [hmr] at h
        cases h
      | ok kept2 =>
        rw [hmr] at h
        dsimp only at h
        cases b with
        | true =>
          rw [if_pos rfl] at h
          cases h
          exact (ih _ hmr).cons₂ (idx, row)
        | false =>
          rw [if_neg (by simp)] at h
          cases h
          exact (ih _ hmr).cons (idx, row)

theorem runBlock_ok_nodup (env : Env) (fs : FS) (t : BlockType) (cfg : Config)
    (df : Option Frame) (k : Option Nat) (cnt s : Nat) (f : Frame)
    (hdf : ∀ g, df = some g → nodupIdx g)
    (h : (runBlock env fs t cfg df k cnt s).1.res = .ok f) : nodupIdx f := by
  cases t with
  | read_csv =>
    have hx : (readCSVExec env fs cfg cnt).res = .ok f := h
    unfold readCSVExec at hx
    by_cases h1 : cfg.file_path = ("")
    · rw [if_pos h1] at hx
      cases hx
    · rw [if_neg h1] at hx
      cases halk : alookup fs.entries (resolvePath fs cfg.file_path) with
      | none => rw [halk] at hx; cases hx
      | some content =>
        rw [halk] at hx
        dsimp only at hx
        cases hdec : env.decode content with
        | error e => rw [hdec] at hx; cases hx
        | ok f0 =>
          rw [hdec] at hx
          dsimp only at hx
          have hf : f = reindex f0 := by
            cases hx
            rfl
          rw [hf]
          unfold nodupIdx reindex
          rw [List.enum_map_fst]
          exact List.nodup_range _
  | save_csv =>
    have hx : (saveCSVExec env fs cfg df cnt).1.res = .ok f := h
    cases df with
    | none => cases hx
    | some dfv =>
      have hf : f = dfv := by
        cases hx
        rfl
      rw [hf]
      exact hdf dfv rfl
  | filter =>
    have hx : (filterExec cfg df cnt).res = .ok f := h
    unfold filterExec at hx
    cases df with
    | none => cases hx
    | some dfv =>
      dsimp only at hx
      by_cases h1 : cfg.column = ("")
      · rw [if_pos h1] at hx
        cases hx
      · rw [if_neg h1] at hx
        by_cases h2 : cfg.column ∈ dfv.cols
        · rw [if_neg (show ¬ cfg.column ∉ dfv.cols from fun hh => hh h2)] at hx
          by_cases h3 : cfg.operator ∈ validOps
          · rw [if_neg (show ¬ cfg.operator ∉ validOps from fun hh => hh h3)] at hx
            cases hmr : maskRows cfg dfv.rows with
            | error e => rw [hmr] at hx; cases hx
            | ok kept =>
              rw [hmr] at hx
              dsimp only at hx
              have hf : f = ⟨dfv.cols, kept⟩ := by
                cases hx
                rfl
              rw [hf]
              unfold nodupIdx
              exact ((maskRows_sublist cfg dfv.rows kept hmr).map Prod.fst).nodup
                (hdf dfv rfl)
          · rw [if_pos (show cfg.operator ∉ validOps from h3)] at hx
            cases hx
        · rw [if_pos (show cfg.column ∉ dfv.cols from h2)] at hx
          cases hx
  | enrich_lead =>
    have hx : (enrichLeadExec env cfg df k cnt s).res = .ok f := h
    unfold enrichLeadExec at hx
    cases df with
    | none => cases hx
    | some dfv =>
      dsimp only at hx
      by_cases hz : dfv.rows.length = 0
      · rw [if_pos hz] at hx
        cases hx
      · rw [if_neg hz] at hx
        have hf := apiLoop_ok_frame (enrichCall env cfg) applyEnrichResult dfv.rows
          dfv.rows.length (enrichBS cfg) (enrichMC cfg) k _ dfv s cnt f hx
        obtain ⟨G, hG, hGfst, -⟩ := applyRowsWith_rowsG (enrichCall env cfg)
          applyEnrichResult (fun g idx res => applyEnrichResult_rowsG g idx res)
          ((dfv.rows.drop s).take (dfv.rows.length - s)) dfv
        unfold nodupIdx
        rw [hf, hG, List.map_map]
        rw [List.map_congr_left (fun p _ => by
          show (G p).1 = p.1
          rw [hGfst])]
        exact hdf dfv rfl
  | find_email =>
    have hx : (findEmailExec env cfg df k cnt s).res = .ok f := h
    unfold findEmailExec at hx
    cases df with
    | none => cases hx
    | some dfv =>
      dsimp only at hx
      by_cases hz : dfv.rows.length = 0
      · rw [if_pos hz] at hx
        cases hx
      · rw [if_neg hz] at hx
        obtain ⟨GA, hGA, hGAfst, -, -⟩ := femPrepGo_rowsG cfg.output_column
          cfg.skip_existing dfv.rows (ensureCol dfv cfg.output_column)
        have hf1 : (femPrep cfg dfv).1.rows.map Prod.fst = dfv.rows.map Prod.fst := by
          show (femPrepGo cfg.output_column cfg.skip_existing dfv.rows
            (ensureCol dfv cfg.output_column)).1.rows.map Prod.fst = _
          rw [hGA, ensureCol_rows, List.map_map]
          exact List.map_congr_left (fun p _ => by
            show (GA p).1 = p.1
            rw [hGAfst])
        by_cases hc : (femPrep cfg dfv).2 = []
        · rw [if_pos hc] at hx
          have hf : f = (femPrep cfg dfv).1 := by
            cases hx
            rfl
          rw [hf]
          unfold nodupIdx
          rw [hf1]
          exact hdf dfv rfl
        · rw [if_neg hc] at hx
          have hf := apiLoop_ok_frame (findCall env cfg)
            (applyFindResult cfg.output_column) (femPrep cfg dfv).2
            (femPrep cfg dfv).2.length (femBS cfg) (femMC cfg) k _
            (femPrep cfg dfv).1 s cnt f hx
          obtain ⟨GB, hGB, hGBfst, -, -⟩ := applyRowsWith_find_rowsG (findCall env cfg)
            cfg.output_column (((femPrep cfg dfv).2.drop s).take
              ((femPrep cfg dfv).2.length - s)) (femPrep cfg dfv).1
          unfold nodupIdx
          rw [hf, hGB, List.map_map]
          rw [List.map_congr_left (fun p _ => by
            show (GB p).1 = p.1
            rw [hGBfst])]
          rw [hf1]
          exact hdf dfv rfl

/-- The working frame of the loop keeps unique labels. -/
theorem runGo_curDf_nodup (env : Env) (sbi srow : Nat) (k : Option Nat) :
    ∀ (l : List BlockDef) (i cnt : Nat) (curDf : Option Frame) (st : WorkflowState)
      (store : Option Frame) (fs : FS),
      (∀ g, curDf = some g → nodupIdx g) →
      ∀ g, (runBlocksGo env sbi srow k l i cnt curDf st store fs).curDf = some g →
        nodupIdx g := by
  intro l
  induction l with
  | nil =>
    intro i cnt curDf st store fs hdf g hg
    exact hdf g hg
  | cons bd rest ih =>
    intro i cnt curDf st store fs hdf g hg
    by_cases hskip : i < sbi
    · rw [runGo_cons_skip _ _ _ _ _ _ _ _ _ _ _ _ hskip] at hg
      exact ih _ _ _ _ _ _ hdf g hg
    · by_cases hib : i < st.blocks.length
      · cases hres : (runBlock env fs bd.type bd.config curDf k cnt
            (if i = sbi then srow else 0)).1.res with
        | ok f =>
          rw [runGo_cons_ok _ _ _ _ _ _ _ _ _ _ _ _ _ hskip hib hres] at hg
          have hnf : nodupIdx f :=
            runBlock_ok_nodup env fs bd.type bd.config curDf k cnt _ f hdf hres
          refine ih _ _ _ _ _ _ ?_ g hg
          intro g2 hg2
          cases hg2
          exact hnf
        | paused f row =>
          rw [runGo_cons_paused _ _ _ _ _ _ _ _ _ _ _ _ _ _ hskip hib hres] at hg
          exact hdf g hg
        | err m =>
          rw [runGo_cons_err _ _ _ _ _ _ _ _ _ _ _ _ _ hskip hib hres] at hg
          exact hdf g hg
        | hung =>
          rw [runGo_cons_hung _ _ _ _ _ _ _ _ _ _ _ _ hskip hib hres] at hg
          exact hdf g hg
      · rw [runGo_cons_oob _ _ _ _ _ _ _ _ _ _ _ _ hskip hib] at hg
        exact hdf g hg

/-- A block loop that pauses decomposes into a completed prefix followed by
the single pausing block. -/
theorem runGo_paused_split (env : Env) (sbi srow : Nat) (k : Option Nat) :
    ∀ (l : List BlockDef) (i cnt : Nat) (curDf : Option Frame) (st : WorkflowState)
      (store : Option Frame) (fs : FS) (f : Frame) (row : Nat),
      sbi ≤ i → i + l.length ≤ st.blocks.length →
      (runBlocksGo env sbi srow k l i cnt curDf st store fs).exit = .pausedAt f row →
      ∃ n bd, l.get? n = some bd ∧
        (runBlocksGo env sbi srow k (l.take n) i cnt curDf st store fs).exit = .done ∧
        runBlocksGo env sbi srow k l i cnt curDf st store fs =
          runBlocksGo env sbi srow k [bd] (i + n)
            (runBlocksGo env sbi srow k (l.take n) i cnt curDf st store fs).cnt
            (runBlocksGo env sbi srow k (l.take n) i cnt curDf st store fs).curDf
            (runBlocksGo env sbi srow k (l.take n) i cnt curDf st store fs).st
            (runBlocksGo env sbi srow k (l.take n) i cnt curDf st store fs).store
            (runBlocksGo env sbi srow k (l.take n) i cnt curDf st store fs).fs := by
  intro l
  induction l with
  | nil =>
    intro i cnt curDf st store fs f row _ _ hp
    cases hp
  | cons bd rest ih =>
    intro i cnt curDf st store fs f row hsbi hlen hp
    have hskip : ¬ i < sbi := by omega
    have hib : i < st.blocks.length := by
      simp only [List.length_cons] at hlen
      omega
    cases hres : (runBlock env fs bd.type bd.config curDf k cnt
        (if i = sbi then srow else 0)).1.res with
    | ok f2 =>
      rw [runGo_cons_ok _ _ _ _ _ _ _ _ _ _ _ _ _ hskip hib hres] at hp ⊢
      have hlen2 : (i + 1) + rest.length ≤ (stepState st i
          (runBlock env fs bd.type bd.config curDf k cnt
            (if i = sbi then srow else 0)).1.prog f2).blocks.length := by
        rw [stepState_length]
        simp only [List.length_cons] at hlen
        omega
      obtain ⟨n, bd2, hget, hpre, hsplit⟩ :=
        ih (i + 1) _ (some f2) _ (some f2) _ f row (by omega) hlen2 hp
      refine ⟨n + 1, bd2, by simpa using hget, ?_, ?_⟩
      · rw [List.take_succ_cons,
          runGo_cons_ok _ _ _ _ _ _ _ _ _ _ _ _ _ hskip hib hres]
        exact hpre
      · rw [List.take_succ_cons,
          runGo_cons_ok _ _ _ _ _ _ _ _ _ _ _ _ _ hskip hib hres]
        have hidx : i + (n + 1) = i + 1 + n := by omega
        rw [hidx]
        exact hsplit
    | paused f2 row2 =>
      refine ⟨0, bd, rfl, rfl, ?_⟩
      exact (runGo_cons_paused env sbi srow k bd rest i cnt curDf st store fs f2 row2
          hskip hib hres).trans
        (runGo_cons_paused env sbi srow k bd [] i cnt curDf st store fs f2 row2
          hskip hib hres).symm
    | err m =>
      rw [runGo_cons_err _ _ _ _ _ _ _ _ _ _ _ _ _ hskip hib hres] at hp
      cases hp
    | hung =>
      rw [runGo_cons_hung _ _ _ _ _ _ _ _ _ _ _ _ hskip hib hres] at hp
      cases hp

theorem pauseHandle_status (st : WorkflowState) (f : Frame) (row : Nat) :
    (pauseHandle st f row).status = .paused := by
  simp only [pauseHandle, refreshResult]
  split <;> rfl

theorem pauseHandle_lpr (st : WorkflowState) (f : Frame) (row : Nat) :
    (pauseHandle st f row).last_processed_row = row := by
  simp only [pauseHandle, refreshResult]
  split <;> rfl

theorem pauseHandle_index (st : WorkflowState) (f : Frame) (row : Nat) :
    (pauseHandle st f row).current_block_index = st.current_block_index := by
  simp only [pauseHandle, refreshResult]
  split <;> rfl

theorem pauseHandle_bc (st : WorkflowState) (f : Frame) (row : Nat) :
    (pauseHandle st f row).blocks_config = st.blocks_config := by
  simp only [pauseHandle, refreshResult]
  split <;> rfl

theorem pauseHandle_error (st : WorkflowState) (f : Frame) (row : Nat) :
    (pauseHandle st f row).error = st.error := by
  simp only [pauseHandle, refreshResult]
  split <;> rfl

theorem pauseHandle_wid (st : WorkflowState) (f : Frame) (row : Nat) :
    (pauseHandle st f row).workflow_id = st.workflow_id := by
  simp only [pauseHandle, refreshResult]
  split <;> rfl

theorem pauseHandle_get?_ne (st : WorkflowState) (f : Frame) (row : Nat) (j : Nat)
    (hne : j ≠ st.current_block_index) :
    (pauseHandle st f row).blocks.get? j = st.blocks.get? j := by
  simp only [pauseHandle, refreshResult]
  split
  · exact updNth_get?_ne _ _ _ _ hne
  · rfl

theorem pauseHandle_get?_cur (st : WorkflowState) (f : Frame) (row : Nat)
    (h : st.current_block_index < st.blocks.length) :
    (pauseHandle st f row).blocks.get? st.current_block_index =
      (st.blocks.get? st.current_block_index).map
        (fun b => { b with status := BlockStatus.paused }) := by
  simp only [pauseHandle, refreshResult]
  rw [if_pos h]
  exact updNth_get?_eq _ _ _

theorem pauseHandle_blocks_length (st : WorkflowState) (f : Frame) (row : Nat) :
    (pauseHandle st f row).blocks.length = st.blocks.length := by
  simp only [pauseHandle, refreshResult]
  split
  · exact updNth_length _ _ _
  · rfl

/-- `execute_workflow` on a known workflow, expressed through the loop
result and the exit handlers. -/
theorem executeWorkflow_eq (env : Env) (w : World) (wid : String)
    (blocks : List BlockDef) (sbi srow : Nat) (k : Option Nat) (st0 : WorkflowState)
    (hst : alookup w.engine.workflows wid = some st0) :
    executeWorkflow env w wid blocks sbi srow k =
      (⟨{ workflows := aupsert w.engine.workflows wid
            (match (runBlocksGo env sbi srow k blocks 0 0
                (alookup w.engine.dataframes wid) (entryState st0 blocks)
                (alookup w.engine.dataframes wid) w.fs).exit with
              | .done => { (runBlocksGo env sbi srow k blocks 0 0
                  (alookup w.engine.dataframes wid) (entryState st0 blocks)
                  (alookup w.engine.dataframes wid) w.fs).st with status := .completed }
              | .pausedAt f2 row => pauseHandle (runBlocksGo env sbi srow k blocks 0 0
                  (alookup w.engine.dataframes wid) (entryState st0 blocks)
                  (alookup w.engine.dataframes wid) w.fs).st f2 row
              | .raisedErr m => failHandle (runBlocksGo env sbi srow k blocks 0 0
                  (alookup w.engine.dataframes wid) (entryState st0 blocks)
                  (alookup w.engine.dataframes wid) w.fs).st m
              | .hungAt => (runBlocksGo env sbi srow k blocks 0 0
                  (alookup w.engine.dataframes wid) (entryState st0 blocks)
                  (alookup w.engine.dataframes wid) w.fs).st)
          dataframes := match (match (runBlocksGo env sbi srow k blocks 0 0
                (alookup w.engine.dataframes wid) (entryState st0 blocks)
                (alookup w.engine.dataframes wid) w.fs).exit with
              | .pausedAt f2 _ => some f2
              | _ => (runBlocksGo env sbi srow k blocks 0 0
                  (alookup w.engine.dataframes wid) (entryState st0 blocks)
                  (alookup w.engine.dataframes wid) w.fs).store) with
            | some f2 => aupsert w.engine.dataframes wid f2
            | none => w.engine.dataframes },
        (runBlocksGo env sbi srow k blocks 0 0 (alookup w.engine.dataframes wid)
          (entryState st0 blocks) (alookup w.engine.dataframes wid) w.fs).fs⟩,
       match (runBlocksGo env sbi srow k blocks 0 0 (alookup w.engine.dataframes wid)
          (entryState st0 blocks) (alookup w.engine.dataframes wid) w.fs).exit with
        | .hungAt => .hung
        | .done => .returned (match (runBlocksGo env sbi srow k blocks 0 0
            (alookup w.engine.dataframes wid) (entryState st0 blocks)
            (alookup w.engine.dataframes wid) w.fs).exit with
              | .done => { (runBlocksGo env sbi srow k blocks 0 0
                  (alookup w.engine.dataframes wid) (entryState st0 blocks)
                  (alookup w.engine.dataframes wid) w.fs).st with status := .completed }
              | .pausedAt f2 row => pauseHandle (runBlocksGo env sbi srow k blocks 0 0
                  (alookup w.engine.dataframes wid) (entryState st0 blocks)
                  (alookup w.engine.dataframes wid) w.fs).st f2 row
              | .raisedErr m => failHandle (runBlocksGo env sbi srow k blocks 0 0
                  (alookup w.engine.dataframes wid) (entryState st0 blocks)
                  (alookup w.engine.dataframes wid) w.fs).st m
              | .hungAt => (runBlocksGo env sbi srow k blocks 0 0
                  (alookup w.engine.dataframes wid) (entryState st0 blocks)
                  (alookup w.engine.dataframes wid) w.fs).st)
        | .pausedAt f2 row => .returned (pauseHandle (runBlocksGo env sbi srow k blocks
            0 0 (alookup w.engine.dataframes wid) (entryState st0 blocks)
            (alookup w.engine.dataframes wid) w.fs).st f2 row)
        | .raisedErr m => .returned (failHandle (runBlocksGo env sbi srow k blocks 0 0
            (alookup w.engine.dataframes wid) (entryState st0 blocks)
            (alookup w.engine.dataframes wid) w.fs).st m)) := by
  simp only [executeWorkflow, hst]
  simp only [entryState]
  cases (runBlocksGo env sbi srow k blocks 0 0 (alookup w.engine.dataframes wid)
      { st0 with
        status := .running
        pause_requested := false
        blocks_config := some blocks }
      (alookup w.engine.dataframes wid) w.fs).exit with
  | done => rfl
  | pausedAt f2 row => rfl
  | raisedErr m => rfl
  | hungAt => rfl

/-- `execute_workflow` when the block loop pauses. -/
theorem executeWorkflow_pausedAt (env : Env) (w : World) (wid : String)
    (blocks : List BlockDef) (sbi srow : Nat) (k : Option Nat) (st0 : WorkflowState)
    (f : Frame) (row : Nat)
    (hst : alookup w.engine.workflows wid = some st0)
    (hexit : (runBlocksGo env sbi srow k blocks 0 0 (alookup w.engine.dataframes wid)
        (entryState st0 blocks)
        (alookup w.engine.dataframes wid) w.fs).exit = .pausedAt f row) :
    executeWorkflow env w wid blocks sbi srow k =
      (⟨{ workflows := aupsert w.engine.workflows wid
            (pauseHandle (runBlocksGo env sbi srow k blocks 0 0
              (alookup w.engine.dataframes wid) (entryState st0 blocks)
              (alookup w.engine.dataframes wid) w.fs).st f row)
          dataframes := aupsert w.engine.dataframes wid f },
        (runBlocksGo env sbi srow k blocks 0 0 (alookup w.engine.dataframes wid)
          (entryState st0 blocks) (alookup w.engine.dataframes wid) w.fs).fs⟩,
       .returned (pauseHandle (runBlocksGo env sbi srow k blocks 0 0
          (alookup w.engine.dataframes wid) (entryState st0 blocks)
          (alookup w.engine.dataframes wid) w.fs).st f row)) := by
  rw [executeWorkflow_eq env w wid blocks sbi srow k st0 hst]
  rw [hexit]

/-- `resume_workflow` on a paused workflow with a saved non-empty block
list re-enters `execute_workflow` at the saved coordinates. -/
theorem resumeWorkflow_eq (env : Env) (w : World) (wid : String) (k : Option Nat)
    (stP : WorkflowState) (blocks : List BlockDef)
    (hst : alookup w.engine.workflows wid = some stP)
    (hp : stP.status = .paused)
    (hbc : stP.blocks_config = some blocks) (hne : blocks ≠ []) :
    resumeWorkflow env w wid k =
      ((executeWorkflow env w wid blocks stP.current_block_index
        stP.last_processed_row k).1,
       some (executeWorkflow env w wid blocks stP.current_block_index
        stP.last_processed_row k).2) := by
  simp only [resumeWorkflow, hst]
  rw [if_neg (by rw [hp]; exact fun hh => hh rfl)]
  rw [hbc]
  dsimp only
  rw [if_neg hne]

/-- A loop that runs to completion at some pause threshold is reproduced
by the threshold-free loop: same final state, store, frame and file system. -/
theorem runGo_done_none (env : Env) (sbi srow : Nat) (k : Option Nat) :
    ∀ (l : List BlockDef) (i cnt cnt' : Nat) (curDf : Option Frame)
      (st : WorkflowState) (store : Option Frame) (fs : FS),
      (∀ bd ∈ l, apiOK bd) →
      (runBlocksGo env sbi srow k l i cnt curDf st store fs).exit = .done →
      (runBlocksGo env sbi srow none l i cnt' curDf st store fs).exit = .done ∧
      (runBlocksGo env sbi srow none l i cnt' curDf st store fs).st =
        (runBlocksGo env sbi srow k l i cnt curDf st store fs).st ∧
      (runBlocksGo env sbi srow none l i cnt' curDf st store fs).store =
        (runBlocksGo env sbi srow k l i cnt curDf st store fs).store ∧
      (runBlocksGo env sbi srow none l i cnt' curDf st store fs).curDf =
        (runBlocksGo env sbi srow k l i cnt curDf st store fs).curDf ∧
      (runBlocksGo env sbi srow none l i cnt' curDf st store fs).fs =
        (runBlocksGo env sbi srow k l i cnt curDf st store fs).fs := by
  intro l
  induction l with
  | nil =>
    intro i cnt cnt' curDf st store fs _ _
    exact ⟨rfl, rfl, rfl, rfl, rfl⟩
  | cons bd rest ih =>
    intro i cnt cnt' curDf st store fs hall hdone
    have hok : apiOKT bd.type bd.config := hall bd (List.mem_cons_self bd rest)
    have hrest : ∀ bd2 ∈ rest, apiOK bd2 :=
      fun bd2 h2 => hall bd2 (List.mem_cons_of_mem bd h2)
    by_cases hskip : i < sbi
    · rw [runGo_cons_skip _ _ _ _ _ _ _ _ _ _ _ _ hskip] at hdone ⊢
      rw [runGo_cons_skip _ _ _ _ _ _ _ _ _ _ _ _ hskip]
      exact ih _ _ _ _ _ _ _ hrest hdone
    · by_cases hib : i < st.blocks.length
      · cases hres : (runBlock env fs bd.type bd.config curDf k cnt
            (if i = sbi then srow else 0)).1.res with
        | ok f =>
          obtain ⟨hresN, hfsN⟩ := runBlock_ok_none env fs bd.type bd.config curDf k cnt
            (if i = sbi then srow else 0) f hok hres cnt'
          rw [runGo_cons_ok _ _ _ _ _ _ _ _ _ _ _ _ _ hskip hib hres] at hdone ⊢
          rw [runGo_cons_ok _ _ _ _ _ _ _ _ _ _ _ _ _ hskip hib hresN]
          rw [hfsN]
          rw [stepState_prog_irrel st i
            (runBlock env fs bd.type bd.config curDf none cnt'
              (if i = sbi then srow else 0)).1.prog
            (runBlock env fs bd.type bd.config curDf k cnt
              (if i = sbi then srow else 0)).1.prog f]
          exact ih _ _ _ _ _ _ _ hrest hdone
        | paused f row =>
          rw [runGo_cons_paused _ _ _ _ _ _ _ _ _ _ _ _ _ _ hskip hib hres] at hdone
          cases hdone
        | err m =>
          rw [runGo_cons_err _ _ _ _ _ _ _ _ _ _ _ _ _ hskip hib hres] at hdone
          cases hdone
        | hung =>
          rw [runGo_cons_hung _ _ _ _ _ _ _ _ _ _ _ _ hskip hib hres] at hdone
          cases hdone
      · rw [runGo_cons_oob _ _ _ _ _ _ _ _ _ _ _ _ hskip hib] at hdone
        cases hdone

theorem drop_cons_of_get? {α : Type} :
    ∀ (l : List α) (n : Nat) (a : α), l.get? n = some a →
      l.drop n = a :: l.drop (n + 1) := by
  intro l
  induction l with
  | nil => intro n a h; cases h
  | cons b rest ih =>
    intro n a h
    cases n with
    | zero =>
      cases h
      rfl
    | succ m =>
      rw [List.drop_succ_cons, List.drop_succ_cons]
      exact ih m a h

theorem metaOf_parts {a b : WorkflowState} (h : metaOf a = metaOf b) :
    a.status = b.status ∧ a.error = b.error ∧ a.blocks_config = b.blocks_config ∧
    a.pause_requested = b.pause_requested ∧
    a.last_processed_row = b.last_processed_row ∧
    a.workflow_id = b.workflow_id := by
  simp only [metaOf, Prod.mk.injEq] at h
  exact h

theorem option_triple_map (o : Option BlockProgress) (g : BlockProgress → BlockProgress)
    (hg : ∀ b, (g b).block_id = b.block_id ∧ (g b).block_type = b.block_type ∧
      (g b).error = b.error) :
    (o.map g).map (fun bb => (bb.block_id, bb.block_type, bb.error)) =
      o.map (fun bb => (bb.block_id, bb.block_type, bb.error)) := by
  cases o with
  | none => rfl
  | some b =>
    simp only [Option.map_some']
    rw [(hg b).1, (hg b).2.1, (hg b).2.2]

/-- The record of the running block, after the loop's per-step updates,
still carries the original id, kind and error. -/
theorem pausedState_get?_i (st : WorkflowState) (i : Nat) (prog : List Nat) :
    ∃ g, (applyProg (markRunning st i) i prog).blocks.get? i =
        (st.blocks.get? i).map g ∧
      ∀ b, (g b).block_id = b.block_id ∧ (g b).block_type = b.block_type ∧
        (g b).error = b.error := by
  unfold applyProg markRunning
  cases prog.getLast? with
  | none =>
    dsimp only
    refine ⟨fun b => { b with status := BlockStatus.running }, ?_, ?_⟩
    · exact updNth_get?_eq _ _ _
    · intro b
      exact ⟨rfl, rfl, rfl⟩
  | some p =>
    dsimp only
    refine ⟨fun b => { { b with status := BlockStatus.running } with progress := p },
      ?_, ?_⟩
    · rw [updNth_updNth_same]
      exact updNth_get?_eq _ _ _
    · intro b
      exact ⟨rfl, rfl, rfl⟩

theorem stepState_get?_i (st : WorkflowState) (i : Nat) (prog : List Nat) (f : Frame) :
    (stepState st i prog f).blocks.get? i =
      (st.blocks.get? i).map
        (fun b => { b with status := BlockStatus.completed, progress := 100 }) := by
  rw [stepState_blocks]
  rw [updNth_updNth_same]
  exact updNth_get?_eq _ _ _

/-- Two completed-block steps at the same index on the same frame agree on
the core, whenever the entering states agree everywhere the step does not
overwrite. -/
theorem stepState_core_congr2 {a b : WorkflowState} (i : Nat) (pa pb : List Nat)
    (f : Frame)
    (hw : a.workflow_id = b.workflow_id) (hs : a.status = b.status)
    (he : a.error = b.error) (hp : a.pause_requested = b.pause_requested)
    (hb : a.blocks_config = b.blocks_config)
    (hget_ne : ∀ j, j ≠ i → a.blocks.get? j = b.blocks.get? j)
    (hget_i : (a.blocks.get? i).map
        (fun bb => (bb.block_id, bb.block_type, bb.error)) =
      (b.blocks.get? i).map (fun bb => (bb.block_id, bb.block_type, bb.error))) :
    stateCore (stepState a i pa f) = stateCore (stepState b i pb f) := by
  apply stateCore_ext
  · rw [stepState_wid, stepState_wid, hw]
  · rw [stepState_status, stepState_status, hs]
  · apply List.ext_get?
    intro j
    by_cases hj : j = i
    · subst hj
      rw [stepState_get?_i, stepState_get?_i]
      cases ha : a.blocks.get? j with
      | none =>
        rw [ha] at hget_i
        cases hb2 : b.blocks.get? j with
        | none => rfl
        | some b2 =>
          rw [hb2] at hget_i
          cases hget_i
      | some a2 =>
        rw [ha] at hget_i
        cases hb2 : b.blocks.get? j with
        | none =>
          rw [hb2] at hget_i
          cases hget_i
        | some b2 =>
          rw [hb2] at hget_i
          simp only [Option.map_some', Option.some.injEq, Prod.mk.injEq] at hget_i
          simp only [Option.map_some', Option.some.injEq]
          obtain ⟨h1, h2, h3⟩ := hget_i
          cases a2
          cases b2
          simp only [] at h1 h2 h3
          subst h1 h2 h3
          rfl
    · rw [stepState_get?_ne _ _ _ _ _ hj, stepState_get?_ne _ _ _ _ _ hj]
      exact hget_ne j hj
  · rw [stepState_index, stepState_index]
  · rw [stepState_error, stepState_error, he]
  · rw [stepState_preview, stepState_preview]
  · rw [stepState_columns, stepState_columns]
  · rw [stepState_rowcount, stepState_rowcount]
  · rw [stepState_pause, stepState_pause, hp]
  · rw [stepState_bc, stepState_bc, hb]

theorem failHandle_blocks_eq (st : WorkflowState) (m : String) :
    (failHandle st m).blocks =
      if st.current_block_index < st.blocks.length then
        updNth st.current_block_index
          (fun b => { b with status := BlockStatus.failed, error := some m }) st.blocks
      else st.blocks := by
  simp only [failHandle]
  split
  · rfl
  · rfl

theorem pauseHandle_blocks_eq (st : WorkflowState) (f : Frame) (row : Nat) :
    (pauseHandle st f row).blocks =
      if st.current_block_index < st.blocks.length then
        updNth st.current_block_index
          (fun b => { b with status := BlockStatus.paused }) st.blocks
      else st.blocks := by
  simp only [pauseHandle, refreshResult]
  split
  · rfl
  · rfl

theorem failHandle_columns (st : WorkflowState) (m : String) :
    (failHandle st m).result_columns = st.result_columns := by
  simp only [failHandle]
  split <;> rfl

theorem failHandle_rowcount (st : WorkflowState) (m : String) :
    (failHandle st m).result_row_count = st.result_row_count := by
  simp only [failHandle]
  split <;> rfl

theorem pauseHandle_columns (st : WorkflowState) (f : Frame) (row : Nat) :
    (pauseHandle st f row).result_columns = some f.cols := by
  simp only [pauseHandle, refreshResult]
  split <;> rfl

theorem pauseHandle_rowcount (st : WorkflowState) (f : Frame) (row : Nat) :
    (pauseHandle st f row).result_row_count = f.rows.length := by
  simp only [pauseHandle, refreshResult]
  split <;> rfl

/-- Loop-level pause/resume simulation.  If the first run of the block loop
(pause threshold `k0`, fresh workflow, no stored frame) pauses with frame `f`
at row `ρ`, then the resumed loop — restarted at the saved block index with
row cursor `ρ` over the stored frame `f` — and a fresh threshold-free loop
agree on the exit, the final store and the state core; moreover the
threshold-free loop cannot hang and its final store holds a frame. -/
theorem c1_loop_resume (env : Env) (wid : String) (blocks : List BlockDef) (k0 : Nat)
    (fs0 : FS) (f : Frame) (ρ : Nat)
    (hapi : ∀ bd ∈ blocks, apiOK bd)
    (hpause : (runBlocksGo env 0 0 (some k0) blocks 0 0 none
        (entryState (initialState wid blocks) blocks) none fs0).exit =
      LoopExit.pausedAt f ρ) :
    (runBlocksGo env
        (runBlocksGo env 0 0 (some k0) blocks 0 0 none
          (entryState (initialState wid blocks) blocks) none fs0).st.current_block_index
        ρ none blocks 0 0 (some f)
        (entryState (pauseHandle (runBlocksGo env 0 0 (some k0) blocks 0 0 none
          (entryState (initialState wid blocks) blocks) none fs0).st f ρ) blocks)
        (some f)
        (runBlocksGo env 0 0 (some k0) blocks 0 0 none
          (entryState (initialState wid blocks) blocks) none fs0).fs).exit =
      (runBlocksGo env 0 0 none blocks 0 0 none
        (entryState (initialState wid blocks) blocks) none fs0).exit ∧
    (runBlocksGo env
        (runBlocksGo env 0 0 (some k0) blocks 0 0 none
          (entryState (initialState wid blocks) blocks) none fs0).st.current_block_index
        ρ none blocks 0 0 (some f)
        (entryState (pauseHandle (runBlocksGo env 0 0 (some k0) blocks 0 0 none
          (entryState (initialState wid blocks) blocks) none fs0).st f ρ) blocks)
        (some f)
        (runBlocksGo env 0 0 (some k0) blocks 0 0 none
          (entryState (initialState wid blocks) blocks) none fs0).fs).store =
      (runBlocksGo env 0 0 none blocks 0 0 none
        (entryState (initialState wid blocks) blocks) none fs0).store ∧
    stateCore (runBlocksGo env
        (runBlocksGo env 0 0 (some k0) blocks 0 0 none
          (entryState (initialState wid blocks) blocks) none fs0).st.current_block_index
        ρ none blocks 0 0 (some f)
        (entryState (pauseHandle (runBlocksGo env 0 0 (some k0) blocks 0 0 none
          (entryState (initialState wid blocks) blocks) none fs0).st f ρ) blocks)
        (some f)
        (runBlocksGo env 0 0 (some k0) blocks 0 0 none
          (entryState (initialState wid blocks) blocks) none fs0).fs).st =
      stateCore (runBlocksGo env 0 0 none blocks 0 0 none
        (entryState (initialState wid blocks) blocks) none fs0).st ∧
    (runBlocksGo env 0 0 none blocks 0 0 none
        (entryState (initialState wid blocks) blocks) none fs0).exit ≠
      LoopExit.hungAt ∧
    (∃ g, (runBlocksGo env 0 0 none blocks 0 0 none
        (entryState (initialState wid blocks) blocks) none fs0).store = some g) := by
  set stE := entryState (initialState wid blocks) blocks with hstE
  set R1 := runBlocksGo env 0 0 (some k0) blocks 0 0 none stE none fs0 with hR1def
  have hstEb : stE.blocks.length = blocks.length := by
    rw [hstE]
    exact initBlocks_length blocks
  obtain ⟨c, bd, hget, hpre, hsplit⟩ :=
    runGo_paused_split env 0 0 (some k0) blocks 0 0 none stE none fs0 f ρ
      (Nat.le_refl 0) (by omega) hpause
  rw [← hR1def] at hsplit
  set Pk := runBlocksGo env 0 0 (some k0) (blocks.take c) 0 0 none stE none fs0
    with hPkdef
  have hclt : c < blocks.length := (List.get?_eq_some.mp hget).1
  have hbdmem : bd ∈ blocks := by
    obtain ⟨hlt2, hv⟩ := List.get?_eq_some.mp hget
    rw [← hv]
    exact List.get_mem blocks c hlt2
  have hib2 : c < Pk.st.blocks.length := by
    have hlb : Pk.st.blocks.length = stE.blocks.length :=
      runGo_blocks_length env 0 0 (some k0) (blocks.take c) 0 0 none stE none fs0
    omega
  have hskip0 : ¬ c < 0 := Nat.not_lt_zero c
  have hifz : (if c = 0 then (0 : Nat) else 0) = 0 := ite_self 0
  simp only [Nat.zero_add] at hsplit
  cases hres0 : (runBlock env Pk.fs bd.type bd.config Pk.curDf (some k0) Pk.cnt
      (if c = 0 then 0 else 0)).1.res with
  | ok f2 =>
    rw [runGo_cons_ok env 0 0 (some k0) bd [] c Pk.cnt Pk.curDf Pk.st Pk.store Pk.fs
      f2 hskip0 hib2 hres0] at hsplit
    have hx : R1.exit = LoopExit.done := by rw [hsplit]; rfl
    rw [hpause] at hx
    cases hx
  | err m =>
    rw [runGo_cons_err env 0 0 (some k0) bd [] c Pk.cnt Pk.curDf Pk.st Pk.store Pk.fs
      m hskip0 hib2 hres0] at hsplit
    have hx : R1.exit = LoopExit.raisedErr m := by rw [hsplit]
    rw [hpause] at hx
    cases hx
  | hung =>
    rw [runGo_cons_hung env 0 0 (some k0) bd [] c Pk.cnt Pk.curDf Pk.st Pk.store Pk.fs
      hskip0 hib2 hres0] at hsplit
    have hx : R1.exit = LoopExit.hungAt := by rw [hsplit]
    rw [hpause] at hx
    cases hx
  | paused f2 row2 =>
    rw [runGo_cons_paused env 0 0 (some k0) bd [] c Pk.cnt Pk.curDf Pk.st Pk.store
      Pk.fs f2 row2 hskip0 hib2 hres0] at hsplit
    have hx : R1.exit = LoopExit.pausedAt f2 row2 := by rw [hsplit]
    rw [hpause] at hx
    injection hx with hf2 hrow2
    subst hf2
    subst hrow2
    obtain ⟨htype, ⟨dfv, hdfv, hnz⟩, hfs2⟩ :=
      runBlock_paused_shape env Pk.fs bd.type bd.config Pk.curDf (some k0) Pk.cnt
        (if c = 0 then 0 else 0) f ρ hres0
    have hnd : nodupIdx dfv :=
      runGo_curDf_nodup env 0 0 (some k0) (blocks.take c) 0 0 none stE none fs0
        (fun g hg => by cases hg) dfv hdfv
    have hR1st : R1.st = applyProg (markRunning Pk.st c) c
        (runBlock env Pk.fs bd.type bd.config Pk.curDf (some k0) Pk.cnt
          (if c = 0 then 0 else 0)).1.prog := by rw [hsplit]
    have hR1fs : R1.fs = Pk.fs := by
      rw [hsplit]
      exact hfs2
    have hcbi : R1.st.current_block_index = c := by
      rw [hR1st]
      exact pausedState_index Pk.st c _
    have hokbd : apiOKT bd.type bd.config := hapi bd hbdmem
    obtain ⟨F, hRBr, hRBf⟩ :
        ∃ F, (∀ (fsx : FS) (cnt2 : Nat),
            (runBlock env fsx bd.type bd.config (some f) none cnt2 ρ).1.res =
              ExecResult.ok F ∧
            (runBlock env fsx bd.type bd.config (some f) none cnt2 ρ).2 = fsx) ∧
          (∀ (fsx : FS) (cnt3 : Nat),
            (runBlock env fsx bd.type bd.config (some dfv) none cnt3 0).1.res =
              ExecResult.ok F ∧
            (runBlock env fsx bd.type bd.config (some dfv) none cnt3 0).2 = fsx) := by
      rw [hdfv, hifz] at hres0
      rcases htype with ht | ht
      · rw [ht] at hres0 hokbd
        obtain ⟨hbs, hmc⟩ := hokbd
        obtain ⟨F, h1, h2⟩ := enrichLead_resume env bd.config dfv f (some k0) Pk.cnt ρ
          hnd hbs hmc hres0
        refine ⟨F, fun fsx cnt2 => ?_, fun fsx cnt3 => ?_⟩
        · rw [ht]
          exact ⟨h1 cnt2, rfl⟩
        · rw [ht]
          exact ⟨h2 cnt3, rfl⟩
      · rw [ht] at hres0 hokbd
        obtain ⟨hbs, hmc, hout⟩ := hokbd
        obtain ⟨F, h1, h2⟩ := findEmail_resume env bd.config dfv f (some k0) Pk.cnt ρ
          hnd hbs hmc hout hres0
        refine ⟨F, fun fsx cnt2 => ?_, fun fsx cnt3 => ?_⟩
        · rw [ht]
          exact ⟨h1 cnt2, rfl⟩
        · rw [ht]
          exact ⟨h2 cnt3, rfl⟩
    have hallTake : ∀ bd2 ∈ blocks.take c, apiOK bd2 :=
      fun bd2 h2 => hapi bd2 (List.take_subset c blocks h2)
    set Pn := runBlocksGo env 0 0 none (blocks.take c) 0 0 none stE none fs0
      with hPndef
    obtain ⟨hPnexit, hPnst, hPnstore, hPncur, hPnfs⟩ :
        Pn.exit = LoopExit.done ∧ Pn.st = Pk.st ∧ Pn.store = Pk.store ∧
          Pn.curDf = Pk.curDf ∧ Pn.fs = Pk.fs :=
      runGo_done_none env 0 0 (some k0) (blocks.take c) 0 0 0 none stE none fs0
        hallTake hpre
    have hfull : runBlocksGo env 0 0 none blocks 0 0 none stE none fs0 =
        runBlocksGo env 0 0 none (blocks.drop c) (0 + c) Pn.cnt Pn.curDf Pn.st
          Pn.store Pn.fs :=
      runGo_done_cont env 0 0 none c blocks 0 0 none stE none fs0
        (Nat.le_of_lt hclt) hPnexit
    rw [Nat.zero_add, hPnst, hPnstore, hPncur, hPnfs, hdfv] at hfull
    rw [drop_cons_of_get? blocks c bd hget] at hfull
    have hresF : (runBlock env Pk.fs bd.type bd.config (some dfv) none Pn.cnt
        (if c = 0 then 0 else 0)).1.res = ExecResult.ok F := by
      rw [hifz]
      exact (hRBf Pk.fs Pn.cnt).1
    rw [runGo_cons_ok env 0 0 none bd (blocks.drop (c + 1)) c Pn.cnt (some dfv)
      Pk.st Pk.store Pk.fs F hskip0 hib2 hresF] at hfull
    rw [hifz] at hfull
    rw [(hRBf Pk.fs Pn.cnt).2] at hfull
    have hibB : c < (entryState (pauseHandle R1.st f ρ) blocks).blocks.length := by
      have h1 : (entryState (pauseHandle R1.st f ρ) blocks).blocks.length =
          (pauseHandle R1.st f ρ).blocks.length := rfl
      have h2 := pauseHandle_blocks_length R1.st f ρ
      have h3 : R1.st.blocks.length = Pk.st.blocks.length := by
        rw [hR1st]
        exact pausedState_length Pk.st c _
      omega
    have hresumeSplit : runBlocksGo env R1.st.current_block_index ρ none blocks 0 0
        (some f) (entryState (pauseHandle R1.st f ρ) blocks) (some f) R1.fs =
        runBlocksGo env c ρ none (blocks.drop c) c 0 (some f)
          (entryState (pauseHandle R1.st f ρ) blocks) (some f) Pk.fs := by
      rw [hcbi, hR1fs]
      have hsp := runGo_skip_prefix env c ρ none blocks 0 0 (some f)
        (entryState (pauseHandle R1.st f ρ) blocks) (some f) Pk.fs
        (Nat.zero_le c) (by omega)
      rw [Nat.sub_zero] at hsp
      exact hsp
    have hresB : (runBlock env Pk.fs bd.type bd.config (some f) none 0
        (if c = c then ρ else 0)).1.res = ExecResult.ok F := by
      rw [if_pos rfl]
      exact (hRBr Pk.fs 0).1
    have hresume2 : runBlocksGo env c ρ none (blocks.drop c) c 0 (some f)
        (entryState (pauseHandle R1.st f ρ) blocks) (some f) Pk.fs =
        runBlocksGo env c ρ none (blocks.drop (c + 1)) (c + 1)
          (runBlock env Pk.fs bd.type bd.config (some f) none 0 ρ).1.cnt (some F)
          (stepState (entryState (pauseHandle R1.st f ρ) blocks) c
            (runBlock env Pk.fs bd.type bd.config (some f) none 0 ρ).1.prog F)
          (some F) Pk.fs := by
      rw [drop_cons_of_get? blocks c bd hget]
      rw [runGo_cons_ok env c ρ none bd (blocks.drop (c + 1)) c 0 (some f)
        (entryState (pauseHandle R1.st f ρ) blocks) (some f) Pk.fs F
        (Nat.lt_irrefl c) hibB hresB]
      rw [if_pos rfl]
      rw [(hRBr Pk.fs 0).2]
    have hmeta : Pk.st.status = stE.status ∧ Pk.st.error = stE.error ∧
        Pk.st.blocks_config = stE.blocks_config ∧
        Pk.st.pause_requested = stE.pause_requested ∧
        Pk.st.last_processed_row = stE.last_processed_row ∧
        Pk.st.workflow_id = stE.workflow_id :=
      metaOf_parts (runGo_metaOf env 0 0 (some k0) (blocks.take c) 0 0
        none stE none fs0)
    have hPkstatus : Pk.st.status = WorkflowStatus.running := by
      rw [hmeta.1, hstE]
      rfl
    have hPkpause : Pk.st.pause_requested = false := by
      rw [hmeta.2.2.2.1, hstE]
      rfl
    have hPkbc : Pk.st.blocks_config = some blocks := by
      rw [hmeta.2.2.1, hstE]
      rfl
    have hw12 : Pk.st.workflow_id =
        (entryState (pauseHandle R1.st f ρ) blocks).workflow_id := by
      show Pk.st.workflow_id = (pauseHandle R1.st f ρ).workflow_id
      rw [pauseHandle_wid, hR1st, pausedState_wid]
    have hs12 : Pk.st.status =
        (entryState (pauseHandle R1.st f ρ) blocks).status := by
      rw [hPkstatus]
      rfl
    have he12 : Pk.st.error = (entryState (pauseHandle R1.st f ρ) blocks).error := by
      show Pk.st.error = (pauseHandle R1.st f ρ).error
      rw [pauseHandle_error, hR1st, pausedState_error]
    have hp12 : Pk.st.pause_requested =
        (entryState (pauseHandle R1.st f ρ) blocks).pause_requested := by
      rw [hPkpause]
      rfl
    have hb12 : Pk.st.blocks_config =
        (entryState (pauseHandle R1.st f ρ) blocks).blocks_config := by
      rw [hPkbc]
      rfl
    have hgetne12 : ∀ j, j ≠ c → Pk.st.blocks.get? j =
        (entryState (pauseHandle R1.st f ρ) blocks).blocks.get? j := by
      intro j hj
      show Pk.st.blocks.get? j = (pauseHandle R1.st f ρ).blocks.get? j
      rw [pauseHandle_get?_ne R1.st f ρ j (by rw [hcbi]; exact hj)]
      rw [hR1st, pausedState_get?_ne Pk.st c _ j hj]
    have hR1lt : R1.st.current_block_index < R1.st.blocks.length := by
      have h3 : R1.st.blocks.length = Pk.st.blocks.length := by
        rw [hR1st]
        exact pausedState_length Pk.st c _
      omega
    have hgeti12 : (Pk.st.blocks.get? c).map
        (fun bb => (bb.block_id, bb.block_type, bb.error)) =
        ((entryState (pauseHandle R1.st f ρ) blocks).blocks.get? c).map
          (fun bb => (bb.block_id, bb.block_type, bb.error)) := by
      show _ = ((pauseHandle R1.st f ρ).blocks.get? c).map _
      have hcur := pauseHandle_get?_cur R1.st f ρ hR1lt
      rw [hcbi] at hcur
      rw [hcur]
      obtain ⟨g, hg, hgpres⟩ := pausedState_get?_i Pk.st c
        (runBlock env Pk.fs bd.type bd.config Pk.curDf (some k0) Pk.cnt
          (if c = 0 then 0 else 0)).1.prog
      rw [hR1st, hg]
      cases hPkc : Pk.st.blocks.get? c with
      | none => rfl
      | some b0 =>
        simp only [Option.map_some']
        rw [(hgpres b0).1, (hgpres b0).2.1, (hgpres b0).2.2]
    have hcore2 : stateCore (stepState Pk.st c
        (runBlock env Pk.fs bd.type bd.config (some dfv) none Pn.cnt 0).1.prog F) =
        stateCore (stepState (entryState (pauseHandle R1.st f ρ) blocks) c
          (runBlock env Pk.fs bd.type bd.config (some f) none 0 ρ).1.prog F) :=
      stepState_core_congr2 c _ _ F hw12 hs12 he12 hp12 hb12 hgetne12 hgeti12
    obtain ⟨hexs, hsts, hcurs, hfss, hcors⟩ :=
      runGo_congr env 0 0 c ρ (blocks.drop (c + 1)) (c + 1)
        (runBlock env Pk.fs bd.type bd.config (some dfv) none Pn.cnt 0).1.cnt
        (runBlock env Pk.fs bd.type bd.config (some f) none 0 ρ).1.cnt
        (some F)
        (stepState Pk.st c
          (runBlock env Pk.fs bd.type bd.config (some dfv) none Pn.cnt 0).1.prog F)
        (stepState (entryState (pauseHandle R1.st f ρ) blocks) c
          (runBlock env Pk.fs bd.type bd.config (some f) none 0 ρ).1.prog F)
        (some F) Pk.fs (Nat.succ_pos c) (Nat.lt_succ_self c) hcore2
    refine ⟨?_, ?_, ?_, ?_, ?_⟩
    · rw [hresumeSplit, hresume2, hfull]
      exact hexs.symm
    · rw [hresumeSplit, hresume2, hfull]
      exact hsts.symm
    · rw [hresumeSplit, hresume2, hfull]
      exact hcors.symm
    · exact runGo_none_no_hang env 0 0 blocks 0 0 none stE none fs0 hapi
    · cases hss : (runBlocksGo env 0 0 none (blocks.drop (c + 1)) (c + 1)
          (runBlock env Pk.fs bd.type bd.config (some dfv) none Pn.cnt 0).1.cnt
          (some F) (stepState Pk.st c
            (runBlock env Pk.fs bd.type bd.config (some dfv) none Pn.cnt 0).1.prog F)
          (some F) Pk.fs).store with
      | none =>
        have hcon := runGo_store_none env 0 0 none (blocks.drop (c + 1)) (c + 1)
          (runBlock env Pk.fs bd.type bd.config (some dfv) none Pn.cnt 0).1.cnt
          (some F) (stepState Pk.st c
            (runBlock env Pk.fs bd.type bd.config (some dfv) none Pn.cnt 0).1.prog F)
          (some F) Pk.fs hss
        cases hcon
      | some g =>
        refine ⟨g, ?_⟩
        rw [hfull]
        exact hss

theorem pauseHandle_blocks_congr2 {a b : WorkflowState} (hbl : a.blocks = b.blocks)
    (hid : a.current_block_index = b.current_block_index) (f : Frame) (r : Nat) :
    (pauseHandle a f r).blocks = (pauseHandle b f r).blocks := by
  rw [pauseHandle_blocks_eq, pauseHandle_blocks_eq, hbl, hid]

theorem failHandle_blocks_congr2 {a b : WorkflowState} (hbl : a.blocks = b.blocks)
    (hid : a.current_block_index = b.current_block_index) (m : String) :
    (failHandle a m).blocks = (failHandle b m).blocks := by
  rw [failHandle_blocks_eq, failHandle_blocks_eq, hbl, hid]

/-- C1: Pause/resume equivalence, amended with provisos the source requires:
the run starts from a freshly created workflow (no frame stored under its id
yet), and every block's configuration is benign for resumption — API blocks
have positive batch size and concurrency, and a find_email block does not
write its results into the very column its skip_existing pass reads (output
column "email" together with skip_existing enabled is excluded).  Under
these provisos, whenever the first run (arbitrary pause threshold) pauses,
resuming it returns, and the returned state and registries agree with a
fresh threshold-free run: same stored frame, same result_columns and
result_row_count, same status and error, and identical per-block statuses. -/
theorem c1_pause_resume_equiv (env : Env) (w : World) (wid : String)
    (blocks : List BlockDef) (k0 : Nat) (f : Frame) (ρ : Nat)
    (hst : alookup w.engine.workflows wid = some (initialState wid blocks))
    (hdf : alookup w.engine.dataframes wid = none)
    (hapi : ∀ bd ∈ blocks, apiOK bd)
    (hpause : (runBlocksGo env 0 0 (some k0) blocks 0 0 none
        (entryState (initialState wid blocks) blocks) none w.fs).exit =
      LoopExit.pausedAt f ρ) :
    ∃ stR stF,
      (resumeWorkflow env (executeWorkflow env w wid blocks 0 0 (some k0)).1 wid
          none).2 = some (RunOutcome.returned stR) ∧
      (executeWorkflow env w wid blocks 0 0 none).2 = RunOutcome.returned stF ∧
      alookup (resumeWorkflow env (executeWorkflow env w wid blocks 0 0
          (some k0)).1 wid none).1.engine.workflows wid = some stR ∧
      alookup (executeWorkflow env w wid blocks 0 0 none).1.engine.workflows wid =
        some stF ∧
      alookup (resumeWorkflow env (executeWorkflow env w wid blocks 0 0
          (some k0)).1 wid none).1.engine.dataframes wid =
        alookup (executeWorkflow env w wid blocks 0 0 none).1.engine.dataframes wid ∧
      stR.status = stF.status ∧
      stR.error = stF.error ∧
      stR.result_columns = stF.result_columns ∧
      stR.result_row_count = stF.result_row_count ∧
      stR.blocks.map (fun b => b.status) = stF.blocks.map (fun b => b.status) := by
  have hexitA : (runBlocksGo env 0 0 (some k0) blocks 0 0
      (alookup w.engine.dataframes wid) (entryState (initialState wid blocks) blocks)
      (alookup w.engine.dataframes wid) w.fs).exit = LoopExit.pausedAt f ρ := by
    rw [hdf]
    exact hpause
  have hexecP := executeWorkflow_pausedAt env w wid blocks 0 0 (some k0)
    (initialState wid blocks) f ρ hst hexitA
  rw [hdf] at hexecP
  have hne : blocks ≠ [] := by
    intro hnil
    rw [hnil] at hpause
    have hx : (runBlocksGo env 0 0 (some k0) ([] : List BlockDef) 0 0 none
        (entryState (initialState wid []) []) none w.fs).exit = LoopExit.done := rfl
    rw [hpause] at hx
    cases hx
  have hw1st : alookup (executeWorkflow env w wid blocks 0 0
      (some k0)).1.engine.workflows wid =
      some (pauseHandle (runBlocksGo env 0 0 (some k0) blocks 0 0 none
        (entryState (initialState wid blocks) blocks) none w.fs).st f ρ) := by
    rw [hexecP]
    exact alookup_aupsert_self wid _ w.engine.workflows
  have hw1df : alookup (executeWorkflow env w wid blocks 0 0
      (some k0)).1.engine.dataframes wid = some f := by
    rw [hexecP]
    exact alookup_aupsert_self wid f w.engine.dataframes
  have hw1fs : (executeWorkflow env w wid blocks 0 0 (some k0)).1.fs =
      (runBlocksGo env 0 0 (some k0) blocks 0 0 none
        (entryState (initialState wid blocks) blocks) none w.fs).fs := by
    rw [hexecP]
  have hstPbc : (pauseHandle (runBlocksGo env 0 0 (some k0) blocks 0 0 none
      (entryState (initialState wid blocks) blocks) none w.fs).st f ρ).blocks_config =
      some blocks := by
    rw [pauseHandle_bc]
    have hm := metaOf_parts (runGo_metaOf env 0 0 (some k0) blocks 0 0 none
      (entryState (initialState wid blocks) blocks) none w.fs)
    rw [hm.2.2.1]
    rfl
  have hresumeEq := resumeWorkflow_eq env
    (executeWorkflow env w wid blocks 0 0 (some k0)).1 wid none
    (pauseHandle (runBlocksGo env 0 0 (some k0) blocks 0 0 none
      (entryState (initialState wid blocks) blocks) none w.fs).st f ρ)
    blocks hw1st (pauseHandle_status _ f ρ) hstPbc hne
  rw [pauseHandle_index, pauseHandle_lpr] at hresumeEq
  have hexecR := executeWorkflow_eq env
    (executeWorkflow env w wid blocks 0 0 (some k0)).1 wid blocks
    (runBlocksGo env 0 0 (some k0) blocks 0 0 none
      (entryState (initialState wid blocks) blocks) none w.fs).st.current_block_index
    ρ none
    (pauseHandle (runBlocksGo env 0 0 (some k0) blocks 0 0 none
      (entryState (initialState wid blocks) blocks) none w.fs).st f ρ) hw1st
  rw [hw1df, hw1fs] at hexecR
  have hexecF := executeWorkflow_eq env w wid blocks 0 0 none
    (initialState wid blocks) hst
  rw [hdf] at hexecF
  obtain ⟨hexitBA, hstoreBA, hcoreBA, hnohang, g, hsome⟩ :=
    c1_loop_resume env wid blocks k0 w.fs f ρ hapi hpause
  have hparts := stateCore_parts hcoreBA
  cases hex : (runBlocksGo env 0 0 none blocks 0 0 none
      (entryState (initialState wid blocks) blocks) none w.fs).exit with
  | hungAt => exact absurd hex hnohang
  | done =>
    rw [hex] at hexitBA hexecF
    rw [hexitBA] at hexecR
    dsimp only at hexecF hexecR
    rw [hsome] at hexecF hstoreBA
    rw [hstoreBA] at hexecR
    dsimp only at hexecF hexecR
    obtain ⟨SR, hSRdef⟩ : ∃ SR, RunOutcome.returned SR =
        (executeWorkflow env (executeWorkflow env w wid blocks 0 0 (some k0)).1 wid
          blocks (runBlocksGo env 0 0 (some k0) blocks 0 0 none
            (entryState (initialState wid blocks) blocks) none
            w.fs).st.current_block_index ρ none).2 := ⟨_, by rw [hexecR]⟩
    obtain ⟨SF, hSFdef⟩ : ∃ SF, RunOutcome.returned SF =
        (executeWorkflow env w wid blocks 0 0 none).2 := ⟨_, by rw [hexecF]⟩
    have hSRc := hSRdef
    rw [hexecR] at hSRc
    dsimp only at hSRc
    injection hSRc with hSRst
    have hSFc := hSFdef
    rw [hexecF] at hSFc
    dsimp only at hSFc
    injection hSFc with hSFst
    refine ⟨SR, SF, ?_, ?_, ?_, ?_, ?_, ?_, ?_, ?_, ?_, ?_⟩
    · rw [hresumeEq]
      dsimp only
      rw [← hSRdef]
    · rw [← hSFdef]
    · rw [hresumeEq]
      dsimp only
      rw [hexecR]
      dsimp only
      rw [hSRst]
      exact alookup_aupsert_self _ _ _
    · rw [hexecF]
      dsimp only
      rw [hSFst]
      exact alookup_aupsert_self _ _ _
    · rw [hresumeEq]
      dsimp only
      rw [hexecR, hexecF]
      dsimp only
      exact (alookup_aupsert_self _ _ _).trans (alookup_aupsert_self _ _ _).symm
    · rw [hSRst, hSFst]
    · rw [hSRst, hSFst]
      exact hparts.2.2.2.2.1
    · rw [hSRst, hSFst]
      exact hparts.2.2.2.2.2.2.1
    · rw [hSRst, hSFst]
      exact hparts.2.2.2.2.2.2.2.1
    · rw [hSRst, hSFst]
      exact congrArg (List.map (fun b => b.status)) hparts.2.2.1
  | pausedAt f2 row2 =>
    rw [hex] at hexitBA hexecF
    rw [hexitBA] at hexecR
    dsimp only at hexecF hexecR
    obtain ⟨SR, hSRdef⟩ : ∃ SR, RunOutcome.returned SR =
        (executeWorkflow env (executeWorkflow env w wid blocks 0 0 (some k0)).1 wid
          blocks (runBlocksGo env 0 0 (some k0) blocks 0 0 none
            (entryState (initialState wid blocks) blocks) none
            w.fs).st.current_block_index ρ none).2 := ⟨_, by rw [hexecR]⟩
    obtain ⟨SF, hSFdef⟩ : ∃ SF, RunOutcome.returned SF =
        (executeWorkflow env w wid blocks 0 0 none).2 := ⟨_, by rw [hexecF]⟩
    have hSRc := hSRdef
    rw [hexecR] at hSRc
    dsimp only at hSRc
    injection hSRc with hSRst
    have hSFc := hSFdef
    rw [hexecF] at hSFc
    dsimp only at hSFc
    injection hSFc with hSFst
    refine ⟨SR, SF, ?_, ?_, ?_, ?_, ?_, ?_, ?_, ?_, ?_, ?_⟩
    · rw [hresumeEq]
      dsimp only
      rw [← hSRdef]
    · rw [← hSFdef]
    · rw [hresumeEq]
      dsimp only
      rw [hexecR]
      dsimp only
      rw [hSRst]
      exact alookup_aupsert_self _ _ _
    · rw [hexecF]
      dsimp only
      rw [hSFst]
      exact alookup_aupsert_self _ _ _
    · rw [hresumeEq]
      dsimp only
      rw [hexecR, hexecF]
      dsimp only
      exact (alookup_aupsert_self _ _ _).trans (alookup_aupsert_self _ _ _).symm
    · rw [hSRst, hSFst]
      exact (pauseHandle_status _ _ _).trans (pauseHandle_status _ _ _).symm
    · rw [hSRst, hSFst]
      exact (pauseHandle_error _ _ _).trans
        (hparts.2.2.2.2.1.trans (pauseHandle_error _ _ _).symm)
    · rw [hSRst, hSFst]
      exact (pauseHandle_columns _ _ _).trans (pauseHandle_columns _ _ _).symm
    · rw [hSRst, hSFst]
      exact (pauseHandle_rowcount _ _ _).trans (pauseHandle_rowcount _ _ _).symm
    · rw [hSRst, hSFst]
      exact congrArg (List.map (fun b => b.status))
        (pauseHandle_blocks_congr2 hparts.2.2.1 hparts.2.2.2.1 f2 row2)
  | raisedErr m =>
    rw [hex] at hexitBA hexecF
    rw [hexitBA] at hexecR
    dsimp only at hexecF hexecR
    rw [hsome] at hexecF hstoreBA
    rw [hstoreBA] at hexecR
    dsimp only at hexecF hexecR
    obtain ⟨SR, hSRdef⟩ : ∃ SR, RunOutcome.returned SR =
        (executeWorkflow env (executeWorkflow env w wid blocks 0 0 (some k0)).1 wid
          blocks (runBlocksGo env 0 0 (some k0) blocks 0 0 none
            (entryState (initialState wid blocks) blocks) none
            w.fs).st.current_block_index ρ none).2 := ⟨_, by rw [hexecR]⟩
    obtain ⟨SF, hSFdef⟩ : ∃ SF, RunOutcome.returned SF =
        (executeWorkflow env w wid blocks 0 0 none).2 := ⟨_, by rw [hexecF]⟩
    have hSRc := hSRdef
    rw [hexecR] at hSRc
    dsimp only at hSRc
    injection hSRc with hSRst
    have hSFc := hSFdef
    rw [hexecF] at hSFc
    dsimp only at hSFc
    injection hSFc with hSFst
    refine ⟨SR, SF, ?_, ?_, ?_, ?_, ?_, ?_, ?_, ?_, ?_, ?_⟩
    · rw [hresumeEq]
      dsimp only
      rw [← hSRdef]
    · rw [← hSFdef]
    · rw [hresumeEq]
      dsimp only
      rw [hexecR]
      dsimp only
      rw [hSRst]
      exact alookup_aupsert_self _ _ _
    · rw [hexecF]
      dsimp only
      rw [hSFst]
      exact alookup_aupsert_self _ _ _
    · rw [hresumeEq]
      dsimp only
      rw [hexecR, hexecF]
      dsimp only
      exact (alookup_aupsert_self _ _ _).trans (alookup_aupsert_self _ _ _).symm
    · rw [hSRst, hSFst]
      exact (failHandle_status _ _).trans (failHandle_status _ _).symm
    · rw [hSRst, hSFst]
      exact (failHandle_error _ _).trans (failHandle_error _ _).symm
    · rw [hSRst, hSFst]
      exact (failHandle_columns _ _).trans
        (hparts.2.2.2.2.2.2.1.trans (failHandle_columns _ _).symm)
    · rw [hSRst, hSFst]
      exact (failHandle_rowcount _ _).trans
        (hparts.2.2.2.2.2.2.2.1.trans (failHandle_rowcount _ _).symm)
    · rw [hSRst, hSFst]
      exact congrArg (List.map (fun b => b.status))
        (failHandle_blocks_congr2 hparts.2.2.1 hparts.2.2.2.1 m)

/-- Environment for the concrete pause/resume scenarios: the decoder returns
a two-row frame and the clients answer deterministically. -/
def envC1 : Env :=
  { enrich_lead := fun _ _ => ⟨true, some [(("x"), some (.vStr ("v")))], none⟩
    find_email := fun _ _ => ⟨true, some [(("email"), some (.vStr ("e")))], none⟩
    decode := fun _ => .ok dfC2
    encode := fun _ => "" }

/-- read_csv then enrich_lead with concurrency 1 (benign for resumption). -/
def blocksC1 : List BlockDef :=
  [{ id := ("r"), type := BlockType.read_csv, config := { file_path := ("f") } },
   { id := ("e"), type := BlockType.enrich_lead, config := cfgC2 }]

def wC1 : World :=
  { engine := { workflows := [(("w"), initialState ("w") blocksC1)] }
    fs := { entries := [(("data/f"), (""))] } }

/-- The frame held when the first run of `blocksC1` pauses at threshold 1. -/
def fC1 : Frame :=
  ⟨[("name"), ("enriched_x")], [(0, [(("enriched_x"), some (.vStr ("v")))]), (1, [])]⟩

theorem c1_pause_resume_equiv_witness :
    (alookup wC1.engine.workflows ("w") = some (initialState ("w") blocksC1)) ∧
    (alookup wC1.engine.dataframes ("w") = none) ∧
    (∀ bd ∈ blocksC1, apiOK bd) ∧
    ((runBlocksGo envC1 0 0 (some 1) blocksC1 0 0 none
        (entryState (initialState ("w") blocksC1) blocksC1) none wC1.fs).exit =
      LoopExit.pausedAt fC1 1) ∧
    (∃ stR stF,
      (resumeWorkflow envC1 (executeWorkflow envC1 wC1 ("w") blocksC1 0 0
          (some 1)).1 ("w") none).2 = some (RunOutcome.returned stR) ∧
      (executeWorkflow envC1 wC1 ("w") blocksC1 0 0 none).2 =
        RunOutcome.returned stF ∧
      alookup (resumeWorkflow envC1 (executeWorkflow envC1 wC1 ("w") blocksC1 0 0
          (some 1)).1 ("w") none).1.engine.workflows ("w") = some stR ∧
      alookup (executeWorkflow envC1 wC1 ("w") blocksC1 0 0
          none).1.engine.workflows ("w") = some stF ∧
      alookup (resumeWorkflow envC1 (executeWorkflow envC1 wC1 ("w") blocksC1 0 0
          (some 1)).1 ("w") none).1.engine.dataframes ("w") =
        alookup (executeWorkflow envC1 wC1 ("w") blocksC1 0 0
          none).1.engine.dataframes ("w") ∧
      stR.status = stF.status ∧
      stR.error = stF.error ∧
      stR.result_columns = stF.result_columns ∧
      stR.result_row_count = stF.result_row_count ∧
      stR.blocks.map (fun b => b.status) = stF.blocks.map (fun b => b.status)) := by
  refine ⟨by decide, rfl, ?_, by decide, ?_⟩
  · intro bd hbd
    simp only [blocksC1, List.mem_cons, List.not_mem_nil, or_false] at hbd
    rcases hbd with h | h
    · rw [h]
      exact trivial
    · rw [h]
      exact ⟨by decide, by decide⟩
  · refine c1_pause_resume_equiv envC1 wC1 ("w") blocksC1 1 fC1 1 (by decide) rfl
      ?_ (by decide)
    intro bd hbd
    simp only [blocksC1, List.mem_cons, List.not_mem_nil, or_false] at hbd
    rcases hbd with h | h
    · rw [h]
      exact trivial
    · rw [h]
      exact ⟨by decide, by decide⟩

/-- read_csv then find_email writing into the skip column itself: the
configuration the unamended claim fails on. -/
def blocksCX : List BlockDef :=
  [{ id := ("r"), type := BlockType.read_csv, config := { file_path := ("f") } },
   { id := ("e"), type := BlockType.find_email,
     config := { output_column := ("email"), max_concurrent := some 1 } }]

def wCX : World :=
  { engine := { workflows := [(("w"), initialState ("w") blocksCX)] }
    fs := { entries := [(("data/f"), (""))] } }

/-- Counterexample to the unamended C1 claim: a find_email block with
`output_column = "email"` and `skip_existing` left at its default `true`.
The first run pauses after one row; on resume the re-preparation pass treats
the email written before the pause as pre-existing, so the surviving
candidate list shrinks below the saved row cursor and the second row is
never processed.  The paused-then-resumed run and the fresh uninterrupted
run both return, but their stored frames differ: the fresh run fills the
email of both rows, the resumed run leaves row 1 empty. -/
theorem c1_resume_skip_existing_loss :
    (alookup wCX.engine.workflows ("w") = some (initialState ("w") blocksCX)) ∧
    (alookup wCX.engine.dataframes ("w") = none) ∧
    ((runBlocksGo envC1 0 0 (some 1) blocksCX 0 0 none
        (entryState (initialState ("w") blocksCX) blocksCX) none wCX.fs).exit =
      LoopExit.pausedAt
        ⟨[("name"), ("email")], [(0, [(("email"), some (.vStr ("e")))]), (1, [])]⟩ 1) ∧
    ((resumeWorkflow envC1 (executeWorkflow envC1 wCX ("w") blocksCX 0 0
        (some 1)).1 ("w") none).2 ≠ none) ∧
    (alookup (resumeWorkflow envC1 (executeWorkflow envC1 wCX ("w") blocksCX 0 0
        (some 1)).1 ("w") none).1.engine.dataframes ("w") =
      some ⟨[("name"), ("email")],
        [(0, [(("email"), some (.vStr ("e")))]), (1, [])]⟩) ∧
    (alookup (executeWorkflow envC1 wCX ("w") blocksCX 0 0
        none).1.engine.dataframes ("w") =
      some ⟨[("name"), ("email")],
        [(0, [(("email"), some (.vStr ("e")))]),
         (1, [(("email"), some (.vStr ("e")))])]⟩) ∧
    alookup (resumeWorkflow envC1 (executeWorkflow envC1 wCX ("w") blocksCX 0 0
        (some 1)).1 ("w") none).1.engine.dataframes ("w") ≠
      alookup (executeWorkflow envC1 wCX ("w") blocksCX 0 0
        none).1.engine.dataframes ("w") := by
  decide

end Workflow
